import Mathlib

/-!
# Blaze: column views, structural traits of the `Sub` functor, and compile-time traits

A shallow embedding of parts of the Blaze linear-algebra library:

* `blaze/math/views/column/Dense.h`  (the dense column view `ColumnImpl`),
* `blaze/math/functors/Sub.h`        (the `Sub` functor and its `Yields*` specialisations),
* `blaze/math/traits/MultTrait.h`    (the result type of a multiplication),
* `blaze/math/typetraits/HasClamp.h`, `HasInvSqrt.h` (availability of element-wise operations),
* `blaze/util/mpl/Or.h`, `Minus.h`   (compile-time disjunction and subtraction),
* `blaze/math/traits/TSMatScalarMultExprTrait.h` (an expression type trait).

Machine integers of type `size_t` are natural numbers reduced modulo `2^64`.
Loops are run by `whileLoop` with an explicit iteration budget; a loop that does not
finish within its budget yields `none`.
-/

namespace Blaze

/-! ## Machine arithmetic and loops -/

/-- The value of a `size_t` expression: reduction modulo `2^64`. -/
def sizeT (x : Nat) : Nat := x % 18446744073709551616

/-- The `size_t` value of `size_t(-x)`, i.e. `2^64 - x` reduced modulo `2^64`. -/
def sizeTNeg (x : Nat) : Nat := sizeT (18446744073709551616 - sizeT x)

/-- A `for( ; cond; step )` / `while` loop over a state `σ`: `body` is the loop body
followed by the increment.  The first argument bounds the number of iterations. -/
def whileLoop {σ : Type} (cond : σ → Bool) (body : σ → σ) : Nat → σ → Option σ
  | 0, _ => none
  | fuel + 1, s => if cond s then whileLoop cond body fuel (body s) else some s

/-! ## Matrices and their compile-time structure flags -/

/-- The structural type traits of a matrix type `MT` that the column view queries
(`IsLower<MT>::value`, `IsUniLower<MT>::value`, ...). -/
structure MatrixTraits where
  isSymmetric : Bool
  isHermitian : Bool
  isLower : Bool
  isUniLower : Bool
  isStrictlyLower : Bool
  isUpper : Bool
  isUniUpper : Bool
  isStrictlyUpper : Bool
  isRestricted : Bool
  isPadded : Bool
  simdEnabled : Bool
deriving DecidableEq, Repr

/-- The traits of a general (unrestricted, unstructured) dense matrix type. -/
def generalTraits : MatrixTraits :=
  { isSymmetric := false, isHermitian := false, isLower := false, isUniLower := false,
    isStrictlyLower := false, isUpper := false, isUniUpper := false,
    isStrictlyUpper := false, isRestricted := false, isPadded := false, simdEnabled := false }

/-- The traits of a `StrictlyLowerMatrix` adaptor type: lower and strictly lower, not upper,
restricted. -/
def strictlyLowerTraits : MatrixTraits :=
  { generalTraits with isLower := true, isStrictlyLower := true, isRestricted := true }

/-- A dense matrix: its dimensions and its elements `matrix(i,j)`.  Rows at or beyond `rows`
of a column stand for the padding elements of that column. -/
structure DenseMatrix (α : Type) where
  rows : Nat
  columns : Nat
  elem : Nat → Nat → α

/-- The element write `matrix(i,j) = v`. -/
def DenseMatrix.set {α : Type} (m : DenseMatrix α) (i j : Nat) (v : α) : DenseMatrix α :=
  { m with elem := fun a b => if a = i ∧ b = j then v else m.elem a b }

/-- Modelled from the spec: the write `matrix_(i,j) = v` through the reference type
`Reference_<MT>` of the matrix type.  For a storage container it sets the element `(i,j)`; a
symmetric adaptor (the adaptors are not part of the sources) enforces its structure on every
mutation, so with `mirrored` it sets the element `(j,i)` as well. -/
def DenseMatrix.write {α : Type} (mirrored : Bool) (m : DenseMatrix α) (i j : Nat) (v : α) :
    DenseMatrix α :=
  { m with elem := fun a b =>
      if (a = i ∧ b = j) ∨ (mirrored = true ∧ a = j ∧ b = i) then v else m.elem a b }

/-! ## Homogeneous assignment `column = scalar` -/

/-- The first row touched by `operator=( const ElementType& )`. -/
def fillBegin (t : MatrixTraits) (column : Nat) : Nat :=
  if t.isLower then
    (if t.isUniLower || t.isStrictlyLower then sizeT (column + 1) else column)
  else 0

/-- One past the last row touched by `operator=( const ElementType& )`. -/
def fillEnd (t : MatrixTraits) (column size : Nat) : Nat :=
  if t.isUpper then
    (if t.isUniUpper || t.isStrictlyUpper then column else sizeT (column + 1))
  else size

/-- The loop `for( size_t i=ibegin; i<iend; ++i ) matrix_(i,column()) = rhs;`.  Each write
goes through the reference type of the matrix type; `mirrored` tells whether that type
mirrors its writes (`DenseMatrix.write`). -/
def fillLoop {α : Type} (mirrored : Bool) (column iend : Nat) (rhs : α) (fuel : Nat)
    (s : Nat × DenseMatrix α) : Option (Nat × DenseMatrix α) :=
  whileLoop (fun s => decide (s.1 < iend))
    (fun s => (sizeT (s.1 + 1), s.2.write mirrored s.1 column rhs)) fuel s

namespace ColumnMajor

/-- The member `size()` of the column view: `matrix_.rows()`. -/
def size {α : Type} (m : DenseMatrix α) : Nat := m.rows

/-- The operator `ColumnImpl<MT,true,true,SF,CIs...>::operator=( const ElementType& rhs )`.
This specialisation serves every column-major matrix type, the symmetric ones included (the
symmetry flag `SF` is free); a symmetric matrix type mirrors the writes. -/
def assignScalar {α : Type} (t : MatrixTraits) (m : DenseMatrix α) (column : Nat) (rhs : α) :
    Option (DenseMatrix α) :=
  let ibegin := fillBegin t column
  let iend := fillEnd t column (size m)
  (fillLoop t.isSymmetric column iend rhs (iend + 1) (ibegin, m)).map Prod.snd

end ColumnMajor

namespace RowMajor

/-- The member `size()` of the column view on a row-major matrix: `matrix_.rows()`. -/
def size {α : Type} (m : DenseMatrix α) : Nat := m.rows

/-- The operator `ColumnImpl<MT,false,true,false,CIs...>::operator=( const ElementType& rhs )`.
This specialisation is the one of the row-major matrix types that are not symmetric (the
symmetry flag is `false`). -/
def assignScalar {α : Type} (t : MatrixTraits) (m : DenseMatrix α) (column : Nat) (rhs : α) :
    Option (DenseMatrix α) :=
  let ibegin := fillBegin t column
  let iend := fillEnd t column (size m)
  (fillLoop t.isSymmetric column iend rhs (iend + 1) (ibegin, m)).map Prod.snd

end RowMajor

/-! ## Vector expressions on the right-hand side of an assignment -/

/-- The compile-time properties of a right-hand side vector type `VT` that the column view
queries.  The `hasSIMD*` and `simdCombinable` flags relate the element type of `VT` to the
element type of the column. -/
structure VectorTraits where
  isSparse : Bool
  simdEnabled : Bool
  simdCombinable : Bool
  isPadded : Bool
  compositeIsReference : Bool
  hasSIMDAdd : Bool
  hasSIMDSub : Bool
  hasSIMDMult : Bool
  hasSIMDDiv : Bool
deriving DecidableEq, Repr

/-- A right-hand side vector (expression) of type `VT`.  Expressions are lazy: the element
`(~rhs)[i]` of a dense expression and the stored elements `begin()..end()` of a sparse
expression are computed from the current state of the matrix the column view refers to, so
an expression that refers to that matrix (an alias) observes writes made to it.
`canAlias` is the answer of `right.canAlias( &matrix_ )`, `isAliased` the answer of
`(~rhs).isAliased( this )`, and `resultTraits` are the traits of `ResultType_<VT>`. -/
structure VecExpr (α : Type) where
  traits : VectorTraits
  resultTraits : VectorTraits
  size : Nat
  elem : DenseMatrix α → Nat → α
  entries : DenseMatrix α → List (Nat × α)
  canAlias : Bool
  isAliased : Bool

/-- The value stored in a list of sparse elements at index `i`, the default value `0` where
no element is stored. -/
def sparseLookup {α : Type} [Zero α] (es : List (Nat × α)) (i : Nat) : α :=
  match es.find? (fun e => e.1 == i) with
  | some e => e.2
  | none => 0

/-- The value of element `i` of a vector expression in matrix state `m`. -/
def VecExpr.value {α : Type} [Zero α] (e : VecExpr α) (m : DenseMatrix α) (i : Nat) : α :=
  if e.traits.isSparse then sparseLookup (e.entries m) i else e.elem m i

/-- The evaluation `const ResultType_<VT> tmp( right )` of an expression in matrix state `m`
into a temporary of its own result type: the temporary no longer depends on the matrix.  A
sparse expression yields a sparse temporary holding the same stored elements. -/
def VecExpr.eval {α : Type} (e : VecExpr α) (m : DenseMatrix α) : VecExpr α :=
  { traits := e.resultTraits, resultTraits := e.resultTraits, size := e.size,
    elem := fun _ i => e.elem m i, entries := fun _ => e.entries m,
    canAlias := false, isAliased := false }

/-- The traits of the dense result type `ResultType` (`ColumnTrait_<MT>`) of a column view. -/
def columnResultTraits : VectorTraits :=
  { isSparse := false, simdEnabled := true, simdCombinable := true, isPadded := true,
    compositeIsReference := true, hasSIMDAdd := true, hasSIMDSub := true,
    hasSIMDMult := true, hasSIMDDiv := true }

/-- The evaluation `const ResultType tmp( right )` of an expression in matrix state `m` into
the dense result type of the column view: every element, stored or not, is materialised. -/
def VecExpr.toDense {α : Type} [Zero α] (e : VecExpr α) (m : DenseMatrix α) : VecExpr α :=
  { traits := columnResultTraits, resultTraits := columnResultTraits, size := e.size,
    elem := fun _ i => e.value m i, entries := fun _ => [],
    canAlias := false, isAliased := false }

/-! ## Assignment kernels -/

/-- The global configuration switches and SIMD constants the kernels consult. -/
structure KernelConfig where
  useOptimizedKernels : Bool
  useStreaming : Bool
  cacheSize : Nat
  sizeofElement : Nat
  SIMDSIZE : Nat
deriving DecidableEq, Repr

/-- The state of a kernel loop: the counter `i`, the positions of the iterators `left` and
`right` relative to `begin()`, and the matrix. -/
structure KernelState (α : Type) where
  i : Nat
  left : Nat
  right : Nat
  matrix : DenseMatrix α

/-- The SIMD load `right.load()` of `S` consecutive elements of the right-hand side starting
at position `pos`; lane `k` of the pack holds element `pos + k`. -/
def loadRight {α : Type} (rhs : VecExpr α) (m : DenseMatrix α) (pos : Nat) : Nat → α :=
  fun k => rhs.elem m (pos + k)

/-- The SIMD load `left.load()` of `S` consecutive elements of the column. -/
def loadLeft {α : Type} (m : DenseMatrix α) (column pos : Nat) : Nat → α :=
  fun k => m.elem (pos + k) column

/-- The SIMD store `left.store( pack )` (and likewise the non-temporal `left.stream( pack )`)
of the `S` lanes of `pack` to the rows `pos .. pos+S-1` of the column. -/
def storePack {α : Type} (m : DenseMatrix α) (column pos S : Nat) (pack : Nat → α) :
    DenseMatrix α :=
  { m with elem := fun a b =>
      if b = column ∧ pos ≤ a ∧ a < pos + S then pack (a - pos) else m.elem a b }

/-- One batch `left.store( op( left.load(), right.load() ) ); left += SIMDSIZE;
right += SIMDSIZE;` of a SIMD kernel. -/
def simdBatch {α : Type} (op : α → α → α) (S column : Nat) (rhs : VecExpr α)
    (s : KernelState α) : KernelState α :=
  let l := loadLeft s.matrix column s.left
  let r := loadRight rhs s.matrix s.right
  { s with matrix := storePack s.matrix column s.left S (fun k => op (l k) (r k)),
           left := s.left + S, right := s.right + S }

/-- One scalar step `*left op= *right; ++left; ++right;` of the remainder loop. -/
def scalarStep {α : Type} (op : α → α → α) (column : Nat) (rhs : VecExpr α)
    (s : KernelState α) : KernelState α :=
  { s with matrix := s.matrix.set s.left column
             (op (s.matrix.elem s.left column) (rhs.elem s.matrix s.right)),
           left := s.left + 1, right := s.right + 1 }

/-- The loop end `ipos` of the SIMD kernels:
`( remainder )?( rows & size_t(-SIMDSIZE) ):( rows )`. -/
def simdEnd (remainder : Bool) (rows S : Nat) : Nat :=
  if remainder then Nat.land rows (sizeTNeg S) else rows

/-- The four-way unrolled loop
`for( ; (i+SIMDSIZE*3UL) < ipos; i+=SIMDSIZE*4UL ) { batch; batch; batch; batch; }`. -/
def unrolledLoop {α : Type} (op : α → α → α) (S column ipos : Nat) (rhs : VecExpr α)
    (fuel : Nat) (s : KernelState α) : Option (KernelState α) :=
  whileLoop (fun s => decide (sizeT (s.i + sizeT (S * 3)) < ipos))
    (fun s =>
      let s4 := simdBatch op S column rhs (simdBatch op S column rhs
        (simdBatch op S column rhs (simdBatch op S column rhs s)))
      { s4 with i := sizeT (s.i + sizeT (S * 4)) }) fuel s

/-- The single-batch loop `for( ; i<ipos; i+=SIMDSIZE ) { batch; }`. -/
def batchLoop {α : Type} (op : α → α → α) (S column ipos : Nat) (rhs : VecExpr α)
    (fuel : Nat) (s : KernelState α) : Option (KernelState α) :=
  whileLoop (fun s => decide (s.i < ipos))
    (fun s => { simdBatch op S column rhs s with i := sizeT (s.i + S) }) fuel s

/-- The scalar remainder loop `for( ; remainder && i<rows; ++i ) { *left op= *right; ... }`. -/
def remainderLoop {α : Type} (op : α → α → α) (remainder : Bool) (column rows : Nat)
    (rhs : VecExpr α) (fuel : Nat) (s : KernelState α) : Option (KernelState α) :=
  whileLoop (fun s => remainder && decide (s.i < rows))
    (fun s => { scalarStep op column rhs s with i := sizeT (s.i + 1) }) fuel s

/-- The unrolled-by-four loop shape shared by the SIMD kernels: the unrolled loop, the
single-batch loop, the scalar remainder loop. -/
def simdLoops {α : Type} (op : α → α → α) (remainder : Bool) (S column rows ipos : Nat)
    (rhs : VecExpr α) (m : DenseMatrix α) : Option (DenseMatrix α) :=
  (unrolledLoop op S column ipos rhs (rows + 1) { i := 0, left := 0, right := 0, matrix := m }).bind
    fun s1 => (batchLoop op S column ipos rhs (rows + 1) s1).bind
      fun s2 => (remainderLoop op remainder column rows rhs (rows + 1) s2).map
        fun s3 => s3.matrix

/-- The streaming loop shape of the SIMD `assign` kernel: a single-batch loop of
non-temporal stores followed by the scalar remainder loop. -/
def streamLoops {α : Type} (remainder : Bool) (S column rows ipos : Nat)
    (rhs : VecExpr α) (m : DenseMatrix α) : Option (DenseMatrix α) :=
  (batchLoop (fun _ r => r) S column ipos rhs (rows + 1)
      { i := 0, left := 0, right := 0, matrix := m }).bind
    fun s1 => (remainderLoop (fun _ r => r) remainder column rows rhs (rows + 1) s1).map
      fun s2 => s2.matrix

/-- The default (scalar) kernel shape, unrolled by two:
`for( size_t i=0UL; i<ipos; i+=2UL ) { matrix_(i,column()) op= (~rhs)[i];
matrix_(i+1UL,column()) op= (~rhs)[i+1UL]; }
if( ipos < (~rhs).size() ) matrix_(ipos,column()) op= (~rhs)[ipos];`
with `ipos = (~rhs).size() & size_t(-2)`. -/
def defaultLoops {α : Type} (op : α → α → α) (column : Nat) (rhs : VecExpr α)
    (m : DenseMatrix α) : Option (DenseMatrix α) :=
  let ipos := Nat.land rhs.size (sizeTNeg 2)
  (whileLoop (fun s : Nat × DenseMatrix α => decide (s.1 < ipos))
    (fun s =>
      let m1 := s.2.set s.1 column (op (s.2.elem s.1 column) (rhs.elem s.2 s.1))
      let j := sizeT (s.1 + 1)
      let m2 := m1.set j column (op (m1.elem j column) (rhs.elem m1 j))
      (sizeT (s.1 + 2), m2)) (rhs.size + 1) (0, m)).map
    fun s =>
      if ipos < rhs.size then
        s.2.set ipos column (op (s.2.elem ipos column) (rhs.elem s.2 ipos))
      else s.2

/-- The sparse kernel shape
`for( element=(~rhs).begin(); element!=(~rhs).end(); ++element )
matrix_(element->index(),column()) op= element->value();`.
The stored elements of the right-hand side are those it holds on entry to the loop. -/
def sparseLoop {α : Type} (op : α → α → α) (column : Nat) (rhs : VecExpr α)
    (m : DenseMatrix α) : DenseMatrix α :=
  (rhs.entries m).foldl (fun acc e => acc.set e.1 column (op (acc.elem e.1 column) e.2)) m

/-! ## The interface the column view consumes from the matrix type -/

/-- The outcome of an operator: normal completion, or a thrown `std::invalid_argument` or
`std::out_of_range` with its message. -/
inductive Signal where
  | done
  | invalidArgument (msg : String)
  | outOfRange (msg : String)
deriving DecidableEq, Repr

/-- The functions of the matrix type `MT` that the assignment operators of the column view
call and that are defined together with `MT` (not in the column view): the structural checks
`tryAssign( matrix_, right, 0UL, column() )` and its siblings, and `matrix_.reset( column() )`. -/
structure MatrixOps (α : Type) where
  tryAssign : DenseMatrix α → VecExpr α → Nat → Nat → Bool
  tryAddAssign : DenseMatrix α → VecExpr α → Nat → Nat → Bool
  trySubAssign : DenseMatrix α → VecExpr α → Nat → Nat → Bool
  tryMultAssign : DenseMatrix α → VecExpr α → Nat → Nat → Bool
  tryDivAssign : DenseMatrix α → VecExpr α → Nat → Nat → Bool
  reset : DenseMatrix α → Nat → DenseMatrix α

/-- Modelled from the spec: the matrix-side functions of an unrestricted dense matrix (the
storage containers are not part of the sources).  Without a structural adaptor every
structural check succeeds, and `reset( j )` sets the elements of column `j` to their default
value. -/
def plainOps (α : Type) [Zero α] : MatrixOps α :=
  { tryAssign := fun _ _ _ _ => true,
    tryAddAssign := fun _ _ _ _ => true,
    trySubAssign := fun _ _ _ _ => true,
    tryMultAssign := fun _ _ _ _ => true,
    tryDivAssign := fun _ _ _ _ => true,
    reset := fun m j =>
      { m with elem := fun a b => if b = j ∧ a < m.rows then 0 else m.elem a b } }

/-- Completion of an operator after its kernel has run. -/
def finish {α : Type} (r : Option (DenseMatrix α)) : Option (Signal × DenseMatrix α) :=
  r.map fun m => (Signal.done, m)

/-- The compile-time value `IsReference<Right>::value` for
`Right = If_< IsRestricted<MT>, CompositeType_<VT>, const VT& >`. -/
def isReferenceRight (t : MatrixTraits) (vt : VectorTraits) : Bool :=
  if t.isRestricted then vt.compositeIsReference else true

/-- The initialisation `Right right( ~rhs )`: a reference to the expression, or, when `Right`
is not a reference type, the expression evaluated into a value. -/
def bindRight {α : Type} (t : MatrixTraits) (rhs : VecExpr α) (m : DenseMatrix α) :
    VecExpr α :=
  if isReferenceRight t rhs.traits then rhs else rhs.eval m

/-- The dense temporary `const ResultType right( *this * (~rhs) )` of `operator*=` for a
sparse right-hand side: the component-wise product of the column and the sparse vector. -/
def columnTimesSparse {α : Type} [Mul α] [Zero α] (m : DenseMatrix α) (column : Nat)
    (rhs : VecExpr α) : VecExpr α :=
  { traits := columnResultTraits, resultTraits := columnResultTraits, size := m.rows,
    elem := fun _ i =>
      match (rhs.entries m).find? (fun e => e.1 == i) with
      | some e => m.elem i column * e.2
      | none => 0,
    entries := fun _ => [], canAlias := false, isAliased := false }

namespace ColumnMajor

/-- The compile-time switch `VectorizedAssign<VT>::value`. -/
def vectorizedAssign (cfg : KernelConfig) (t : MatrixTraits) (vt : VectorTraits) : Bool :=
  cfg.useOptimizedKernels && t.simdEnabled && vt.simdEnabled && vt.simdCombinable

/-- The compile-time switch `VectorizedAddAssign<VT>::value`. -/
def vectorizedAddAssign (cfg : KernelConfig) (t : MatrixTraits) (vt : VectorTraits) : Bool :=
  cfg.useOptimizedKernels && t.simdEnabled && vt.simdEnabled && vt.simdCombinable &&
    vt.hasSIMDAdd

/-- The compile-time switch `VectorizedSubAssign<VT>::value`. -/
def vectorizedSubAssign (cfg : KernelConfig) (t : MatrixTraits) (vt : VectorTraits) : Bool :=
  cfg.useOptimizedKernels && t.simdEnabled && vt.simdEnabled && vt.simdCombinable &&
    vt.hasSIMDSub

/-- The compile-time switch `VectorizedMultAssign<VT>::value`. -/
def vectorizedMultAssign (cfg : KernelConfig) (t : MatrixTraits) (vt : VectorTraits) : Bool :=
  cfg.useOptimizedKernels && t.simdEnabled && vt.simdEnabled && vt.simdCombinable &&
    vt.hasSIMDMult

/-- The compile-time switch `VectorizedDivAssign<VT>::value`. -/
def vectorizedDivAssign (cfg : KernelConfig) (t : MatrixTraits) (vt : VectorTraits) : Bool :=
  cfg.useOptimizedKernels && t.simdEnabled && vt.simdEnabled && vt.simdCombinable &&
    vt.hasSIMDDiv

/-- The default kernel `assign( const DenseVector<VT,false>& rhs )`. -/
def assignDefault {α : Type} (column : Nat) (rhs : VecExpr α) (m : DenseMatrix α) :
    Option (DenseMatrix α) :=
  defaultLoops (fun _ r => r) column rhs m

/-- The branch condition of the SIMD `assign` kernel:
`useStreaming && rows > ( cacheSize/( sizeof(ElementType) * 3UL ) ) && !(~rhs).isAliased( this )`. -/
def streamingSelected {α : Type} (cfg : KernelConfig) (rows : Nat) (rhs : VecExpr α) : Bool :=
  cfg.useStreaming && decide (rows > cfg.cacheSize / (cfg.sizeofElement * 3)) &&
    !rhs.isAliased

/-- The SIMD kernel `assign( const DenseVector<VT,false>& rhs )`. -/
def assignSIMD {α : Type} (cfg : KernelConfig) (t : MatrixTraits) (column : Nat)
    (rhs : VecExpr α) (m : DenseMatrix α) : Option (DenseMatrix α) :=
  let remainder := !t.isPadded || !rhs.traits.isPadded
  let rows := size m
  let ipos := simdEnd remainder rows cfg.SIMDSIZE
  if streamingSelected cfg rows rhs then
    streamLoops remainder cfg.SIMDSIZE column rows ipos rhs m
  else
    simdLoops (fun _ r => r) remainder cfg.SIMDSIZE column rows ipos rhs m

/-- The kernel `assign( const SparseVector<VT,false>& rhs )`. -/
def assignSparse {α : Type} (column : Nat) (rhs : VecExpr α) (m : DenseMatrix α) :
    DenseMatrix α :=
  sparseLoop (fun _ r => r) column rhs m

/-- The default kernel `addAssign( const DenseVector<VT,false>& rhs )`. -/
def addAssignDefault {α : Type} [Add α] (column : Nat) (rhs : VecExpr α)
    (m : DenseMatrix α) : Option (DenseMatrix α) :=
  defaultLoops (fun l r => l + r) column rhs m

/-- The SIMD kernel `addAssign( const DenseVector<VT,false>& rhs )`. -/
def addAssignSIMD {α : Type} [Add α] (cfg : KernelConfig) (t : MatrixTraits) (column : Nat)
    (rhs : VecExpr α) (m : DenseMatrix α) : Option (DenseMatrix α) :=
  let remainder := !t.isPadded || !rhs.traits.isPadded
  let rows := size m
  simdLoops (fun l r => l + r) remainder cfg.SIMDSIZE column rows
    (simdEnd remainder rows cfg.SIMDSIZE) rhs m

/-- The kernel `addAssign( const SparseVector<VT,false>& rhs )`. -/
def addAssignSparse {α : Type} [Add α] (column : Nat) (rhs : VecExpr α)
    (m : DenseMatrix α) : DenseMatrix α :=
  sparseLoop (fun l r => l + r) column rhs m

/-- The default kernel `subAssign( const DenseVector<VT,false>& rhs )`. -/
def subAssignDefault {α : Type} [Sub α] (column : Nat) (rhs : VecExpr α)
    (m : DenseMatrix α) : Option (DenseMatrix α) :=
  defaultLoops (fun l r => l - r) column rhs m

/-- The SIMD kernel `subAssign( const DenseVector<VT,false>& rhs )`. -/
def subAssignSIMD {α : Type} [Sub α] (cfg : KernelConfig) (t : MatrixTraits) (column : Nat)
    (rhs : VecExpr α) (m : DenseMatrix α) : Option (DenseMatrix α) :=
  let remainder := !t.isPadded || !rhs.traits.isPadded
  let rows := size m
  simdLoops (fun l r => l - r) remainder cfg.SIMDSIZE column rows
    (simdEnd remainder rows cfg.SIMDSIZE) rhs m

/-- The kernel `subAssign( const SparseVector<VT,false>& rhs )`. -/
def subAssignSparse {α : Type} [Sub α] (column : Nat) (rhs : VecExpr α)
    (m : DenseMatrix α) : DenseMatrix α :=
  sparseLoop (fun l r => l - r) column rhs m

/-- The default kernel `multAssign( const DenseVector<VT,false>& rhs )`. -/
def multAssignDefault {α : Type} [Mul α] (column : Nat) (rhs : VecExpr α)
    (m : DenseMatrix α) : Option (DenseMatrix α) :=
  defaultLoops (fun l r => l * r) column rhs m

/-- The SIMD kernel `multAssign( const DenseVector<VT,false>& rhs )`. -/
def multAssignSIMD {α : Type} [Mul α] (cfg : KernelConfig) (t : MatrixTraits) (column : Nat)
    (rhs : VecExpr α) (m : DenseMatrix α) : Option (DenseMatrix α) :=
  let remainder := !t.isPadded || !rhs.traits.isPadded
  let rows := size m
  simdLoops (fun l r => l * r) remainder cfg.SIMDSIZE column rows
    (simdEnd remainder rows cfg.SIMDSIZE) rhs m

/-- The default kernel `divAssign( const DenseVector<VT,false>& rhs )`. -/
def divAssignDefault {α : Type} [Div α] (column : Nat) (rhs : VecExpr α)
    (m : DenseMatrix α) : Option (DenseMatrix α) :=
  defaultLoops (fun l r => l / r) column rhs m

/-- The SIMD kernel `divAssign( const DenseVector<VT,false>& rhs )`; its remainder loop is
unconditional and `ipos` is always `rows & size_t(-SIMDSIZE)`. -/
def divAssignSIMD {α : Type} [Div α] (cfg : KernelConfig) (column : Nat)
    (rhs : VecExpr α) (m : DenseMatrix α) : Option (DenseMatrix α) :=
  let rows := size m
  simdLoops (fun l r => l / r) true cfg.SIMDSIZE column rows
    (simdEnd true rows cfg.SIMDSIZE) rhs m

/-- Modelled from the spec: `smpAssign( left, right )` (the SMP layer is not part of the
sources), in its serial form: dispatch to the `assign` kernel of the view that overload
resolution and `VectorizedAssign<VT>` select for the right-hand side. -/
def smpAssign {α : Type} (cfg : KernelConfig) (t : MatrixTraits) (column : Nat)
    (rhs : VecExpr α) (m : DenseMatrix α) : Option (DenseMatrix α) :=
  if rhs.traits.isSparse then some (assignSparse column rhs m)
  else if vectorizedAssign cfg t rhs.traits then assignSIMD cfg t column rhs m
  else assignDefault column rhs m

/-- Modelled from the spec: `smpAddAssign( left, right )` in its serial form: dispatch to the
selected `addAssign` kernel of the view. -/
def smpAddAssign {α : Type} [Add α] (cfg : KernelConfig) (t : MatrixTraits) (column : Nat)
    (rhs : VecExpr α) (m : DenseMatrix α) : Option (DenseMatrix α) :=
  if rhs.traits.isSparse then some (addAssignSparse column rhs m)
  else if vectorizedAddAssign cfg t rhs.traits then addAssignSIMD cfg t column rhs m
  else addAssignDefault column rhs m

/-- Modelled from the spec: `smpSubAssign( left, right )` in its serial form: dispatch to the
selected `subAssign` kernel of the view. -/
def smpSubAssign {α : Type} [Sub α] (cfg : KernelConfig) (t : MatrixTraits) (column : Nat)
    (rhs : VecExpr α) (m : DenseMatrix α) : Option (DenseMatrix α) :=
  if rhs.traits.isSparse then some (subAssignSparse column rhs m)
  else if vectorizedSubAssign cfg t rhs.traits then subAssignSIMD cfg t column rhs m
  else subAssignDefault column rhs m

/-- Modelled from the spec: `smpMultAssign( left, right )` for a dense right-hand side in its
serial form: dispatch to the selected `multAssign` kernel of the view. -/
def smpMultAssign {α : Type} [Mul α] (cfg : KernelConfig) (t : MatrixTraits) (column : Nat)
    (rhs : VecExpr α) (m : DenseMatrix α) : Option (DenseMatrix α) :=
  if vectorizedMultAssign cfg t rhs.traits then multAssignSIMD cfg t column rhs m
  else multAssignDefault column rhs m

/-- Modelled from the spec: `smpDivAssign( left, right )` for a dense right-hand side in its
serial form: dispatch to the selected `divAssign` kernel of the view. -/
def smpDivAssign {α : Type} [Div α] (cfg : KernelConfig) (t : MatrixTraits) (column : Nat)
    (rhs : VecExpr α) (m : DenseMatrix α) : Option (DenseMatrix α) :=
  if vectorizedDivAssign cfg t rhs.traits then divAssignSIMD cfg column rhs m
  else divAssignDefault column rhs m

/-- The operator `ColumnImpl<MT,true,true,SF,CIs...>::operator=( const Vector<VT,false>& rhs )`. -/
def operatorAssign {α : Type} (cfg : KernelConfig) (t : MatrixTraits) (ops : MatrixOps α)
    (column : Nat) (rhs : VecExpr α) (m : DenseMatrix α) : Option (Signal × DenseMatrix α) :=
  if size m ≠ rhs.size then
    some (Signal.invalidArgument "Vector sizes do not match", m)
  else
    let right := bindRight t rhs m
    if !ops.tryAssign m right 0 column then
      some (Signal.invalidArgument "Invalid assignment to restricted matrix", m)
    else if isReferenceRight t rhs.traits && right.canAlias then
      let tmp := right.eval m
      finish (smpAssign cfg t column tmp m)
    else
      let m1 := if rhs.traits.isSparse then ops.reset m column else m
      finish (smpAssign cfg t column right m1)

/-- The operator `ColumnImpl<MT,true,true,SF,CIs...>::operator+=( const Vector<VT,false>& rhs )`. -/
def operatorAddAssign {α : Type} [Add α] (cfg : KernelConfig) (t : MatrixTraits)
    (ops : MatrixOps α) (column : Nat) (rhs : VecExpr α) (m : DenseMatrix α) :
    Option (Signal × DenseMatrix α) :=
  if size m ≠ rhs.size then
    some (Signal.invalidArgument "Vector sizes do not match", m)
  else
    let right := bindRight t rhs m
    if !ops.tryAddAssign m right 0 column then
      some (Signal.invalidArgument "Invalid assignment to restricted matrix", m)
    else if isReferenceRight t rhs.traits && right.canAlias then
      let tmp := right.eval m
      finish (smpAddAssign cfg t column tmp m)
    else
      finish (smpAddAssign cfg t column right m)

/-- The operator `ColumnImpl<MT,true,true,SF,CIs...>::operator-=( const Vector<VT,false>& rhs )`. -/
def operatorSubAssign {α : Type} [Sub α] (cfg : KernelConfig) (t : MatrixTraits)
    (ops : MatrixOps α) (column : Nat) (rhs : VecExpr α) (m : DenseMatrix α) :
    Option (Signal × DenseMatrix α) :=
  if size m ≠ rhs.size then
    some (Signal.invalidArgument "Vector sizes do not match", m)
  else
    let right := bindRight t rhs m
    if !ops.trySubAssign m right 0 column then
      some (Signal.invalidArgument "Invalid assignment to restricted matrix", m)
    else if isReferenceRight t rhs.traits && right.canAlias then
      let tmp := right.eval m
      finish (smpSubAssign cfg t column tmp m)
    else
      finish (smpSubAssign cfg t column right m)

/-- The operator
`ColumnImpl<MT,true,true,SF,CIs...>::operator*=( const DenseVector<VT,false>& rhs )`. -/
def operatorMultAssign {α : Type} [Mul α] (cfg : KernelConfig) (t : MatrixTraits)
    (ops : MatrixOps α) (column : Nat) (rhs : VecExpr α) (m : DenseMatrix α) :
    Option (Signal × DenseMatrix α) :=
  if size m ≠ rhs.size then
    some (Signal.invalidArgument "Vector sizes do not match", m)
  else
    let right := bindRight t rhs m
    if !ops.tryMultAssign m right 0 column then
      some (Signal.invalidArgument "Invalid assignment to restricted matrix", m)
    else if isReferenceRight t rhs.traits && right.canAlias then
      let tmp := right.eval m
      finish (smpMultAssign cfg t column tmp m)
    else
      finish (smpMultAssign cfg t column right m)

/-- The operator
`ColumnImpl<MT,true,true,SF,CIs...>::operator*=( const SparseVector<VT,false>& rhs )`. -/
def operatorMultAssignSparse {α : Type} [Mul α] [Zero α] (cfg : KernelConfig)
    (t : MatrixTraits) (ops : MatrixOps α) (column : Nat) (rhs : VecExpr α)
    (m : DenseMatrix α) : Option (Signal × DenseMatrix α) :=
  if size m ≠ rhs.size then
    some (Signal.invalidArgument "Vector sizes do not match", m)
  else
    let right := columnTimesSparse m column rhs
    if !ops.tryAssign m right 0 column then
      some (Signal.invalidArgument "Invalid assignment to restricted matrix", m)
    else
      finish (smpAssign cfg t column right m)

/-- The operator
`ColumnImpl<MT,true,true,SF,CIs...>::operator/=( const DenseVector<VT,false>& rhs )`. -/
def operatorDivAssign {α : Type} [Div α] (cfg : KernelConfig) (t : MatrixTraits)
    (ops : MatrixOps α) (column : Nat) (rhs : VecExpr α) (m : DenseMatrix α) :
    Option (Signal × DenseMatrix α) :=
  if size m ≠ rhs.size then
    some (Signal.invalidArgument "Vector sizes do not match", m)
  else
    let right := bindRight t rhs m
    if !ops.tryDivAssign m right 0 column then
      some (Signal.invalidArgument "Invalid assignment to restricted matrix", m)
    else if isReferenceRight t rhs.traits && right.canAlias then
      let tmp := right.eval m
      finish (smpDivAssign cfg t column tmp m)
    else
      finish (smpDivAssign cfg t column right m)

end ColumnMajor

namespace RowMajor

/-- The kernel `ColumnImpl<MT,false,true,false,CIs...>::assign( const DenseVector<VT,false>& )`. -/
def assignDense {α : Type} (column : Nat) (rhs : VecExpr α) (m : DenseMatrix α) :
    Option (DenseMatrix α) :=
  defaultLoops (fun _ r => r) column rhs m

/-- The kernel `ColumnImpl<MT,false,true,false,CIs...>::assign( const SparseVector<VT,false>& )`. -/
def assignSparse {α : Type} (column : Nat) (rhs : VecExpr α) (m : DenseMatrix α) :
    DenseMatrix α :=
  sparseLoop (fun _ r => r) column rhs m

/-- Modelled from the spec: `smpAssign( left, right )` in its serial form: dispatch to the
`assign` kernel of the row-major view for a dense or a sparse right-hand side. -/
def smpAssign {α : Type} (column : Nat) (rhs : VecExpr α) (m : DenseMatrix α) :
    Option (DenseMatrix α) :=
  if rhs.traits.isSparse then some (assignSparse column rhs m)
  else assignDense column rhs m

/-- The operator
`ColumnImpl<MT,false,true,false,CIs...>::operator=( const Vector<VT,false>& rhs )`; its
temporary is of the dense type `ResultType` of the column. -/
def operatorAssign {α : Type} [Zero α] (t : MatrixTraits) (ops : MatrixOps α)
    (column : Nat) (rhs : VecExpr α) (m : DenseMatrix α) : Option (Signal × DenseMatrix α) :=
  if size m ≠ rhs.size then
    some (Signal.invalidArgument "Vector sizes do not match", m)
  else
    let right := bindRight t rhs m
    if !ops.tryAssign m right 0 column then
      some (Signal.invalidArgument "Invalid assignment to restricted matrix", m)
    else if isReferenceRight t rhs.traits && right.canAlias then
      let tmp := right.toDense m
      finish (smpAssign column tmp m)
    else
      let m1 := if rhs.traits.isSparse then ops.reset m column else m
      finish (smpAssign column right m1)

end RowMajor

/-- The assignment the spec describes for an aliasing source, following its words: the
value of the expression on the pre-assignment matrix is first copied into an independent
buffer, then the buffer is assigned to the column, so that afterwards every element of the
column holds the corresponding element of the buffer. -/
def copyThenAssign {α : Type} [Zero α] (column : Nat) (rhs : VecExpr α) (m : DenseMatrix α) :
    DenseMatrix α :=
  let buffer : Nat → α := fun i => rhs.value m i
  { m with elem := fun a b => if b = column ∧ a < m.rows then buffer a else m.elem a b }

/-- The progress of a kernel over a right-hand side with elements `v`: the iterators agree,
the dimensions are unchanged, and exactly the rows below `left` of the column have been
updated with `op`. -/
def KernelInv {α : Type} (op : α → α → α) (column : Nat) (v : Nat → α) (m0 : DenseMatrix α)
    (s : KernelState α) : Prop :=
  s.right = s.left ∧ s.matrix.rows = m0.rows ∧ s.matrix.columns = m0.columns ∧
    ∀ a b, s.matrix.elem a b =
      if b = column ∧ a < s.left then op (m0.elem a column) (v a) else m0.elem a b

/-! ## The vector assignment operators of the column-major view, collected -/

/-- The vector assignment operators of the column view: `=`, `+=`, `-=`, `*=` with a dense
and with a sparse right-hand side, and `/=`. -/
inductive VectorOp where
  | assign
  | addAssign
  | subAssign
  | multAssign
  | multAssignSparse
  | divAssign
deriving DecidableEq, Repr

namespace ColumnMajor

/-- The operator of the column-major view named by `op`. -/
def applyOp {α : Type} [Add α] [Sub α] [Mul α] [Div α] [Zero α] (op : VectorOp)
    (cfg : KernelConfig) (t : MatrixTraits) (ops : MatrixOps α) (column : Nat)
    (rhs : VecExpr α) (m : DenseMatrix α) : Option (Signal × DenseMatrix α) :=
  match op with
  | VectorOp.assign => operatorAssign cfg t ops column rhs m
  | VectorOp.addAssign => operatorAddAssign cfg t ops column rhs m
  | VectorOp.subAssign => operatorSubAssign cfg t ops column rhs m
  | VectorOp.multAssign => operatorMultAssign cfg t ops column rhs m
  | VectorOp.multAssignSparse => operatorMultAssignSparse cfg t ops column rhs m
  | VectorOp.divAssign => operatorDivAssign cfg t ops column rhs m

/-- The structural check the operator named by `op` performs on the underlying matrix, at
row `0` and column `column()`. -/
def structuralCheck {α : Type} [Mul α] [Zero α] (op : VectorOp) (t : MatrixTraits)
    (ops : MatrixOps α) (column : Nat) (rhs : VecExpr α) (m : DenseMatrix α) : Bool :=
  match op with
  | VectorOp.assign => ops.tryAssign m (bindRight t rhs m) 0 column
  | VectorOp.addAssign => ops.tryAddAssign m (bindRight t rhs m) 0 column
  | VectorOp.subAssign => ops.trySubAssign m (bindRight t rhs m) 0 column
  | VectorOp.multAssign => ops.tryMultAssign m (bindRight t rhs m) 0 column
  | VectorOp.multAssignSparse => ops.tryAssign m (columnTimesSparse m column rhs) 0 column
  | VectorOp.divAssign => ops.tryDivAssign m (bindRight t rhs m) 0 column

end ColumnMajor

/-- Modelled from the spec: the matrix-side functions of a strictly lower adaptor (the
adaptors are not part of the sources).  An assignment or an addition/subtraction
assignment to a column is rejected when it would put a non-default value on or above the
diagonal, i.e. into one of the rows `0..column`; scaling element-wise by a vector keeps the
zeros and is always admitted.  `reset( j )` clears the part of column `j` below the
diagonal. -/
def strictlyLowerOps : MatrixOps Int :=
  let check : DenseMatrix Int → VecExpr Int → Nat → Nat → Bool := fun m rhs row column =>
    if column < row then true
    else (List.range (min (column - row + 1) rhs.size)).all fun i => rhs.value m i == 0
  { tryAssign := check, tryAddAssign := check, trySubAssign := check,
    tryMultAssign := fun _ _ _ _ => true, tryDivAssign := fun _ _ _ _ => true,
    reset := fun m j =>
      { m with elem := fun a b => if b = j ∧ j < a ∧ a < m.rows then 0 else m.elem a b } }

/-! ## The `Sub` functor and its structural propagation traits -/

namespace Sub

/-- The scalar application `Sub::operator()( const T1& a, const T2& b )`: `a - b`. -/
def call {α : Type} [HSub α α α] (a b : α) : α := a - b

/-- The trait `YieldsSymmetric<Sub,MT1,MT2>`. -/
def YieldsSymmetric (MT1 MT2 : MatrixTraits) : Bool := MT1.isSymmetric && MT2.isSymmetric

/-- The trait `YieldsHermitian<Sub,MT1,MT2>`. -/
def YieldsHermitian (MT1 MT2 : MatrixTraits) : Bool := MT1.isHermitian && MT2.isHermitian

/-- The trait `YieldsLower<Sub,MT1,MT2>`. -/
def YieldsLower (MT1 MT2 : MatrixTraits) : Bool := MT1.isLower && MT2.isLower

/-- The trait `YieldsUniLower<Sub,MT1,MT2>`. -/
def YieldsUniLower (MT1 MT2 : MatrixTraits) : Bool := MT1.isUniLower && MT2.isStrictlyLower

/-- The trait `YieldsStrictlyLower<Sub,MT1,MT2>`. -/
def YieldsStrictlyLower (MT1 MT2 : MatrixTraits) : Bool :=
  MT1.isStrictlyLower && MT2.isStrictlyLower

/-- The trait `YieldsUpper<Sub,MT1,MT2>`. -/
def YieldsUpper (MT1 MT2 : MatrixTraits) : Bool := MT1.isUpper && MT2.isUpper

/-- The trait `YieldsUniUpper<Sub,MT1,MT2>`. -/
def YieldsUniUpper (MT1 MT2 : MatrixTraits) : Bool := MT1.isUniUpper && MT2.isStrictlyUpper

/-- The trait `YieldsStrictlyUpper<Sub,MT1,MT2>`. -/
def YieldsStrictlyUpper (MT1 MT2 : MatrixTraits) : Bool :=
  MT1.isStrictlyUpper && MT2.isStrictlyUpper

/-- The element-wise application of the functor to two matrices of equal shape: element
`(i,j)` of the result is `Sub()( A(i,j), B(i,j) )`. -/
def map {α : Type} [HSub α α α] (A B : DenseMatrix α) : DenseMatrix α :=
  { rows := A.rows, columns := A.columns, elem := fun i j => call (A.elem i j) (B.elem i j) }

end Sub

/-- Two matrices have equal shape. -/
def SameShape {α : Type} (A B : DenseMatrix α) : Prop :=
  A.rows = B.rows ∧ A.columns = B.columns

/-- A matrix is symmetric: square and element-wise equal to its own transpose. -/
def DenseMatrix.IsSymmetric {α : Type} (A : DenseMatrix α) : Prop :=
  A.rows = A.columns ∧ ∀ i, i < A.rows → ∀ j, j < A.columns → A.elem i j = A.elem j i

/-- A matrix is lower triangular: square with zeros above the diagonal. -/
def DenseMatrix.IsLower {α : Type} [Zero α] (A : DenseMatrix α) : Prop :=
  A.rows = A.columns ∧ ∀ i, i < A.rows → ∀ j, j < A.columns → i < j → A.elem i j = 0

/-- A matrix is upper triangular: square with zeros below the diagonal. -/
def DenseMatrix.IsUpper {α : Type} [Zero α] (A : DenseMatrix α) : Prop :=
  A.rows = A.columns ∧ ∀ i, i < A.rows → ∀ j, j < A.columns → j < i → A.elem i j = 0

/-- The diagonal of a matrix holds the value `d` throughout. -/
def DenseMatrix.HasDiagonal {α : Type} (A : DenseMatrix α) (d : α) : Prop :=
  ∀ i, i < A.rows → i < A.columns → A.elem i i = d

/-- A matrix is strictly lower triangular: lower with a zero diagonal. -/
def DenseMatrix.IsStrictlyLower {α : Type} [Zero α] (A : DenseMatrix α) : Prop :=
  A.IsLower ∧ A.HasDiagonal 0

/-- A matrix is lower unitriangular: lower with a unit diagonal. -/
def DenseMatrix.IsUniLower {α : Type} [Zero α] [One α] (A : DenseMatrix α) : Prop :=
  A.IsLower ∧ A.HasDiagonal 1

/-- A matrix is strictly upper triangular: upper with a zero diagonal. -/
def DenseMatrix.IsStrictlyUpper {α : Type} [Zero α] (A : DenseMatrix α) : Prop :=
  A.IsUpper ∧ A.HasDiagonal 0

/-- A matrix is upper unitriangular: upper with a unit diagonal. -/
def DenseMatrix.IsUniUpper {α : Type} [Zero α] [One α] (A : DenseMatrix α) : Prop :=
  A.IsUpper ∧ A.HasDiagonal 1

/-- A matrix value satisfies every structure its type declares through its traits. -/
def Conforms {α : Type} [Zero α] [One α] (t : MatrixTraits) (A : DenseMatrix α) : Prop :=
  (t.isSymmetric = true → A.IsSymmetric) ∧
  (t.isLower = true → A.IsLower) ∧
  (t.isUniLower = true → A.IsUniLower) ∧
  (t.isStrictlyLower = true → A.IsStrictlyLower) ∧
  (t.isUpper = true → A.IsUpper) ∧
  (t.isUniUpper = true → A.IsUniUpper) ∧
  (t.isStrictlyUpper = true → A.IsStrictlyUpper)

/-- The four triangular structures without a unit diagonal. -/
inductive TriangularKind where
  | lower
  | strictlyLower
  | upper
  | strictlyUpper
deriving DecidableEq, Repr

/-- The type trait `IsLower`, `IsStrictlyLower`, `IsUpper` or `IsStrictlyUpper` of a matrix
type, selected by kind. -/
def TriangularKind.trait (k : TriangularKind) (t : MatrixTraits) : Bool :=
  match k with
  | TriangularKind.lower => t.isLower
  | TriangularKind.strictlyLower => t.isStrictlyLower
  | TriangularKind.upper => t.isUpper
  | TriangularKind.strictlyUpper => t.isStrictlyUpper

/-- The trait `YieldsLower`, `YieldsStrictlyLower`, `YieldsUpper` or `YieldsStrictlyUpper`
of `Sub`, selected by kind. -/
def TriangularKind.yieldsSub (k : TriangularKind) (MT1 MT2 : MatrixTraits) : Bool :=
  match k with
  | TriangularKind.lower => Sub.YieldsLower MT1 MT2
  | TriangularKind.strictlyLower => Sub.YieldsStrictlyLower MT1 MT2
  | TriangularKind.upper => Sub.YieldsUpper MT1 MT2
  | TriangularKind.strictlyUpper => Sub.YieldsStrictlyUpper MT1 MT2

/-- A matrix value has the triangular structure of the given kind. -/
def TriangularKind.Holds {α : Type} [Zero α] (k : TriangularKind) (A : DenseMatrix α) : Prop :=
  match k with
  | TriangularKind.lower => A.IsLower
  | TriangularKind.strictlyLower => A.IsStrictlyLower
  | TriangularKind.upper => A.IsUpper
  | TriangularKind.strictlyUpper => A.IsStrictlyUpper

/-! ## `MultTrait`: the result type of a multiplication -/

/-- The built-in arithmetic types. -/
inductive Builtin where
  | bool
  | char
  | signedChar
  | unsignedChar
  | wchar
  | char16
  | char32
  | short
  | unsignedShort
  | int
  | unsignedInt
  | long
  | unsignedLong
  | longLong
  | unsignedLongLong
  | float
  | double
  | longDouble
deriving DecidableEq, Repr

/-- The types `MultTrait` is asked about, without cv-qualifiers: built-in types,
`complex<T>`, row and column vector types with their element type, any other (class) type,
and the marker `INVALID_TYPE`. -/
inductive CType where
  | builtin (b : Builtin)
  | complex (t : CType)
  | rowVector (id : Nat) (element : CType)
  | columnVector (id : Nat) (element : CType)
  | other (id : Nat)
  | invalid
deriving DecidableEq, Repr

/-- A possibly cv-qualified type. -/
structure QType where
  base : CType
  isConst : Bool
  isVolatile : Bool
deriving DecidableEq, Repr

/-- The unqualified type `t`. -/
def QType.plain (t : CType) : QType := { base := t, isConst := false, isVolatile := false }

/-- The nesting depth of a type. -/
def CType.depth : CType → Nat
  | CType.builtin _ => 0
  | CType.complex t => t.depth + 1
  | CType.rowVector _ e => e.depth + 1
  | CType.columnVector _ e => e.depth + 1
  | CType.other _ => 0
  | CType.invalid => 0

/-- A measure of a qualified type: its nesting depth and its qualifiers. -/
def QType.weight (q : QType) : Nat :=
  3 * q.base.depth + (if q.isConst then 1 else 0) + (if q.isVolatile then 1 else 0)

/-- Integral promotion of the C++ language, for the LP64 data model (`int` has 32 bits,
`wchar_t` is a signed and `char16_t`/`char32_t` are unsigned types of 32, 16 and 32 bits). -/
def integralPromotion : Builtin → Builtin
  | Builtin.bool => Builtin.int
  | Builtin.char => Builtin.int
  | Builtin.signedChar => Builtin.int
  | Builtin.unsignedChar => Builtin.int
  | Builtin.wchar => Builtin.int
  | Builtin.char16 => Builtin.int
  | Builtin.char32 => Builtin.unsignedInt
  | Builtin.short => Builtin.int
  | Builtin.unsignedShort => Builtin.int
  | b => b

/-- Whether a promoted integer type is unsigned. -/
def Builtin.isUnsigned : Builtin → Bool
  | Builtin.unsignedInt => true
  | Builtin.unsignedLong => true
  | Builtin.unsignedLongLong => true
  | _ => false

/-- The conversion rank of a promoted integer type. -/
def Builtin.rank : Builtin → Nat
  | Builtin.long => 2
  | Builtin.unsignedLong => 2
  | Builtin.longLong => 3
  | Builtin.unsignedLongLong => 3
  | _ => 1

/-- The width in bits of a promoted integer type in the LP64 data model. -/
def Builtin.bits : Builtin → Nat
  | Builtin.int => 32
  | Builtin.unsignedInt => 32
  | _ => 64

/-- The unsigned type corresponding to a promoted signed integer type. -/
def Builtin.toUnsigned : Builtin → Builtin
  | Builtin.int => Builtin.unsignedInt
  | Builtin.long => Builtin.unsignedLong
  | Builtin.longLong => Builtin.unsignedLongLong
  | b => b

/-- The usual arithmetic conversions of the C++ language: the type of `a * b` for operands
of the built-in arithmetic types `a` and `b`. -/
def usualArithmeticConversion (a b : Builtin) : Builtin :=
  if a = Builtin.longDouble ∨ b = Builtin.longDouble then Builtin.longDouble
  else if a = Builtin.double ∨ b = Builtin.double then Builtin.double
  else if a = Builtin.float ∨ b = Builtin.float then Builtin.float
  else
    let x := integralPromotion a
    let y := integralPromotion b
    if x = y then x
    else if x.isUnsigned = y.isUnsigned then (if y.rank ≤ x.rank then x else y)
    else
      let u := if x.isUnsigned then x else y
      let s := if x.isUnsigned then y else x
      if s.rank ≤ u.rank then u
      else if u.bits < s.bits then s
      else s.toUnsigned

/-- The facts about types other than the built-in ones that `MultTrait` takes from headers
outside the sources: `HasMult_v<T1,T2>` and the type of `declval<T1>() * declval<T2>()` for
operands of class type, and `CommonType_t<T1,T2>`. -/
structure TypeEnv where
  hasMult : QType → QType → Bool
  multType : QType → QType → CType
  commonType : QType → QType → CType

/-- The trait `IsBuiltin_v<T>`; cv-qualifiers are ignored. -/
def IsBuiltin (q : QType) : Bool :=
  match q.base with
  | CType.builtin _ => true
  | _ => false

/-- Whether `T` is an unqualified specialisation `complex<U>`. -/
def isPlainComplex (q : QType) : Bool :=
  match q.base with
  | CType.complex _ => !q.isConst && !q.isVolatile
  | _ => false

/-- The trait `IsRowVector_v<T>`. -/
def IsRowVector (q : QType) : Bool :=
  match q.base with
  | CType.rowVector _ _ => true
  | _ => false

/-- The trait `IsColumnVector_v<T>`. -/
def IsColumnVector (q : QType) : Bool :=
  match q.base with
  | CType.columnVector _ _ => true
  | _ => false

/-- The nested type `T::ElementType` of a vector type. -/
def ElementType (q : QType) : CType :=
  match q.base with
  | CType.rowVector _ e => e
  | CType.columnVector _ e => e
  | _ => CType.invalid

/-- The trait `HasMult_v<T1,T2>`: two built-in arithmetic types can always be multiplied. -/
def HasMult (env : TypeEnv) (T1 T2 : QType) : Bool :=
  match T1.base, T2.base with
  | CType.builtin _, CType.builtin _ => true
  | _, _ => env.hasMult T1 T2

/-- The type `decltype( std::declval<T1>() * std::declval<T2>() )`: for built-in arithmetic
operands the language rule, otherwise the result type of the user-provided operator. -/
def multDecltype (env : TypeEnv) (T1 T2 : QType) : CType :=
  match T1.base, T2.base with
  | CType.builtin a, CType.builtin b => CType.builtin (usualArithmeticConversion a b)
  | _, _ => env.multType T1 T2

/-- The alias `Decay_t<T>` on the types modelled here: the cv-qualifiers are removed. -/
def Decay (q : QType) : CType := q.base

mutual

/-- The class template `MultTrait<T1,T2>` with its specialisations: two identical built-in
types; a complex and a built-in type in either order; two complex types; and the base
template, whose `Type` is `decltype( evalMultTrait( declval<T1&>(), declval<T2&>() ) )`. -/
def MultTrait (env : TypeEnv) (T1 T2 : QType) : CType :=
  if T1 = T2 ∧ IsBuiltin T1 = true then Decay T1
  else if isPlainComplex T1 = true ∧ IsBuiltin T2 = true then env.commonType T1 T2
  else if IsBuiltin T1 = true ∧ isPlainComplex T2 = true then env.commonType T1 T2
  else if isPlainComplex T1 = true ∧ isPlainComplex T2 = true then env.commonType T1 T2
  else evalMultTrait env T1 T2
termination_by (T1.weight + T2.weight, 3)

/-- The overload set `evalMultTrait`, called with lvalues of type `T1` and `T2`.  The
overload `( T1&, T2& )` binds both arguments without adding a qualifier and is selected
unless both arguments are `const`; if both are, the most specialised of the overloads taking
`const` or `const volatile` references binds them equally well, is selected, and asks
`MultTrait` about the unqualified types. -/
def evalMultTrait (env : TypeEnv) (T1 T2 : QType) : CType :=
  if hc : T1.isConst = true ∧ T2.isConst = true then
    MultTrait env (QType.plain T1.base) (QType.plain T2.base)
  else MultTraitEval1 env T1 T2
termination_by (T1.weight + T2.weight, 2)
decreasing_by
  · left
    simp [QType.weight, QType.plain, hc.1, hc.2]
    omega
  · right; omega

/-- The first helper `MultTraitEval1<T1,T2>`. -/
def MultTraitEval1 (env : TypeEnv) (T1 T2 : QType) : CType :=
  MultTraitEval2 env T1 T2
termination_by (T1.weight + T2.weight, 1)

/-- The second helper `MultTraitEval2<T1,T2>` with its specialisation for the inner product
of a row vector and a column vector. -/
def MultTraitEval2 (env : TypeEnv) (T1 T2 : QType) : CType :=
  if h : IsRowVector T1 = true ∧ IsColumnVector T2 = true then
    MultTrait env (QType.plain (ElementType T1)) (QType.plain (ElementType T2))
  else if HasMult env T1 T2 then multDecltype env T1 T2 else CType.invalid
termination_by (T1.weight + T2.weight, 0)
decreasing_by
  left
  have h1 : (ElementType T1).depth < T1.base.depth := by
    have := h.1
    unfold ElementType IsRowVector at *
    cases hq : T1.base <;> simp_all [CType.depth]
  have h2 : (ElementType T2).depth < T2.base.depth := by
    have := h.2
    unfold ElementType IsColumnVector at *
    cases hq : T2.base <;> simp_all [CType.depth]
  simp [QType.weight, QType.plain]
  omega

end

/-! ## Construction of the view and element access -/

/-- A reference to the element `(row, column)` of the matrix a view refers to, as returned
by `matrix_(row,column)`. -/
structure ElementRef where
  row : Nat
  column : Nat
deriving DecidableEq, Repr

/-- Reading through a reference: the current value of the element of the matrix. -/
def ElementRef.read {α : Type} (r : ElementRef) (m : DenseMatrix α) : α :=
  m.elem r.row r.column

/-- Modelled from the spec: whether the structure of a matrix type with the traits `t`
permits an assignment to the element `(i,j)`.  A structural adaptor (the adaptors are not
part of the sources) never exposes an operation that would violate its structure: a lower
type admits no assignment to an element above the diagonal, an upper type none to an element
below it, and a unitriangular or strictly triangular type none to the diagonal. -/
def MatrixTraits.admitsWrite (t : MatrixTraits) (i j : Nat) : Bool :=
  !(t.isLower && decide (i < j)) && !(t.isUpper && decide (j < i)) &&
    !((t.isUniLower || t.isStrictlyLower || t.isUniUpper || t.isStrictlyUpper) &&
      decide (i = j))

/-- Writing through a reference: the assignment `ref = v` to the reference
`matrix_(row,column)`, of type `Reference_<MT>`, of a matrix whose type has the traits `t`.
The reference enforces the structure of the matrix type on the write: an assignment the
structure does not permit is rejected with a structure-violation error before any element
is changed (the result `none`), and a symmetric matrix type mirrors the write
(`DenseMatrix.write`). -/
def ElementRef.write {α : Type} (t : MatrixTraits) (r : ElementRef) (m : DenseMatrix α)
    (v : α) : Option (DenseMatrix α) :=
  if t.admitsWrite r.row r.column then some (m.write t.isSymmetric r.row r.column v)
  else none

/-- The result of a function that either returns a value or throws. -/
inductive Outcome (β : Type) where
  | value (b : β)
  | thrown (s : Signal)
deriving DecidableEq, Repr

/-- A column view: the index `column()` of the column of the matrix it refers to. -/
structure ColumnView where
  column : Nat
deriving DecidableEq, Repr

/-- Modelled from the spec: the constructor `ColumnData( MT& matrix, size_t index )` of the
base class of the view (`ColumnData.h` is not part of the sources): runtime construction
validates the index against the current bounds of the container, i.e. the number of columns
of the matrix, and fails with an out-of-range error if it is violated. -/
def ColumnData.construct {α : Type} (m : DenseMatrix α) (index : Nat) : Outcome ColumnView :=
  if m.columns ≤ index then
    Outcome.thrown (Signal.outOfRange "Invalid column access index")
  else Outcome.value { column := index }

namespace ColumnMajor

/-- The constructor `ColumnImpl<MT,true,true,SF,CIs...>::ColumnImpl( MT& matrix, size_t index )`,
which only initialises its base class `ColumnData`. -/
def construct {α : Type} (m : DenseMatrix α) (index : Nat) : Outcome ColumnView :=
  ColumnData.construct m index

/-- The subscript `ColumnImpl<MT,true,true,SF,CIs...>::operator[]( size_t index )`:
`matrix_(index,column())`.  Its index check is a `BLAZE_USER_ASSERT`, which is inactive
unless user assertions are compiled in. -/
def subscript (column index : Nat) : ElementRef :=
  { row := index, column := column }

/-- The checked access `ColumnImpl<MT,true,true,SF,CIs...>::at( size_t index )`. -/
def atIndex {α : Type} (m : DenseMatrix α) (column index : Nat) : Outcome ElementRef :=
  if size m ≤ index then
    Outcome.thrown (Signal.outOfRange "Invalid column access index")
  else Outcome.value (subscript column index)

end ColumnMajor

namespace RowMajor

/-- The constructor `ColumnImpl<MT,false,true,false,CIs...>::ColumnImpl( MT& matrix, size_t index )`,
which only initialises its base class `ColumnData`. -/
def construct {α : Type} (m : DenseMatrix α) (index : Nat) : Outcome ColumnView :=
  ColumnData.construct m index

/-- The subscript `ColumnImpl<MT,false,true,false,CIs...>::operator[]( size_t index )`:
`matrix_(index,column())`. -/
def subscript (column index : Nat) : ElementRef :=
  { row := index, column := column }

/-- The checked access `ColumnImpl<MT,false,true,false,CIs...>::at( size_t index )`. -/
def atIndex {α : Type} (m : DenseMatrix α) (column index : Nat) : Outcome ElementRef :=
  if size m ≤ index then
    Outcome.thrown (Signal.outOfRange "Invalid column access index")
  else Outcome.value (subscript column index)

end RowMajor

namespace Symmetric

/-- The member `size()` of the column view on a symmetric row-major matrix:
`matrix_.rows()`. -/
def size {α : Type} (m : DenseMatrix α) : Nat := m.rows

/-- The first index `jbegin` touched by
`ColumnImpl<MT,false,true,true,CIs...>::operator=( const ElementType& )`. -/
def fillBegin (t : MatrixTraits) (column : Nat) : Nat :=
  if t.isUpper then
    (if t.isUniUpper || t.isStrictlyUpper then sizeT (column + 1) else column)
  else 0

/-- One past the last index `jend` touched by
`ColumnImpl<MT,false,true,true,CIs...>::operator=( const ElementType& )`. -/
def fillEnd (t : MatrixTraits) (column size : Nat) : Nat :=
  if t.isLower then
    (if t.isUniLower || t.isStrictlyLower then column else sizeT (column + 1))
  else size

/-- The operator `ColumnImpl<MT,false,true,true,CIs...>::operator=( const ElementType& rhs )`
with its loop `for( size_t j=jbegin; j<jend; ++j ) matrix_(column(),j) = rhs;`. -/
def assignScalar {α : Type} (mirrored : Bool) (t : MatrixTraits) (m : DenseMatrix α)
    (column : Nat) (rhs : α) : Option (DenseMatrix α) :=
  let jbegin := fillBegin t column
  let jend := fillEnd t column (size m)
  (whileLoop (fun s : Nat × DenseMatrix α => decide (s.1 < jend))
    (fun s => (sizeT (s.1 + 1), s.2.write mirrored column s.1 rhs)) (jend + 1)
    (jbegin, m)).map Prod.snd

end Symmetric

namespace ColumnMajor

/-- The first row `ibegin` touched by `scale( const Other& scalar )`. -/
def scaleBegin (t : MatrixTraits) (column : Nat) : Nat :=
  if t.isLower then
    (if t.isStrictlyLower then sizeT (column + 1) else column)
  else 0

/-- One past the last row `iend` touched by `scale( const Other& scalar )`. -/
def scaleEnd (t : MatrixTraits) (column size : Nat) : Nat :=
  if t.isUpper then
    (if t.isStrictlyUpper then column else sizeT (column + 1))
  else size

/-- The function `ColumnImpl<MT,true,true,SF,CIs...>::scale( const Other& scalar )` with its
loop `for( size_t i=ibegin; i<iend; ++i ) matrix_(i,column()) *= scalar;`.  A compile-time
constraint rejects unitriangular matrix types; the definition describes the types that
pass.  The update `*=` reads the element and writes the product through the reference type
of the matrix type; a symmetric matrix type mirrors the write. -/
def scale {α : Type} [Mul α] (t : MatrixTraits) (m : DenseMatrix α) (column : Nat)
    (scalar : α) : Option (DenseMatrix α) :=
  let ibegin := scaleBegin t column
  let iend := scaleEnd t column (size m)
  (whileLoop (fun s : Nat × DenseMatrix α => decide (s.1 < iend))
    (fun s => (sizeT (s.1 + 1),
      s.2.write t.isSymmetric s.1 column (s.2.elem s.1 column * scalar)))
    (iend + 1) (ibegin, m)).map Prod.snd

end ColumnMajor

/-- The expression `(*this) * rhs` of the column view and a scalar: a dense vector
expression over the matrix of the view, whose element `i` is `matrix_(i,column()) * rhs` and
which aliases that matrix.  `vt` and `rt` are the traits of the expression type and of its
result type. -/
def scaledColumn {α : Type} [Mul α] (vt rt : VectorTraits) (column size : Nat) (scalar : α) :
    VecExpr α :=
  { traits := vt, resultTraits := rt, size := size,
    elem := fun m i => m.elem i column * scalar, entries := fun _ => [],
    canAlias := true, isAliased := true }

namespace ColumnMajor

/-- The operator `ColumnImpl<MT,true,true,SF,CIs...>::operator*=( Other rhs )`:
`return operator=( (*this) * rhs );`.  A compile-time constraint rejects unitriangular
matrix types. -/
def operatorMultScalar {α : Type} [Mul α] (cfg : KernelConfig) (t : MatrixTraits)
    (ops : MatrixOps α) (vt rt : VectorTraits) (column : Nat) (rhs : α)
    (m : DenseMatrix α) : Option (Signal × DenseMatrix α) :=
  operatorAssign cfg t ops column (scaledColumn vt rt column (size m) rhs) m

end ColumnMajor

namespace ColumnMajor

end ColumnMajor

namespace RowMajor

end RowMajor

/-- Modelled from the spec: the temporary `const CrossType right( *this % (~rhs) )`, the
cross product of the column and the right-hand side, both of size 3 (the cross-product
expression is not part of the sources), evaluated on the current matrix.  `ct` are the
traits of the dense vector type `CrossType`. -/
def crossProduct {α : Type} [Sub α] [Mul α] [Zero α] (ct : VectorTraits)
    (m : DenseMatrix α) (column : Nat) (rhs : VecExpr α) : VecExpr α :=
  let a : Nat → α := fun i => m.elem i column
  let b : Nat → α := fun i => rhs.value m i
  { traits := ct, resultTraits := ct, size := 3,
    elem := fun _ i =>
      if i = 0 then a 1 * b 2 - a 2 * b 1
      else if i = 1 then a 2 * b 0 - a 0 * b 2
      else if i = 2 then a 0 * b 1 - a 1 * b 0
      else 0,
    entries := fun _ => [], canAlias := false, isAliased := false }

namespace ColumnMajor

/-- Modelled from the spec: the free function `assign( left, right )` (not part of the
sources): dispatch to the `assign` kernel of the view that overload resolution and
`VectorizedAssign<VT>` select for the right-hand side. -/
def assign {α : Type} (cfg : KernelConfig) (t : MatrixTraits) (column : Nat)
    (rhs : VecExpr α) (m : DenseMatrix α) : Option (DenseMatrix α) :=
  if rhs.traits.isSparse then some (assignSparse column rhs m)
  else if vectorizedAssign cfg t rhs.traits then assignSIMD cfg t column rhs m
  else assignDefault column rhs m

/-- The operator `ColumnImpl<MT,true,true,SF,CIs...>::operator%=( const Vector<VT,false>& rhs )`. -/
def operatorCrossAssign {α : Type} [Sub α] [Mul α] [Zero α] (cfg : KernelConfig)
    (t : MatrixTraits) (ops : MatrixOps α) (ct : VectorTraits) (column : Nat)
    (rhs : VecExpr α) (m : DenseMatrix α) : Option (Signal × DenseMatrix α) :=
  if size m ≠ 3 ∨ rhs.size ≠ 3 then
    some (Signal.invalidArgument "Invalid vector size for cross product", m)
  else
    let right := crossProduct ct m column rhs
    if !ops.tryAssign m right 0 column then
      some (Signal.invalidArgument "Invalid assignment to restricted matrix", m)
    else
      finish (assign cfg t column right m)

end ColumnMajor

/-- The four arithmetic compound assignments of the kernels. -/
inductive ArithOp where
  | add
  | sub
  | mult
  | div
deriving DecidableEq, Repr

/-- The element operation `a op b` of a compound assignment `a op= b`. -/
def ArithOp.apply {α : Type} [Add α] [Sub α] [Mul α] [Div α] (o : ArithOp) (a b : α) : α :=
  match o with
  | ArithOp.add => a + b
  | ArithOp.sub => a - b
  | ArithOp.mult => a * b
  | ArithOp.div => a / b

namespace ColumnMajor

/-- The SIMD kernel `addAssign`, `subAssign`, `multAssign` or `divAssign` of the
column-major view, selected by operation. -/
def simdKernel {α : Type} [Add α] [Sub α] [Mul α] [Div α] (o : ArithOp) (cfg : KernelConfig)
    (t : MatrixTraits) (column : Nat) (rhs : VecExpr α) (m : DenseMatrix α) :
    Option (DenseMatrix α) :=
  match o with
  | ArithOp.add => addAssignSIMD cfg t column rhs m
  | ArithOp.sub => subAssignSIMD cfg t column rhs m
  | ArithOp.mult => multAssignSIMD cfg t column rhs m
  | ArithOp.div => divAssignSIMD cfg column rhs m

/-- The default kernel `addAssign`, `subAssign`, `multAssign` or `divAssign` of the
column-major view, selected by operation. -/
def defaultKernel {α : Type} [Add α] [Sub α] [Mul α] [Div α] (o : ArithOp) (column : Nat)
    (rhs : VecExpr α) (m : DenseMatrix α) : Option (DenseMatrix α) :=
  match o with
  | ArithOp.add => addAssignDefault column rhs m
  | ArithOp.sub => subAssignDefault column rhs m
  | ArithOp.mult => multAssignDefault column rhs m
  | ArithOp.div => divAssignDefault column rhs m

end ColumnMajor

/-! ## Element access through the view on a symmetric matrix -/

namespace Symmetric

/-- The subscript `ColumnImpl<MT,false,true,true,CIs...>::operator[]( size_t index )`:
`matrix_(column(),index)`. -/
def subscript (column index : Nat) : ElementRef :=
  { row := column, column := index }

/-- The checked access `ColumnImpl<MT,false,true,true,CIs...>::at( size_t index )`. -/
def atIndex {α : Type} (m : DenseMatrix α) (column index : Nat) : Outcome ElementRef :=
  if size m ≤ index then
    Outcome.thrown (Signal.outOfRange "Invalid column access index")
  else Outcome.value (subscript column index)

end Symmetric

/-! ## The type traits `HasClamp` and `HasInvSqrt` -/

/-- The types the traits of the element-wise operations are asked about: vector types and
matrix types with their nested type `ElementType`, and every other type. -/
inductive MathType where
  | vector (id : Nat) (element : MathType)
  | matrix (id : Nat) (element : MathType)
  | other (id : Nat)
deriving DecidableEq, Repr

/-- The trait `IsVector_v<T>`. -/
def IsVector : MathType → Bool
  | MathType.vector _ _ => true
  | _ => false

/-- The trait `IsMatrix_v<T>`. -/
def IsMatrix : MathType → Bool
  | MathType.matrix _ _ => true
  | _ => false

/-- The type a query about `T` finally reaches: `T` itself unless `T` is a vector or a
matrix, otherwise the type reached from `T::ElementType`. -/
def MathType.innermost : MathType → MathType
  | MathType.vector _ X => X.innermost
  | MathType.matrix _ X => X.innermost
  | MathType.other id => MathType.other id

/-- The overload sets of `clamp` and `invsqrt` visible to the traits: whether the expression
`clamp( declval<T>(), declval<T>(), declval<T>() )`, respectively `invsqrt( declval<T>() )`,
is well-formed for the type `T`. -/
structure OperationEnv where
  clampExists : MathType → Bool
  invsqrtExists : MathType → Bool

/-- The helper `HasClampHelper<T>`: derived from `TrueType` when the `decltype` of the call
`clamp( T, T, T )` is well-formed, from `FalseType` otherwise. -/
def HasClampHelper (env : OperationEnv) (T : MathType) : Bool :=
  if env.clampExists T then true else false

/-- The trait `HasClamp<T>`: its specialisations for vectors and for matrices derive from
`HasClamp< typename T::ElementType >`, the primary template from `HasClampHelper<T>`. -/
def HasClamp (env : OperationEnv) : MathType → Bool
  | MathType.vector _ X => HasClamp env X
  | MathType.matrix _ X => HasClamp env X
  | MathType.other id => HasClampHelper env (MathType.other id)

/-- The helper `HasInvSqrtHelper<T>`: derived from `TrueType` when the `decltype` of the call
`invsqrt( T )` is well-formed, from `FalseType` otherwise. -/
def HasInvSqrtHelper (env : OperationEnv) (T : MathType) : Bool :=
  if env.invsqrtExists T then true else false

/-- The trait `HasInvSqrt<T>`: its specialisations for vectors and for matrices derive from
`HasInvSqrt< typename T::ElementType >`, the primary template from `HasInvSqrtHelper<T>`. -/
def HasInvSqrt (env : OperationEnv) : MathType → Bool
  | MathType.vector _ X => HasInvSqrt env X
  | MathType.matrix _ X => HasInvSqrt env X
  | MathType.other id => HasInvSqrtHelper env (MathType.other id)

/-! ## Compile-time integral constants: `Minus` and `Or` -/

/-- Whether a built-in type is an integral type. -/
def Builtin.isIntegral : Builtin → Bool
  | Builtin.float => false
  | Builtin.double => false
  | Builtin.longDouble => false
  | _ => true

/-- Whether a built-in integral type is signed (LP64 data model, plain `char` signed). -/
def Builtin.isSignedIntegral : Builtin → Bool
  | Builtin.char => true
  | Builtin.signedChar => true
  | Builtin.wchar => true
  | Builtin.short => true
  | Builtin.int => true
  | Builtin.long => true
  | Builtin.longLong => true
  | _ => false

/-- The width in bits of a built-in integral type in the LP64 data model; `bool` holds the
values `0` and `1`. -/
def Builtin.width : Builtin → Nat
  | Builtin.bool => 1
  | Builtin.char => 8
  | Builtin.signedChar => 8
  | Builtin.unsignedChar => 8
  | Builtin.wchar => 32
  | Builtin.char16 => 16
  | Builtin.char32 => 32
  | Builtin.short => 16
  | Builtin.unsignedShort => 16
  | Builtin.int => 32
  | Builtin.unsignedInt => 32
  | Builtin.long => 64
  | Builtin.unsignedLong => 64
  | Builtin.longLong => 64
  | Builtin.unsignedLongLong => 64
  | _ => 0

/-- The smallest value of a built-in integral type. -/
def Builtin.minValue (b : Builtin) : ℤ :=
  if b.isSignedIntegral then -(2 ^ (b.width - 1)) else 0

/-- The largest value of a built-in integral type. -/
def Builtin.maxValue (b : Builtin) : ℤ :=
  if b.isSignedIntegral then 2 ^ (b.width - 1) - 1 else 2 ^ b.width - 1

/-- Whether the value `x` is representable in the built-in integral type `b`. -/
def Builtin.represents (b : Builtin) (x : ℤ) : Bool :=
  decide (b.minValue ≤ x ∧ x ≤ b.maxValue)

/-- The integral conversion of the value `x` to the type `b`: reduction modulo `2^w` for an
unsigned type of `w` bits; the value itself for a signed type, to which the usual arithmetic
conversions only ever convert values it can represent. -/
def Builtin.convert (b : Builtin) (x : ℤ) : ℤ :=
  if b.isSignedIntegral then x else x % 2 ^ b.width

/-- The value of the constant expression `a - b` for operands of the integral types `A` and
`B`, with its type.  Both operands are brought to the type the usual arithmetic conversions
select; the subtraction wraps modulo `2^w` in an unsigned type of `w` bits; in a signed type
a difference that is not representable is undefined, so the expression is not a constant
expression and there is no value. -/
def constantDifference (A B : Builtin) (a b : ℤ) : Option (Builtin × ℤ) :=
  let R := usualArithmeticConversion A B
  let d := R.convert a - R.convert b
  if R.isSignedIntegral then (if R.represents d then some (R, d) else none)
  else some (R, d % 2 ^ R.width)

/-- Modelled from the spec: the alias `CommonType_<T1,T2>` on built-in arithmetic types
(`CommonType.h` is not part of the sources; it forwards to `std::common_type`): the decayed
type of `false ? declval<T1>() : declval<T2>()`, which is the type itself for two identical
types and the type selected by the usual arithmetic conversions otherwise. -/
def CommonType (T1 T2 : Builtin) : Builtin :=
  if T1 = T2 then T1 else usualArithmeticConversion T1 T2

/-- An instantiation `IntegralConstant<T,N>`: its nested type `ValueType` and its member
`value`. -/
structure IntegralConstant where
  ValueType : Builtin
  value : ℤ
deriving DecidableEq, Repr

/-- Modelled from the spec: the instantiation `IntegralConstant<T,N>` with a constant
expression of value `x` as the argument `N` (`IntegralConstant.h` is not part of the
sources; it forwards to `std::integral_constant<T,N>`).  The argument is a converted constant
expression of type `T`, in which a narrowing conversion is not permitted: the instantiation
is well-formed only if `T` can represent `x`. -/
def IntegralConstant.instantiate (T : Builtin) (x : ℤ) : Option IntegralConstant :=
  if T.represents x then some { ValueType := T, value := x } else none

/-- The class template `Minus<T1,T2>`, derived from
`IntegralConstant< CommonType_< typename T1::ValueType, typename T2::ValueType >,
( T1::value - T2::value ) >`; `none` when the instantiation is ill-formed. -/
def Mpl.Minus (T1 T2 : IntegralConstant) : Option IntegralConstant :=
  (constantDifference T1.ValueType T2.ValueType T1.value T2.value).bind fun d =>
    IntegralConstant.instantiate (CommonType T1.ValueType T2.ValueType) d.2

/-- The difference of two values computed in the type `C`, following the words of the
specification: the difference itself, reduced modulo `2^w` when `C` is an unsigned type of
`w` bits. -/
def differenceIn (C : Builtin) (a b : ℤ) : ℤ :=
  if C.isSignedIntegral then a - b else (a - b) % 2 ^ C.width

/-- The helper `OrHelper<T,Ts...>`, derived from `Bool< T::value || OrHelper<Ts...>::value >`,
with its specialisation `OrHelper<T>`, derived from `Bool< T::value >`.  The operands are
given by their members `value`. -/
def Mpl.OrHelper : Bool → List Bool → Bool
  | T, [] => T
  | T, U :: Ts => T || Mpl.OrHelper U Ts

/-- The class template `Or<T1,T2,Ts...>`, derived from
`Bool< OrHelper<T1,T2,Ts...>::value >`. -/
def Mpl.Or (T1 T2 : Bool) (Ts : List Bool) : Bool :=
  Mpl.OrHelper T1 (T2 :: Ts)

/-- The constant `Long<N>`: an `IntegralConstant<long,N>`. -/
def Mpl.Long (N : ℤ) : IntegralConstant := { ValueType := Builtin.long, value := N }

/-- The constant `Int<N>`: an `IntegralConstant<int,N>`. -/
def Mpl.Int (N : ℤ) : IntegralConstant := { ValueType := Builtin.int, value := N }

/-! ## `TSMatScalarMultExprTrait` -/

/-- A type as a template argument: a possibly cv-qualified type, or an lvalue reference to
one. -/
structure RefType where
  referred : QType
  isReference : Bool
deriving DecidableEq, Repr

/-- The trait `IsConst<T>`: a reference type is not itself `const`. -/
def IsConst (T : RefType) : Bool := !T.isReference && T.referred.isConst

/-- The trait `IsVolatile<T>`: a reference type is not itself `volatile`. -/
def IsVolatile (T : RefType) : Bool := !T.isReference && T.referred.isVolatile

/-- The trait `IsReference<T>`. -/
def IsReference (T : RefType) : Bool := T.isReference

/-- The trait `RemoveCV<T>`: removes the top-level cv-qualifiers; a reference type has
none. -/
def RemoveCV (T : RefType) : RefType :=
  if T.isReference then T else { T with referred := QType.plain T.referred.base }

/-- The trait `RemoveReference<T>`: the type referred to. -/
def RemoveReference (T : RefType) : RefType := { T with isReference := false }

/-- The type without any `const`, `volatile` or reference qualifier. -/
def RefType.unqualified (T : RefType) : RefType :=
  { referred := QType.plain T.referred.base, isReference := false }

/-- The number of steps of qualifier removal a type admits: a reference loses the reference
first, then its cv-qualifiers. -/
def RefType.weight (T : RefType) : Nat :=
  (if T.isReference then 2 else 0) +
    (if T.referred.isConst || T.referred.isVolatile then 1 else 0)

/-- The trait `IsComplex<T>` on unqualified types. -/
def IsComplex : CType → Bool
  | CType.complex _ => true
  | _ => false

/-- The type traits of other headers that `TSMatScalarMultExprTrait` consults:
`IsSparseMatrix`, `IsColumnMajorMatrix`, `IsNumeric`, `NumericElementType`,
`BaseElementType`, and the facts `MultTrait` needs about class types. -/
structure ExprTraitEnv where
  types : TypeEnv
  isSparseMatrix : RefType → Bool
  isColumnMajorMatrix : RefType → Bool
  isNumeric : RefType → Bool
  numericElementType : RefType → CType
  baseElementType : RefType → CType

/-- The expression types `TSMatScalarMultExprTrait` yields: `INVALID_TYPE`, or a
specialisation `SMatScalarMultExpr<MT,ST,SO>`. -/
inductive ExprType where
  | invalid
  | sMatScalarMultExpr (MT : RefType) (ST : CType) (SO : Bool)
deriving DecidableEq, Repr

/-- The nested type `ElementType` of `TSMatScalarMultExprTraitHelper<MT,ST,Condition>`:
`BaseElementType<MT>::Type` when the numeric element type `NET` of `MT` is complex and `ST`
is built-in, `MultTrait<NET,ST>::Type` otherwise. -/
def TSMatScalarMultExprTraitHelper.ElementType (env : ExprTraitEnv) (MT ST : RefType) :
    CType :=
  let NET := env.numericElementType MT
  if IsComplex NET && (!ST.isReference && IsBuiltin ST.referred) then env.baseElementType MT
  else MultTrait env.types (QType.plain NET) ST.referred

/-- The helper `TSMatScalarMultExprTraitHelper<MT,ST,Condition>` with its specialisation for
`Condition = false`, whose `Type` is `INVALID_TYPE`. -/
def TSMatScalarMultExprTraitHelper (env : ExprTraitEnv) (MT ST : RefType)
    (Condition : Bool) : ExprType :=
  if Condition then
    ExprType.sMatScalarMultExpr MT (TSMatScalarMultExprTraitHelper.ElementType env MT ST) true
  else ExprType.invalid

/-- The enumerator `qualified` of `TSMatScalarMultExprTrait<MT,ST>`. -/
def TSMatScalarMultExprTrait.qualified (MT ST : RefType) : Bool :=
  IsConst MT || IsVolatile MT || IsReference MT ||
    IsConst ST || IsVolatile ST || IsReference ST

/-- The enumerator `condition` of `TSMatScalarMultExprTrait<MT,ST>`. -/
def TSMatScalarMultExprTrait.condition (env : ExprTraitEnv) (MT ST : RefType) : Bool :=
  env.isSparseMatrix MT && env.isColumnMajorMatrix MT && env.isNumeric ST

/-- The nested type `Type` of the class template `TSMatScalarMultExprTrait<MT,ST>`:
`SelectType< qualified, TSMatScalarMultExprTrait<Type1,Type2>, Tmp >::Type::Type` with
`Type1 = RemoveReference< RemoveCV<MT>::Type >::Type`, `Type2` likewise from `ST`, and
`Tmp = TSMatScalarMultExprTraitHelper<MT,ST,condition>`. -/
def TSMatScalarMultExprTrait (env : ExprTraitEnv) (MT ST : RefType) : ExprType :=
  if h : TSMatScalarMultExprTrait.qualified MT ST = true then
    TSMatScalarMultExprTrait env (RemoveReference (RemoveCV MT)) (RemoveReference (RemoveCV ST))
  else
    TSMatScalarMultExprTraitHelper env MT ST (TSMatScalarMultExprTrait.condition env MT ST)
termination_by MT.weight + ST.weight
decreasing_by
  obtain ⟨⟨b1, c1, v1⟩, r1⟩ := MT
  obtain ⟨⟨b2, c2, v2⟩, r2⟩ := ST
  revert h
  cases r1 <;> cases c1 <;> cases v1 <;> cases r2 <;> cases c2 <;> cases v2 <;>
    simp [TSMatScalarMultExprTrait.qualified, IsConst, IsVolatile, IsReference, RemoveCV,
      RemoveReference, RefType.weight, QType.plain]

/-! ## Copy assignment of column views -/

/-- The matrices a kernel can leave behind while it updates a column with `op` from
right-hand side values `v`: the rows below some position have been updated, everything else
is as in `m0`. -/
def KernelReach {α : Type} (op : α → α → α) (column : Nat) (v : Nat → α) (m0 m : DenseMatrix α) :
    Prop :=
  ∃ n, ∀ a b, m.elem a b =
    if b = column ∧ a < n then op (m0.elem a column) (v a) else m0.elem a b

/-- The vector expression with the properties of `e` whose elements are the fixed values
`v`, whatever the state of the matrix. -/
def VecExpr.frozen {α : Type} (e : VecExpr α) (v : Nat → α) : VecExpr α :=
  { e with elem := fun _ i => v i }

/-- The column view `column(A,k)` of the matrix `A` an assignment writes to, as the
right-hand side of that assignment: a dense vector of `size` elements whose element `i` is
the current `A(i,k)`.  `vt` are the traits of the view type. -/
def columnOf {α : Type} (vt : VectorTraits) (k size : Nat) : VecExpr α :=
  { traits := vt, resultTraits := columnResultTraits, size := size,
    elem := fun m i => m.elem i k, entries := fun _ => [],
    canAlias := true, isAliased := true }

namespace ColumnMajor

/-- The operator `ColumnImpl<MT,true,true,SF,CIs...>::operator=( const ColumnImpl& rhs )`;
`same` is the outcome of the test `&rhs == this`. -/
def operatorCopyAssign {α : Type} (cfg : KernelConfig) (t : MatrixTraits) (ops : MatrixOps α)
    (column : Nat) (same : Bool) (rhs : VecExpr α) (m : DenseMatrix α) :
    Option (Signal × DenseMatrix α) :=
  if same then some (Signal.done, m)
  else if size m ≠ rhs.size then
    some (Signal.invalidArgument "Column sizes do not match", m)
  else if !ops.tryAssign m rhs 0 column then
    some (Signal.invalidArgument "Invalid assignment to restricted matrix", m)
  else
    finish (smpAssign cfg t column rhs m)

end ColumnMajor

namespace RowMajor

/-- The operator `ColumnImpl<MT,false,true,false,CIs...>::operator=( const ColumnImpl& rhs )`;
`same` is the outcome of the test `&rhs == this`. -/
def operatorCopyAssign {α : Type} (ops : MatrixOps α)
    (column : Nat) (same : Bool) (rhs : VecExpr α) (m : DenseMatrix α) :
    Option (Signal × DenseMatrix α) :=
  if same then some (Signal.done, m)
  else if size m ≠ rhs.size then
    some (Signal.invalidArgument "Column sizes do not match", m)
  else if !ops.tryAssign m rhs 0 column then
    some (Signal.invalidArgument "Invalid assignment to restricted matrix", m)
  else
    finish (smpAssign column rhs m)

end RowMajor

/-! ## The phases of the SIMD kernels -/

/-- The number of times a `for`/`while` loop executes its body; the loop is the one
`whileLoop` runs with the same condition, body and iteration budget. -/
def loopIterations {σ : Type} (cond : σ → Bool) (body : σ → σ) : Nat → σ → Option Nat
  | 0, _ => none
  | fuel + 1, s =>
    if cond s then (loopIterations cond body fuel (body s)).map (fun n => n + 1) else some 0

/-- The number of iterations of the four-way unrolled loop `unrolledLoop`. -/
def unrolledIterations {α : Type} (op : α → α → α) (S column ipos : Nat) (rhs : VecExpr α)
    (fuel : Nat) (s : KernelState α) : Option Nat :=
  loopIterations (fun s => decide (sizeT (s.i + sizeT (S * 3)) < ipos))
    (fun s =>
      let s4 := simdBatch op S column rhs (simdBatch op S column rhs
        (simdBatch op S column rhs (simdBatch op S column rhs s)))
      { s4 with i := sizeT (s.i + sizeT (S * 4)) }) fuel s

/-- The number of iterations of the single-batch loop `batchLoop`. -/
def batchIterations {α : Type} (op : α → α → α) (S column ipos : Nat) (rhs : VecExpr α)
    (fuel : Nat) (s : KernelState α) : Option Nat :=
  loopIterations (fun s => decide (s.i < ipos))
    (fun s => { simdBatch op S column rhs s with i := sizeT (s.i + S) }) fuel s

/-- The number of iterations of the scalar remainder loop `remainderLoop`, i.e. the number
of scalar element operations `*left op= *right` it executes. -/
def remainderIterations {α : Type} (op : α → α → α) (remainder : Bool) (column rows : Nat)
    (rhs : VecExpr α) (fuel : Nat) (s : KernelState α) : Option Nat :=
  loopIterations (fun s => remainder && decide (s.i < rows))
    (fun s => { scalarStep op column rhs s with i := sizeT (s.i + 1) }) fuel s

/-- The record of a run of a SIMD kernel: for each of its loops the number of iterations and
the state in which the loop ends.  The iterator position `left` of a state is the number of
elements of the column processed so far. -/
structure KernelTrace (α : Type) where
  unrolledIterations : Nat
  afterUnrolled : KernelState α
  batchIterations : Nat
  afterBatches : KernelState α
  scalarSteps : Nat
  final : KernelState α

/-- The run of the unrolled-by-four loop shape `simdLoops`, recorded loop by loop. -/
def simdLoopsTrace {α : Type} (op : α → α → α) (remainder : Bool) (S column rows ipos : Nat)
    (rhs : VecExpr α) (m : DenseMatrix α) : Option (KernelTrace α) :=
  let s0 : KernelState α := { i := 0, left := 0, right := 0, matrix := m }
  (unrolledLoop op S column ipos rhs (rows + 1) s0).bind fun s1 =>
    (unrolledIterations op S column ipos rhs (rows + 1) s0).bind fun n1 =>
      (batchLoop op S column ipos rhs (rows + 1) s1).bind fun s2 =>
        (batchIterations op S column ipos rhs (rows + 1) s1).bind fun n2 =>
          (remainderLoop op remainder column rows rhs (rows + 1) s2).bind fun s3 =>
            (remainderIterations op remainder column rows rhs (rows + 1) s2).map fun n3 =>
              { unrolledIterations := n1, afterUnrolled := s1, batchIterations := n2,
                afterBatches := s2, scalarSteps := n3, final := s3 }

/-- The run of the streaming loop shape `streamLoops`, recorded loop by loop; this shape has
no unrolled loop. -/
def streamLoopsTrace {α : Type} (remainder : Bool) (S column rows ipos : Nat)
    (rhs : VecExpr α) (m : DenseMatrix α) : Option (KernelTrace α) :=
  let s0 : KernelState α := { i := 0, left := 0, right := 0, matrix := m }
  (batchLoop (fun _ r => r) S column ipos rhs (rows + 1) s0).bind fun s2 =>
    (batchIterations (fun _ r => r) S column ipos rhs (rows + 1) s0).bind fun n2 =>
      (remainderLoop (fun _ r => r) remainder column rows rhs (rows + 1) s2).bind fun s3 =>
        (remainderIterations (fun _ r => r) remainder column rows rhs (rows + 1) s2).map
          fun n3 =>
            { unrolledIterations := 0, afterUnrolled := s0, batchIterations := n2,
              afterBatches := s2, scalarSteps := n3, final := s3 }

/-- The five batched (SIMD) kernels of the column-major view. -/
inductive BatchedKernel where
  | assign
  | addAssign
  | subAssign
  | multAssign
  | divAssign
deriving DecidableEq, Repr

/-- The element operation of a batched kernel: the new value of an element from its old
value `a` and the element `b` of the right-hand side. -/
def BatchedKernel.apply {α : Type} [Add α] [Sub α] [Mul α] [Div α] (kn : BatchedKernel)
    (a b : α) : α :=
  match kn with
  | BatchedKernel.assign => b
  | BatchedKernel.addAssign => a + b
  | BatchedKernel.subAssign => a - b
  | BatchedKernel.multAssign => a * b
  | BatchedKernel.divAssign => a / b

namespace ColumnMajor

/-- The SIMD kernel `assign`, `addAssign`, `subAssign`, `multAssign` or `divAssign` of the
column-major view, selected by name. -/
def batchedKernel {α : Type} [Add α] [Sub α] [Mul α] [Div α] (kn : BatchedKernel)
    (cfg : KernelConfig) (t : MatrixTraits) (column : Nat) (rhs : VecExpr α)
    (m : DenseMatrix α) : Option (DenseMatrix α) :=
  match kn with
  | BatchedKernel.assign => assignSIMD cfg t column rhs m
  | BatchedKernel.addAssign => addAssignSIMD cfg t column rhs m
  | BatchedKernel.subAssign => subAssignSIMD cfg t column rhs m
  | BatchedKernel.multAssign => multAssignSIMD cfg t column rhs m
  | BatchedKernel.divAssign => divAssignSIMD cfg column rhs m

/-- The run of a SIMD kernel of the column-major view, recorded loop by loop.  Each kernel
runs its loops with its own `remainder` and `ipos`: those of `divAssign` do not depend on the
padding, its remainder loop being unconditional. -/
def batchedTrace {α : Type} [Add α] [Sub α] [Mul α] [Div α] (kn : BatchedKernel)
    (cfg : KernelConfig) (t : MatrixTraits) (column : Nat) (rhs : VecExpr α)
    (m : DenseMatrix α) : Option (KernelTrace α) :=
  let remainder := !t.isPadded || !rhs.traits.isPadded
  let rows := size m
  match kn with
  | BatchedKernel.assign =>
    if streamingSelected cfg rows rhs then
      streamLoopsTrace remainder cfg.SIMDSIZE column rows
        (simdEnd remainder rows cfg.SIMDSIZE) rhs m
    else
      simdLoopsTrace (fun _ r => r) remainder cfg.SIMDSIZE column rows
        (simdEnd remainder rows cfg.SIMDSIZE) rhs m
  | BatchedKernel.addAssign =>
    simdLoopsTrace (fun l r => l + r) remainder cfg.SIMDSIZE column rows
      (simdEnd remainder rows cfg.SIMDSIZE) rhs m
  | BatchedKernel.subAssign =>
    simdLoopsTrace (fun l r => l - r) remainder cfg.SIMDSIZE column rows
      (simdEnd remainder rows cfg.SIMDSIZE) rhs m
  | BatchedKernel.multAssign =>
    simdLoopsTrace (fun l r => l * r) remainder cfg.SIMDSIZE column rows
      (simdEnd remainder rows cfg.SIMDSIZE) rhs m
  | BatchedKernel.divAssign =>
    simdLoopsTrace (fun l r => l / r) true cfg.SIMDSIZE column rows
      (simdEnd true rows cfg.SIMDSIZE) rhs m

end ColumnMajor

/-! ## The internal end-of-loop assertion of the SIMD kernels -/

/-- The condition of the internal assertion "Invalid end calculation" of the SIMD kernels:
`!remainder || ( rows - ( rows % (SIMDSIZE) ) ) == ipos`.  The kernel `divAssign`, which has
no `remainder`, asserts the second operand alone, i.e. the condition for `remainder = true`. -/
def endCalculationHolds (remainder : Bool) (rows S ipos : Nat) : Bool :=
  !remainder || decide (sizeT (rows - rows % S) = ipos)

/-- The loop end `ipos` of the default kernels: `(~rhs).size() & size_t(-2)`. -/
def defaultEnd (size : Nat) : Nat := Nat.land size (sizeTNeg 2)

/-! ## The element accesses of the SIMD kernels -/

/-- One access of a kernel through its iterators `left` (into the column) and `right` (into
the right-hand side): a batched access, i.e. a SIMD load/store of `count = SIMDSIZE`
consecutive elements, or a scalar access to one element, starting at the positions `left`
and `right` relative to `begin()`. -/
structure Access where
  batched : Bool
  left : Nat
  right : Nat
  count : Nat
deriving DecidableEq, Repr

/-- The accesses made by a loop: those of its iterations, in order, where an iteration
entered in state `s` makes the accesses `acc s`. -/
def loopLog {σ β : Type} (cond : σ → Bool) (body : σ → σ) (acc : σ → List β) :
    Nat → σ → Option (List β)
  | 0, _ => none
  | fuel + 1, s =>
    if cond s then (loopLog cond body acc fuel (body s)).map (fun l => acc s ++ l) else some []

/-- The access of the batch `simdBatch` executed in state `s`: `left.load()`, `right.load()`
and `left.store()` at the current positions of the iterators. -/
def batchAccess {α : Type} (S : Nat) (s : KernelState α) : Access :=
  { batched := true, left := s.left, right := s.right, count := S }

/-- The access of the scalar step `scalarStep` executed in state `s`: `*left` and `*right`. -/
def scalarAccess {α : Type} (s : KernelState α) : Access :=
  { batched := false, left := s.left, right := s.right, count := 1 }

/-- The accesses of the four-way unrolled loop `unrolledLoop`: four batches per iteration,
each at the positions the previous one has left the iterators at. -/
def unrolledLog {α : Type} (op : α → α → α) (S column ipos : Nat) (rhs : VecExpr α)
    (fuel : Nat) (s : KernelState α) : Option (List Access) :=
  loopLog (fun s => decide (sizeT (s.i + sizeT (S * 3)) < ipos))
    (fun s =>
      let s4 := simdBatch op S column rhs (simdBatch op S column rhs
        (simdBatch op S column rhs (simdBatch op S column rhs s)))
      { s4 with i := sizeT (s.i + sizeT (S * 4)) })
    (fun s =>
      let s1 := simdBatch op S column rhs s
      let s2 := simdBatch op S column rhs s1
      let s3 := simdBatch op S column rhs s2
      [batchAccess S s, batchAccess S s1, batchAccess S s2, batchAccess S s3]) fuel s

/-- The accesses of the single-batch loop `batchLoop`. -/
def batchLog {α : Type} (op : α → α → α) (S column ipos : Nat) (rhs : VecExpr α)
    (fuel : Nat) (s : KernelState α) : Option (List Access) :=
  loopLog (fun s => decide (s.i < ipos))
    (fun s => { simdBatch op S column rhs s with i := sizeT (s.i + S) })
    (fun s => [batchAccess S s]) fuel s

/-- The accesses of the scalar remainder loop `remainderLoop`. -/
def remainderLog {α : Type} (op : α → α → α) (remainder : Bool) (column rows : Nat)
    (rhs : VecExpr α) (fuel : Nat) (s : KernelState α) : Option (List Access) :=
  loopLog (fun s => remainder && decide (s.i < rows))
    (fun s => { scalarStep op column rhs s with i := sizeT (s.i + 1) })
    (fun s => [scalarAccess s]) fuel s

/-- The accesses of the unrolled-by-four loop shape `simdLoops`, in order. -/
def simdLoopsLog {α : Type} (op : α → α → α) (remainder : Bool) (S column rows ipos : Nat)
    (rhs : VecExpr α) (m : DenseMatrix α) : Option (List Access) :=
  let s0 : KernelState α := { i := 0, left := 0, right := 0, matrix := m }
  (unrolledLoop op S column ipos rhs (rows + 1) s0).bind fun s1 =>
    (unrolledLog op S column ipos rhs (rows + 1) s0).bind fun l1 =>
      (batchLoop op S column ipos rhs (rows + 1) s1).bind fun s2 =>
        (batchLog op S column ipos rhs (rows + 1) s1).bind fun l2 =>
          (remainderLog op remainder column rows rhs (rows + 1) s2).map fun l3 =>
            l1 ++ l2 ++ l3

/-- The accesses of the streaming loop shape `streamLoops`, in order. -/
def streamLoopsLog {α : Type} (remainder : Bool) (S column rows ipos : Nat)
    (rhs : VecExpr α) (m : DenseMatrix α) : Option (List Access) :=
  let s0 : KernelState α := { i := 0, left := 0, right := 0, matrix := m }
  (batchLoop (fun _ r => r) S column ipos rhs (rows + 1) s0).bind fun s2 =>
    (batchLog (fun _ r => r) S column ipos rhs (rows + 1) s0).bind fun l2 =>
      (remainderLog (fun _ r => r) remainder column rows rhs (rows + 1) s2).map fun l3 =>
        l2 ++ l3

/-- The size rounded up to the next multiple of `S`. -/
def roundUp (size S : Nat) : Nat := (size + S - 1) / S * S

namespace ColumnMajor

/-- The accesses of a SIMD kernel of the column-major view, in order; the kernels run their
loops with the `remainder` and `ipos` given in `batchedTrace`. -/
def batchedAccesses {α : Type} [Add α] [Sub α] [Mul α] [Div α] (kn : BatchedKernel)
    (cfg : KernelConfig) (t : MatrixTraits) (column : Nat) (rhs : VecExpr α)
    (m : DenseMatrix α) : Option (List Access) :=
  let remainder := !t.isPadded || !rhs.traits.isPadded
  let rows := size m
  match kn with
  | BatchedKernel.assign =>
    if streamingSelected cfg rows rhs then
      streamLoopsLog remainder cfg.SIMDSIZE column rows
        (simdEnd remainder rows cfg.SIMDSIZE) rhs m
    else
      simdLoopsLog (fun _ r => r) remainder cfg.SIMDSIZE column rows
        (simdEnd remainder rows cfg.SIMDSIZE) rhs m
  | BatchedKernel.addAssign =>
    simdLoopsLog (fun l r => l + r) remainder cfg.SIMDSIZE column rows
      (simdEnd remainder rows cfg.SIMDSIZE) rhs m
  | BatchedKernel.subAssign =>
    simdLoopsLog (fun l r => l - r) remainder cfg.SIMDSIZE column rows
      (simdEnd remainder rows cfg.SIMDSIZE) rhs m
  | BatchedKernel.multAssign =>
    simdLoopsLog (fun l r => l * r) remainder cfg.SIMDSIZE column rows
      (simdEnd remainder rows cfg.SIMDSIZE) rhs m
  | BatchedKernel.divAssign =>
    simdLoopsLog (fun l r => l / r) true cfg.SIMDSIZE column rows
      (simdEnd true rows cfg.SIMDSIZE) rhs m

end ColumnMajor

/-! ## Hermitian matrices and the `Asin` functor -/

/-- A matrix is Hermitian: square and element-wise equal to its own conjugate transpose. -/
def DenseMatrix.IsHermitian {α : Type} [Star α] (A : DenseMatrix α) : Prop :=
  A.rows = A.columns ∧
    ∀ i, i < A.rows → ∀ j, j < A.columns → A.elem i j = star (A.elem j i)

namespace Asin

/-- The scalar application `Asin::operator()( const T& a )`: `asin( a )`, where `asin` is
the function the call resolves to for the type `T`. -/
def call {α : Type} (asin : α → α) (a : α) : α := asin a

/-- The trait `YieldsSymmetric<Asin,MT>`. -/
def YieldsSymmetric (MT : MatrixTraits) : Bool := MT.isSymmetric

/-- The trait `YieldsHermitian<Asin,MT>`. -/
def YieldsHermitian (MT : MatrixTraits) : Bool := MT.isHermitian

/-- The trait `YieldsLower<Asin,MT>`. -/
def YieldsLower (MT : MatrixTraits) : Bool := MT.isLower

/-- The trait `YieldsStrictlyLower<Asin,MT>`. -/
def YieldsStrictlyLower (MT : MatrixTraits) : Bool := MT.isStrictlyLower

/-- The trait `YieldsUpper<Asin,MT>`. -/
def YieldsUpper (MT : MatrixTraits) : Bool := MT.isUpper

/-- The trait `YieldsStrictlyUpper<Asin,MT>`. -/
def YieldsStrictlyUpper (MT : MatrixTraits) : Bool := MT.isStrictlyUpper

/-- Modelled from the spec: the trait `YieldsUniLower<Asin,MT>`.  `Asin.h` declares no
specialisation of `YieldsUniLower`, so the primary template applies (its header is not part
of the sources), which by the conservative default reports `false`. -/
def YieldsUniLower (_MT : MatrixTraits) : Bool := false

/-- Modelled from the spec: the trait `YieldsUniUpper<Asin,MT>`.  `Asin.h` declares no
specialisation of `YieldsUniUpper`, so the primary template applies (its header is not part
of the sources), which by the conservative default reports `false`. -/
def YieldsUniUpper (_MT : MatrixTraits) : Bool := false

/-- The element-wise application of the functor to a matrix: element `(i,j)` of the result
is `Asin()( A(i,j) )`. -/
def map {α : Type} (asin : α → α) (A : DenseMatrix α) : DenseMatrix α :=
  { rows := A.rows, columns := A.columns, elem := fun i j => call asin (A.elem i j) }

end Asin

/-! ## The iterator of the row-major column view -/

/-- The `size_t` value of the difference `a - b` of two `size_t` values. -/
def sizeTSub (a b : Nat) : Nat :=
  sizeT (sizeT a + (18446744073709551616 - sizeT b))

/-- The conversion of a `size_t` value to `ptrdiff_t` (two's complement). -/
def toPtrdiff (x : Nat) : ℤ :=
  if sizeT x < 9223372036854775808 then (sizeT x : ℤ)
  else (sizeT x : ℤ) - 18446744073709551616

/-- The class `ColumnIterator` of the row-major column view: the address `matrix_` of the
matrix, the current row index `row_` and the column index `column_`. -/
structure ColumnIterator where
  matrix : Nat
  row : Nat
  column : Nat
deriving DecidableEq, Repr

namespace ColumnIterator

/-- The operator `operator+=( size_t inc )`: `row_ += inc`. -/
def addAssign (it : ColumnIterator) (inc : Nat) : ColumnIterator :=
  { it with row := sizeT (it.row + inc) }

/-- The operator `operator-=( size_t dec )`: `row_ -= dec`. -/
def subAssign (it : ColumnIterator) (dec : Nat) : ColumnIterator :=
  { it with row := sizeTSub it.row dec }

/-- The pre-increment `operator++()`: `++row_`. -/
def preIncrement (it : ColumnIterator) : ColumnIterator :=
  { it with row := sizeT (it.row + 1) }

/-- The post-increment `operator++( int )`: the returned copy `tmp` of the iterator, and the
iterator after `++(*this)`. -/
def postIncrement (it : ColumnIterator) : ColumnIterator × ColumnIterator :=
  let tmp := it
  (tmp, it.preIncrement)

/-- The pre-decrement `operator--()`: `--row_`. -/
def preDecrement (it : ColumnIterator) : ColumnIterator :=
  { it with row := sizeTSub it.row 1 }

/-- The post-decrement `operator--( int )`: the returned copy `tmp` of the iterator, and the
iterator after `--(*this)`. -/
def postDecrement (it : ColumnIterator) : ColumnIterator × ColumnIterator :=
  let tmp := it
  (tmp, it.preDecrement)

/-- The subscript `operator[]( size_t index )`: `(*matrix_)(row_+index,column_)`. -/
def subscript (it : ColumnIterator) (index : Nat) : ElementRef :=
  { row := sizeT (it.row + index), column := it.column }

/-- The dereference `operator*()`: `(*matrix_)(row_,column_)`. -/
def deref (it : ColumnIterator) : ElementRef :=
  { row := it.row, column := it.column }

/-- The comparison `operator==`: `row_ == rhs.row_`. -/
def eq (a b : ColumnIterator) : Bool := decide (a.row = b.row)

/-- The comparison `operator!=`: `!( *this == rhs )`. -/
def ne (a b : ColumnIterator) : Bool := !(a.eq b)

/-- The comparison `operator<`: `row_ < rhs.row_`. -/
def lt (a b : ColumnIterator) : Bool := decide (a.row < b.row)

/-- The comparison `operator>`: `row_ > rhs.row_`. -/
def gt (a b : ColumnIterator) : Bool := decide (a.row > b.row)

/-- The comparison `operator<=`: `row_ <= rhs.row_`. -/
def le (a b : ColumnIterator) : Bool := decide (a.row ≤ b.row)

/-- The comparison `operator>=`: `row_ >= rhs.row_`. -/
def ge (a b : ColumnIterator) : Bool := decide (a.row ≥ b.row)

/-- The difference `operator-( const ColumnIterator& rhs )`: `row_ - rhs.row_`, computed
in `size_t` and returned as `ptrdiff_t`. -/
def difference (a b : ColumnIterator) : ℤ := toPtrdiff (sizeTSub a.row b.row)

/-- The operator `operator+( const ColumnIterator& it, size_t inc )`:
`ColumnIterator( *it.matrix_, it.row_+inc, it.column_ )`. -/
def plus (it : ColumnIterator) (inc : Nat) : ColumnIterator :=
  { matrix := it.matrix, row := sizeT (it.row + inc), column := it.column }

/-- The operator `operator+( size_t inc, const ColumnIterator& it )`:
`ColumnIterator( *it.matrix_, it.row_+inc, it.column_ )`. -/
def plusLeft (inc : Nat) (it : ColumnIterator) : ColumnIterator :=
  { matrix := it.matrix, row := sizeT (it.row + inc), column := it.column }

/-- The operator `operator-( const ColumnIterator& it, size_t dec )`:
`ColumnIterator( *it.matrix_, it.row_-dec, it.column_ )`. -/
def minus (it : ColumnIterator) (dec : Nat) : ColumnIterator :=
  { matrix := it.matrix, row := sizeTSub it.row dec, column := it.column }

/-- The traversal `for( ; it != last; ++it ) visit( *it );` of a range of iterators: the
elements it dereferences, in order. -/
def traverse (last : ColumnIterator) : Nat → ColumnIterator → Option (List ElementRef)
  | 0, _ => none
  | fuel + 1, it =>
    if it.ne last then (traverse last fuel it.preIncrement).map (fun l => it.deref :: l)
    else some []

end ColumnIterator

namespace RowMajor

/-- The function `ColumnImpl<MT,false,true,false,CIs...>::begin()`:
`Iterator( matrix_, 0UL, column() )`; `matrix` is the address of `matrix_`. -/
def begin (matrix column : Nat) : ColumnIterator :=
  { matrix := matrix, row := 0, column := column }

/-- The function `ColumnImpl<MT,false,true,false,CIs...>::end()`:
`Iterator( matrix_, size(), column() )`; `matrix` is the address of `matrix_`. -/
def endIterator {α : Type} (matrix : Nat) (m : DenseMatrix α) (column : Nat) :
    ColumnIterator :=
  { matrix := matrix, row := size m, column := column }

end RowMajor

/-! ## Concrete inputs -/

/-- A `5×5` integer matrix with all elements zero. -/
def zero5 : DenseMatrix Int := { rows := 5, columns := 5, elem := fun _ _ => 0 }

/-- The column `column` of a matrix, as the list of its first `rows` elements. -/
def DenseMatrix.columnList {α : Type} (m : DenseMatrix α) (column : Nat) : List α :=
  (List.range m.rows).map fun i => m.elem i column

/-- The traits of a plain dense vector type such as `DynamicVector`. -/
def denseVectorTraits : VectorTraits :=
  { isSparse := false, simdEnabled := true, simdCombinable := true, isPadded := false,
    compositeIsReference := true, hasSIMDAdd := true, hasSIMDSub := true,
    hasSIMDMult := true, hasSIMDDiv := true }

/-- A plain dense vector of the given size with elements `v`, not related to any matrix. -/
def plainVector {α : Type} (size : Nat) (v : Nat → α) : VecExpr α :=
  { traits := denseVectorTraits, resultTraits := denseVectorTraits, size := size,
    elem := fun _ i => v i, entries := fun _ => [], canAlias := false, isAliased := false }

/-- A kernel configuration with four-element SIMD packs and streaming stores enabled for
columns of more than `48 / (4 * 3) = 4` elements. -/
def smallConfig : KernelConfig :=
  { useOptimizedKernels := true, useStreaming := true, cacheSize := 48, sizeofElement := 4,
    SIMDSIZE := 4 }

/-- A `7×2` integer matrix with elements `10*i + j`. -/
def sample7x2 : DenseMatrix Int :=
  { rows := 7, columns := 2, elem := fun i j => 10 * (i : Int) + (j : Int) }

/-- The `2×2` integer matrix with rows `(1, 2)` and `(3, 4)`. -/
def sample2x2 : DenseMatrix Int :=
  { rows := 2, columns := 2, elem := fun i j => 2 * (i : Int) + (j : Int) + 1 }

/-- The traits of a sparse vector expression type such as the product of a dense and a
sparse vector; its result type is a sparse vector. -/
def sparseExprTraits : VectorTraits :=
  { isSparse := true, simdEnabled := false, simdCombinable := false, isPadded := false,
    compositeIsReference := true, hasSIMDAdd := false, hasSIMDSub := false,
    hasSIMDMult := false, hasSIMDDiv := false }

/-- The sparse expression `column(A,1) * sv` over the matrix `A` the assignment writes to,
where `sv` is the sparse vector of size 2 whose only stored element is the value `1` at
index `0`: its only stored element is `A(0,1) * 1` at index `0`, and it aliases `A`. -/
def aliasedSparseProduct : VecExpr Int :=
  { traits := sparseExprTraits, resultTraits := sparseExprTraits, size := 2,
    elem := fun m i => if i = 0 then m.elem 0 1 * 1 else 0,
    entries := fun m => [(0, m.elem 0 1 * 1)],
    canAlias := true, isAliased := true }

/-- A kernel configuration with the optimised kernels switched off. -/
def scalarConfig : KernelConfig :=
  { useOptimizedKernels := false, useStreaming := false, cacheSize := 3145728,
    sizeofElement := 4, SIMDSIZE := 4 }

/-- A `4×4` integer matrix with elements `10*i + j`. -/
def sample4x4 : DenseMatrix Int :=
  { rows := 4, columns := 4, elem := fun i j => 10 * (i : Int) + (j : Int) }

/-- A strictly lower `4×4` integer matrix with elements `10*i + j` below the diagonal. -/
def strictlyLower4 : DenseMatrix Int :=
  { rows := 4, columns := 4,
    elem := fun i j => if j < i then 10 * (i : Int) + (j : Int) else 0 }

/-- Builds a square integer matrix of the given dimension from a list of rows. -/
def ofRows (n : Nat) (rows : List (List Int)) : DenseMatrix Int :=
  { rows := n, columns := n, elem := fun i j => (rows.getD i []).getD j 0 }

/-- Modelled from the spec: a type environment in which no class type provides a
multiplication operator, and in which the common type of a complex type and a built-in type
(`CommonType_t`, whose header is not part of the sources) is the complex type. -/
def builtinEnv : TypeEnv :=
  { hasMult := fun _ _ => false,
    multType := fun _ _ => CType.invalid,
    commonType := fun a b =>
      match a.base, b.base with
      | CType.complex u, CType.builtin _ => CType.complex u
      | CType.builtin _, CType.complex u => CType.complex u
      | _, _ => CType.invalid }

/-- The traits of a symmetric adaptor type: symmetric and restricted, neither lower nor
upper. -/
def symmetricTraits : MatrixTraits :=
  { generalTraits with isSymmetric := true, isRestricted := true }

/-- The symmetric `2×2` integer matrix with rows `(1, 2)` and `(2, 3)`. -/
def symmetric2x2 : DenseMatrix Int := ofRows 2 [[1, 2], [2, 3]]

/-- The `3×3` integer matrix with rows `(1, 2, 3)`, `(4, 5, 6)` and `(7, 8, 9)`. -/
def sample3x3 : DenseMatrix Int := ofRows 3 [[1, 2, 3], [4, 5, 6], [7, 8, 9]]

/-- The sparse expression `column(A,2) * sv` over the matrix `A` the assignment writes to,
where `sv` is the sparse vector of size 3 whose only stored element is the value `1` at
index `1`: its only stored element is `A(1,2) * 1` at index `1`, and it aliases `A`. -/
def aliasedSparseColumn : VecExpr Int :=
  { traits := sparseExprTraits, resultTraits := sparseExprTraits, size := 3,
    elem := fun m i => if i = 1 then m.elem 1 2 * 1 else 0,
    entries := fun m => [(1, m.elem 1 2 * 1)],
    canAlias := true, isAliased := true }

/-- A sparse vector of the given size with the stored elements `es`, not related to any
matrix. -/
def sparseVector {α : Type} [Zero α] (size : Nat) (es : List (Nat × α)) : VecExpr α :=
  { traits := sparseExprTraits, resultTraits := sparseExprTraits, size := size,
    elem := fun _ i => sparseLookup es i, entries := fun _ => es,
    canAlias := false, isAliased := false }

/-- The traits of a general dense matrix type with SIMD-enabled elements and unpadded
columns. -/
def simdTraits : MatrixTraits := { generalTraits with simdEnabled := true }

/-- The traits of a general dense matrix type with SIMD-enabled elements whose columns are
padded to a multiple of the SIMD width. -/
def paddedTraits : MatrixTraits :=
  { generalTraits with simdEnabled := true, isPadded := true }

/-- A dense vector of the given size with elements `v`, not related to any matrix, of a type
that is padded to a multiple of the SIMD width. -/
def paddedVector {α : Type} (size : Nat) (v : Nat → α) : VecExpr α :=
  { traits := columnResultTraits, resultTraits := columnResultTraits, size := size,
    elem := fun _ i => v i, entries := fun _ => [], canAlias := false, isAliased := false }

/-- A `15×2` integer matrix with elements `10*i + j + 1`. -/
def sample15x2 : DenseMatrix Int :=
  { rows := 15, columns := 2, elem := fun i j => 10 * (i : Int) + (j : Int) + 1 }

/-- A `23×2` integer matrix with elements `10*i + j + 1`. -/
def sample23x2 : DenseMatrix Int :=
  { rows := 23, columns := 2, elem := fun i j => 10 * (i : Int) + (j : Int) + 1 }

/-- The traits of a `UniLowerMatrix` adaptor type: lower and uni-lower, not upper,
restricted. -/
def uniLowerTraits : MatrixTraits :=
  { generalTraits with isLower := true, isUniLower := true, isRestricted := true }

/-- The square matrix of dimension `n` with the elements `f i j`. -/
def squareMatrix {α : Type} (n : Nat) (f : Nat → Nat → α) : DenseMatrix α :=
  { rows := n, columns := n, elem := f }

/-- A general `2×5` integer matrix with elements `10*i + j`. -/
def sample2x5 : DenseMatrix Int :=
  { rows := 2, columns := 5, elem := fun i j => 10 * (i : Int) + (j : Int) }

/-! ## Theorems -/

/-- A loop whose body preserves `inv` and decreases the measure `μ` finishes within any
budget exceeding the measure, in a state satisfying `inv` and falsifying the condition. -/
theorem whileLoop_spec {σ : Type} (cond : σ → Bool) (body : σ → σ) (inv : σ → Prop)
    (μ : σ → Nat)
    (hstep : ∀ s, inv s → cond s = true → inv (body s) ∧ μ (body s) < μ s) :
    ∀ (fuel : Nat) (s : σ), inv s → μ s < fuel →
      ∃ s', whileLoop cond body fuel s = some s' ∧ inv s' ∧ cond s' = false := by
  intro fuel
  induction fuel with
  | zero => intro s _ h; omega
  | succ n ih =>
    intro s hs hμ
    by_cases hc : cond s = true
    · obtain ⟨hi, hd⟩ := hstep s hs hc
      obtain ⟨s', h1, h2, h3⟩ := ih (body s) hi (by omega)
      exact ⟨s', by simp [whileLoop, hc, h1], h2, h3⟩
    · refine ⟨s, by simp [whileLoop, hc], hs, by simpa using hc⟩

/-- The fill loop writes `rhs` to the rows `[ibegin, iend)` of the column, with a matrix type
that mirrors its writes also to the mirrored elements of row `column`, and to nothing
else. -/
theorem fillLoop_spec {α : Type} (mirrored : Bool) (column iend : Nat) (rhs : α)
    (m : DenseMatrix α) (ibegin : Nat) (hend : iend < 18446744073709551616) :
    ∃ m', fillLoop mirrored column iend rhs (iend + 1) (ibegin, m) = some m' ∧
      m'.2.rows = m.rows ∧ m'.2.columns = m.columns ∧
      ∀ a b, m'.2.elem a b =
        if (b = column ∧ ibegin ≤ a ∧ a < iend) ∨
            (mirrored = true ∧ a = column ∧ ibegin ≤ b ∧ b < iend)
        then rhs else m.elem a b := by
  obtain ⟨s', h1, ⟨h2, h2b, h3, h4, h5⟩, h6⟩ := whileLoop_spec
    (fun s : Nat × DenseMatrix α => decide (s.1 < iend))
    (fun s => (sizeT (s.1 + 1), s.2.write mirrored s.1 column rhs))
    (fun s => ibegin ≤ s.1 ∧ (s.1 ≤ iend ∨ s.1 = ibegin) ∧ s.2.rows = m.rows ∧
      s.2.columns = m.columns ∧
      ∀ a b, s.2.elem a b =
        if (b = column ∧ ibegin ≤ a ∧ a < s.1) ∨
            (mirrored = true ∧ a = column ∧ ibegin ≤ b ∧ b < s.1)
        then rhs else m.elem a b)
    (fun s => iend - s.1)
    (by
      rintro ⟨i, mm⟩ ⟨hi, hib, hr, hc, he⟩ hcond
      simp only [decide_eq_true_eq] at hcond
      have hw : sizeT (i + 1) = i + 1 := by simp only [sizeT]; omega
      simp only [hw]
      refine ⟨⟨by omega, by omega, hr, hc, ?_⟩, by omega⟩
      intro a b
      dsimp only at he hi ⊢
      simp only [DenseMatrix.write, he]
      cases mirrored
      · simp only [Bool.false_eq_true, false_and, or_false]
        split_ifs <;> first | rfl | (exfalso; omega)
      · simp only [true_and]
        split_ifs <;> first | rfl | (exfalso; omega))
    (iend + 1) (ibegin, m) ⟨le_refl _, Or.inr rfl, rfl, rfl, by
      intro a b; dsimp only
      cases mirrored
      · simp only [Bool.false_eq_true, false_and, or_false]
        split_ifs <;> first | rfl | (exfalso; omega)
      · simp only [true_and]
        split_ifs <;> first | rfl | (exfalso; omega)⟩
    (by simp; omega)
  refine ⟨s', h1, h3, h4, ?_⟩
  intro a b
  rw [h5]
  simp only [decide_eq_false_iff_not, not_lt] at h6
  cases mirrored
  · simp only [Bool.false_eq_true, false_and, or_false]
    split_ifs <;> first | rfl | (exfalso; omega)
  · simp only [true_and]
    split_ifs <;> first | rfl | (exfalso; omega)

/-- With a matrix type that does not mirror its writes the fill loop writes `rhs` to the rows
`[ibegin, iend)` of the column and nothing else. -/
theorem fillLoop_plain_spec {α : Type} (column iend : Nat) (rhs : α) (m : DenseMatrix α)
    (ibegin : Nat) (hend : iend < 18446744073709551616) :
    ∃ m', fillLoop false column iend rhs (iend + 1) (ibegin, m) = some m' ∧
      m'.2.rows = m.rows ∧ m'.2.columns = m.columns ∧
      ∀ a b, m'.2.elem a b =
        if b = column ∧ ibegin ≤ a ∧ a < iend then rhs else m.elem a b := by
  obtain ⟨s', h1, h2, h3, h4⟩ := fillLoop_spec false column iend rhs m ibegin hend
  refine ⟨s', h1, h2, h3, ?_⟩
  intro a b
  rw [h4]
  simp only [Bool.false_eq_true, false_and, or_false]

/-! ### The bit masks of the kernels -/

theorem land_mask_pow (n k : Nat) (hk : k < 64) (hn : n < 2 ^ 64) :
    Nat.land n (2 ^ 64 - 2 ^ k) = n - n % 2 ^ k := by
  have h1 : 2 ^ 64 - 2 ^ k = 2 ^ k * (2 ^ (64 - k) - 1) := by
    rw [Nat.mul_sub, ← pow_add]
    congr 2 <;> omega
  have h2 : n - n % 2 ^ k = 2 ^ k * (n / 2 ^ k) := by
    have := Nat.div_add_mod n (2 ^ k)
    omega
  rw [h1, h2]
  apply Nat.eq_of_testBit_eq
  intro i
  show (n &&& (2 ^ k * (2 ^ (64 - k) - 1))).testBit i = _
  rw [Nat.testBit_and, Nat.testBit_mul_pow_two, Nat.testBit_mul_pow_two,
    Nat.testBit_two_pow_sub_one, ← Nat.shiftRight_eq_div_pow, Nat.testBit_shiftRight]
  by_cases hki : k ≤ i
  · have e : k + (i - k) = i := by omega
    simp only [hki, decide_True, Bool.true_and, e]
    by_cases hi : i < 64
    · have : i - k < 64 - k := by omega
      simp [this]
    · have hf : n.testBit i = false := by
        apply Nat.testBit_eq_false_of_lt
        calc n < 2 ^ 64 := hn
          _ ≤ 2 ^ i := Nat.pow_le_pow_right (by decide) (by omega)
      simp [hf]
  · simp [hki]

theorem sizeTNeg_pow (k : Nat) (hk : k < 64) : sizeTNeg (2 ^ k) = 2 ^ 64 - 2 ^ k := by
  have h1 : 2 ^ k < 2 ^ 64 := Nat.pow_lt_pow_right (by decide) hk
  have h2 : 0 < 2 ^ k := Nat.pos_pow_of_pos _ (by decide)
  have e : (18446744073709551616 : Nat) = 2 ^ 64 := by norm_num
  simp only [sizeTNeg, sizeT, e]
  rw [Nat.mod_eq_of_lt h1, Nat.mod_eq_of_lt (by omega)]

/-- For a power of two `2^k` below `2^64`, `n & size_t(-2^k)` is `n - n % 2^k`. -/
theorem simdMask (n k : Nat) (hk : k < 64) (hn : n < 18446744073709551616) :
    Nat.land n (sizeTNeg (2 ^ k)) = n - n % 2 ^ k := by
  rw [sizeTNeg_pow k hk]
  exact land_mask_pow n k hk (by norm_num; exact hn)

/-! ### Progress of the kernel loops -/

theorem simdBatch_inv {α : Type} (op : α → α → α) (S column : Nat) (rhs : VecExpr α)
    (v : Nat → α) (m0 : DenseMatrix α) (hv : ∀ m' i, rhs.elem m' i = v i)
    (s : KernelState α) (h : KernelInv op column v m0 s) :
    KernelInv op column v m0 (simdBatch op S column rhs s) ∧
      (simdBatch op S column rhs s).left = s.left + S ∧
      (simdBatch op S column rhs s).i = s.i := by
  obtain ⟨h1, h2, h3, h4⟩ := h
  refine ⟨⟨?_, h2, h3, ?_⟩, rfl, rfl⟩
  · simp [simdBatch, h1]
  · intro a b
    simp only [simdBatch, storePack, loadLeft, loadRight, hv, h1]
    by_cases hb : b = column
    · by_cases ha : s.left ≤ a
      · have e : s.left + (a - s.left) = a := by omega
        by_cases ha2 : a < s.left + S
        · have hn : ¬ a < s.left := by omega
          simp [hb, ha, ha2, e, h4, hn]
        · have hn : ¬ a < s.left := by omega
          simp [hb, ha, ha2, h4, hn]
      · have hn : a < s.left := by omega
        have hn2 : a < s.left + S := by omega
        simp [hb, ha, h4, hn, hn2]
    · simp [hb, h4]

theorem scalarStep_inv {α : Type} (op : α → α → α) (column : Nat) (rhs : VecExpr α)
    (v : Nat → α) (m0 : DenseMatrix α) (hv : ∀ m' i, rhs.elem m' i = v i)
    (s : KernelState α) (h : KernelInv op column v m0 s) :
    KernelInv op column v m0 (scalarStep op column rhs s) ∧
      (scalarStep op column rhs s).left = s.left + 1 ∧
      (scalarStep op column rhs s).i = s.i := by
  obtain ⟨h1, h2, h3, h4⟩ := h
  refine ⟨⟨?_, h2, h3, ?_⟩, rfl, rfl⟩
  · simp [scalarStep, h1]
  · intro a b
    simp only [scalarStep, DenseMatrix.set, hv, h1]
    by_cases hb : b = column
    · by_cases ha : a = s.left
      · simp [hb, ha, h4]
      · by_cases ha2 : a < s.left
        · have : a < s.left + 1 := by omega
          simp [hb, ha, ha2, h4, this]
        · have : ¬ a < s.left + 1 := by omega
          simp [hb, ha, ha2, h4, this]
    · simp [hb, h4]

theorem unrolledLoop_spec {α : Type} (op : α → α → α) (S column rows ipos : Nat)
    (rhs : VecExpr α) (v : Nat → α) (m0 : DenseMatrix α)
    (hv : ∀ m' i, rhs.elem m' i = v i) (hS : 0 < S)
    (hbound : rows + 4 * S ≤ 18446744073709551616) (hipos : ipos ≤ rows)
    (s : KernelState α) (h : KernelInv op column v m0 s) (hl : s.left = s.i)
    (hi : s.i < rows + S) :
    ∃ s', unrolledLoop op S column ipos rhs (rows + 1) s = some s' ∧
      KernelInv op column v m0 s' ∧ s'.left = s'.i ∧ s'.i < rows + S := by
  obtain ⟨s', h1, h2, _⟩ := whileLoop_spec
    (fun s : KernelState α => decide (sizeT (s.i + sizeT (S * 3)) < ipos))
    (fun s =>
      let s4 := simdBatch op S column rhs (simdBatch op S column rhs
        (simdBatch op S column rhs (simdBatch op S column rhs s)))
      { s4 with i := sizeT (s.i + sizeT (S * 4)) })
    (fun s => KernelInv op column v m0 s ∧ s.left = s.i ∧ s.i < rows + S)
    (fun s => ipos - s.i)
    (by
      rintro s ⟨hk, hl, hi⟩ hc
      simp only [decide_eq_true_eq, sizeT] at hc
      have hc' : s.i + S * 3 < ipos := by omega
      have hw : sizeT (s.i + sizeT (S * 4)) = s.i + S * 4 := by simp only [sizeT]; omega
      obtain ⟨k1, l1, _⟩ := simdBatch_inv op S column rhs v m0 hv s hk
      obtain ⟨k2, l2, _⟩ := simdBatch_inv op S column rhs v m0 hv _ k1
      obtain ⟨k3, l3, _⟩ := simdBatch_inv op S column rhs v m0 hv _ k2
      obtain ⟨k4, l4, _⟩ := simdBatch_inv op S column rhs v m0 hv _ k3
      refine ⟨⟨?_, ?_, ?_⟩, ?_⟩
      · exact k4
      · show (simdBatch op S column rhs _).left = sizeT (s.i + sizeT (S * 4))
        rw [hw, l4, l3, l2, l1, hl]; omega
      · show sizeT (s.i + sizeT (S * 4)) < rows + S
        rw [hw]; omega
      · show ipos - sizeT (s.i + sizeT (S * 4)) < ipos - s.i
        rw [hw]; omega)
    (rows + 1) s ⟨h, hl, hi⟩ (by show ipos - s.i < rows + 1; omega)
  exact ⟨s', h1, h2⟩

theorem batchLoop_spec {α : Type} (op : α → α → α) (S column rows ipos : Nat)
    (rhs : VecExpr α) (v : Nat → α) (m0 : DenseMatrix α)
    (hv : ∀ m' i, rhs.elem m' i = v i) (hS : 0 < S)
    (hbound : rows + 4 * S ≤ 18446744073709551616) (hipos : ipos ≤ rows)
    (s : KernelState α) (h : KernelInv op column v m0 s) (hl : s.left = s.i)
    (hi : s.i < rows + S) :
    ∃ s', batchLoop op S column ipos rhs (rows + 1) s = some s' ∧
      KernelInv op column v m0 s' ∧ s'.left = s'.i ∧ s'.i < rows + S ∧ ipos ≤ s'.i := by
  obtain ⟨s', h1, ⟨h2, h3, h4⟩, h5⟩ := whileLoop_spec
    (fun s : KernelState α => decide (s.i < ipos))
    (fun s => { simdBatch op S column rhs s with i := sizeT (s.i + S) })
    (fun s => KernelInv op column v m0 s ∧ s.left = s.i ∧ s.i < rows + S)
    (fun s => ipos - s.i)
    (by
      rintro s ⟨hk, hl, hi⟩ hc
      simp only [decide_eq_true_eq] at hc
      have hw : sizeT (s.i + S) = s.i + S := by simp only [sizeT]; omega
      obtain ⟨k1, l1, _⟩ := simdBatch_inv op S column rhs v m0 hv s hk
      refine ⟨⟨?_, ?_, ?_⟩, ?_⟩
      · exact k1
      · show (simdBatch op S column rhs _).left = sizeT (s.i + S)
        rw [hw, l1, hl]
      · show sizeT (s.i + S) < rows + S
        rw [hw]; omega
      · show ipos - sizeT (s.i + S) < ipos - s.i
        rw [hw]; omega)
    (rows + 1) s ⟨h, hl, hi⟩ (by show ipos - s.i < rows + 1; omega)
  simp only [decide_eq_false_iff_not, not_lt] at h5
  exact ⟨s', h1, h2, h3, h4, h5⟩

theorem remainderLoop_spec {α : Type} (op : α → α → α) (remainder : Bool)
    (S column rows : Nat) (rhs : VecExpr α) (v : Nat → α) (m0 : DenseMatrix α)
    (hv : ∀ m' i, rhs.elem m' i = v i) (hS : 0 < S)
    (hbound : rows + 4 * S ≤ 18446744073709551616)
    (s : KernelState α) (h : KernelInv op column v m0 s) (hl : s.left = s.i)
    (hi : s.i < rows + S) :
    ∃ s', remainderLoop op remainder column rows rhs (rows + 1) s = some s' ∧
      KernelInv op column v m0 s' ∧ s'.left = s'.i ∧
      (remainder = true → rows ≤ s'.i) ∧ s.i ≤ s'.i := by
  obtain ⟨s', h1, ⟨h2, h3, _, h4⟩, h5⟩ := whileLoop_spec
    (fun s : KernelState α => remainder && decide (s.i < rows))
    (fun s => { scalarStep op column rhs s with i := sizeT (s.i + 1) })
    (fun t => KernelInv op column v m0 t ∧ t.left = t.i ∧ t.i < rows + S ∧ s.i ≤ t.i)
    (fun s => rows - s.i)
    (by
      rintro t ⟨hk, hl, hi, hge⟩ hc
      simp only [Bool.and_eq_true, decide_eq_true_eq] at hc
      have hw : sizeT (t.i + 1) = t.i + 1 := by simp only [sizeT]; omega
      obtain ⟨k1, l1, _⟩ := scalarStep_inv op column rhs v m0 hv t hk
      refine ⟨⟨?_, ?_, ?_, ?_⟩, ?_⟩
      · exact k1
      · show (scalarStep op column rhs _).left = sizeT (t.i + 1)
        rw [hw, l1, hl]
      · show sizeT (t.i + 1) < rows + S
        rw [hw]; omega
      · show s.i ≤ sizeT (t.i + 1)
        rw [hw]; omega
      · show rows - sizeT (t.i + 1) < rows - t.i
        rw [hw]; omega)
    (rows + 1) s ⟨h, hl, hi, le_refl _⟩ (by show rows - s.i < rows + 1; omega)
  refine ⟨s', h1, h2, h3, ?_, h4⟩
  intro hr
  simp only [hr, Bool.true_and, decide_eq_false_iff_not, not_lt] at h5
  exact h5

theorem kernelInv_init {α : Type} (op : α → α → α) (column : Nat) (v : Nat → α)
    (m0 : DenseMatrix α) :
    KernelInv op column v m0 { i := 0, left := 0, right := 0, matrix := m0 } := by
  refine ⟨rfl, rfl, rfl, ?_⟩
  intro a b
  simp

/-- The unrolled loop shape updates every row below some `n' ≥ rows` of the column with
`op` exactly once and leaves all other elements unchanged. -/
theorem simdLoops_spec {α : Type} (op : α → α → α) (remainder : Bool)
    (S column rows ipos : Nat) (rhs : VecExpr α) (v : Nat → α) (m0 : DenseMatrix α)
    (hv : ∀ m' i, rhs.elem m' i = v i) (hS : 0 < S)
    (hbound : rows + 4 * S ≤ 18446744073709551616) (hipos : ipos ≤ rows)
    (hcover : remainder = false → ipos = rows) :
    ∃ m' n', simdLoops op remainder S column rows ipos rhs m0 = some m' ∧
      m'.rows = m0.rows ∧ m'.columns = m0.columns ∧ rows ≤ n' ∧
      ∀ a b, m'.elem a b =
        if b = column ∧ a < n' then op (m0.elem a column) (v a) else m0.elem a b := by
  obtain ⟨s1, e1, k1, l1, i1⟩ := unrolledLoop_spec op S column rows ipos rhs v m0 hv hS
    hbound hipos _ (kernelInv_init op column v m0) rfl (by show 0 < rows + S; omega)
  obtain ⟨s2, e2, k2, l2, i2, g2⟩ := batchLoop_spec op S column rows ipos rhs v m0 hv hS
    hbound hipos s1 k1 l1 i1
  obtain ⟨s3, e3, k3, l3, g3, g3'⟩ := remainderLoop_spec op remainder S column rows rhs v m0
    hv hS hbound s2 k2 l2 i2
  obtain ⟨_, r3, c3, el3⟩ := k3
  refine ⟨s3.matrix, s3.left, ?_, r3, c3, ?_, el3⟩
  · simp [simdLoops, e1, e2, e3]
  · cases remainder with
    | true => rw [l3]; exact g3 rfl
    | false => rw [l3]; have := hcover rfl; omega

/-- The streaming loop shape assigns every row below some `n' ≥ rows` of the column and
leaves all other elements unchanged. -/
theorem streamLoops_spec {α : Type} (remainder : Bool)
    (S column rows ipos : Nat) (rhs : VecExpr α) (v : Nat → α) (m0 : DenseMatrix α)
    (hv : ∀ m' i, rhs.elem m' i = v i) (hS : 0 < S)
    (hbound : rows + 4 * S ≤ 18446744073709551616) (hipos : ipos ≤ rows)
    (hcover : remainder = false → ipos = rows) :
    ∃ m' n', streamLoops remainder S column rows ipos rhs m0 = some m' ∧
      m'.rows = m0.rows ∧ m'.columns = m0.columns ∧ rows ≤ n' ∧
      ∀ a b, m'.elem a b = if b = column ∧ a < n' then v a else m0.elem a b := by
  obtain ⟨s2, e2, k2, l2, i2, g2⟩ := batchLoop_spec (fun _ r => r) S column rows ipos rhs v m0
    hv hS hbound hipos _ (kernelInv_init _ column v m0) rfl (by show 0 < rows + S; omega)
  obtain ⟨s3, e3, k3, l3, g3, g3'⟩ := remainderLoop_spec (fun _ r => r) remainder S column
    rows rhs v m0 hv hS hbound s2 k2 l2 i2
  obtain ⟨_, r3, c3, el3⟩ := k3
  refine ⟨s3.matrix, s3.left, ?_, r3, c3, ?_, el3⟩
  · simp [streamLoops, e2, e3]
  · cases remainder with
    | true => rw [l3]; exact g3 rfl
    | false => rw [l3]; have := hcover rfl; omega

/-- The default loop shape updates exactly the rows below `(~rhs).size()` of the column
with `op`, each once, and leaves all other elements unchanged. -/
theorem defaultLoops_spec {α : Type} (op : α → α → α) (column : Nat) (rhs : VecExpr α)
    (v : Nat → α) (m0 : DenseMatrix α) (hv : ∀ m' i, rhs.elem m' i = v i)
    (hsize : rhs.size + 2 ≤ 18446744073709551616) :
    ∃ m', defaultLoops op column rhs m0 = some m' ∧
      m'.rows = m0.rows ∧ m'.columns = m0.columns ∧
      ∀ a b, m'.elem a b =
        if b = column ∧ a < rhs.size then op (m0.elem a column) (v a) else m0.elem a b := by
  have hmask : Nat.land rhs.size (sizeTNeg 2) = rhs.size - rhs.size % 2 := by
    have := simdMask rhs.size 1 (by decide) (by omega)
    simpa using this
  obtain ⟨s', h1, ⟨h2, h3, h4, h5, h6⟩, h7⟩ := whileLoop_spec
    (fun s : Nat × DenseMatrix α => decide (s.1 < Nat.land rhs.size (sizeTNeg 2)))
    (fun s =>
      let m1 := s.2.set s.1 column (op (s.2.elem s.1 column) (rhs.elem s.2 s.1))
      let j := sizeT (s.1 + 1)
      let m2 := m1.set j column (op (m1.elem j column) (rhs.elem m1 j))
      (sizeT (s.1 + 2), m2))
    (fun s => s.1 % 2 = 0 ∧ s.1 ≤ rhs.size - rhs.size % 2 ∧ s.2.rows = m0.rows ∧
      s.2.columns = m0.columns ∧
      ∀ a b, s.2.elem a b =
        if b = column ∧ a < s.1 then op (m0.elem a column) (v a) else m0.elem a b)
    (fun s => rhs.size - s.1)
    (by
      rintro ⟨i, mm⟩ ⟨hev, hle, hr, hc, he⟩ hcond
      simp only [decide_eq_true_eq, hmask] at hcond
      have hw1 : sizeT (i + 1) = i + 1 := by simp only [sizeT]; omega
      have hw2 : sizeT (i + 2) = i + 2 := by simp only [sizeT]; omega
      dsimp only at he hev hle hr hc ⊢
      rw [hw1, hw2]
      refine ⟨⟨by omega, by omega, hr, hc, ?_⟩, by omega⟩
      intro a b
      simp only [DenseMatrix.set, hv, he]
      by_cases hb : b = column
      · by_cases ha1 : a = i
        · have : a < i + 2 := by omega
          simp [hb, ha1]
        · by_cases ha2 : a = i + 1
          · simp [hb, ha2]
          · by_cases ha3 : a < i
            · have : a < i + 2 := by omega
              simp [hb, ha1, ha2, ha3, this]
            · have : ¬ a < i + 2 := by omega
              simp [hb, ha1, ha2, ha3, this]
      · simp [hb])
    (rhs.size + 1) (0, m0) ⟨rfl, by simp, rfl, rfl, by intro a b; simp⟩
    (by show rhs.size - 0 < rhs.size + 1; omega)
  simp only [decide_eq_false_iff_not, not_lt, hmask] at h7
  have hi : s'.1 = rhs.size - rhs.size % 2 := by omega
  by_cases hodd : rhs.size - rhs.size % 2 < rhs.size
  · refine ⟨s'.2.set (rhs.size - rhs.size % 2) column
      (op (s'.2.elem (rhs.size - rhs.size % 2) column)
        (rhs.elem s'.2 (rhs.size - rhs.size % 2))), ?_, h4, h5, ?_⟩
    · unfold defaultLoops
      dsimp only
      rw [h1]
      simp [hmask, hodd]
    · intro a b
      simp only [DenseMatrix.set, hv, h6, hi]
      by_cases hb : b = column
      · by_cases ha1 : a = rhs.size - rhs.size % 2
        · have : a < rhs.size := by omega
          simp [hb, ha1, hodd]
        · by_cases ha3 : a < rhs.size - rhs.size % 2
          · have : a < rhs.size := by omega
            simp [hb, ha1, ha3, this]
          · have : ¬ a < rhs.size := by omega
            simp [hb, ha1, ha3, this]
      · simp [hb]
  · refine ⟨s'.2, ?_, h4, h5, ?_⟩
    · unfold defaultLoops
      dsimp only
      rw [h1]
      simp [hmask, hodd]
    · intro a b
      rw [h6, hi]
      have : rhs.size - rhs.size % 2 = rhs.size := by omega
      rw [this]

theorem simdEnd_le (remainder : Bool) (rows k : Nat) (hk : k < 64)
    (hrows : rows < 18446744073709551616) : simdEnd remainder rows (2 ^ k) ≤ rows := by
  unfold simdEnd
  cases remainder with
  | true => simp only [if_true]; rw [simdMask rows k hk hrows]; omega
  | false => simp

theorem pow_lt_of_bound (rows k : Nat) (h : rows + 4 * 2 ^ k ≤ 18446744073709551616) :
    k < 64 := by
  by_contra hk
  have : (2 : Nat) ^ 64 ≤ 2 ^ k := Nat.pow_le_pow_right (by decide) (by omega)
  norm_num at this
  omega

/-! ### Claims -/

/-- C1: for an `N×N` strictly lower matrix, a column index `col < N` and a scalar `s`, the
homogeneous assignment `column = s` (in the column-major and in the row-major specialisation)
completes, sets exactly the elements `(i,col)` with `col < i < N` to `s`, leaves every other
element of the matrix at its prior value, and its loop covers `N-1-col` rows. -/
theorem C1_strictlyLower_scalar_assign {α : Type} (m : DenseMatrix α) (N col : Nat) (s : α)
    (hrows : m.rows = N) (hcols : m.columns = N) (hN : N < 18446744073709551616)
    (hcol : col < N) :
    ∃ m', ColumnMajor.assignScalar strictlyLowerTraits m col s = some m' ∧
      RowMajor.assignScalar strictlyLowerTraits m col s = some m' ∧
      m'.rows = N ∧ m'.columns = N ∧
      (∀ i j, m'.elem i j = if j = col ∧ col < i ∧ i < N then s else m.elem i j) ∧
      fillEnd strictlyLowerTraits col (ColumnMajor.size m) -
        fillBegin strictlyLowerTraits col = N - 1 - col := by
  have hb : fillBegin strictlyLowerTraits col = col + 1 := by
    simp only [fillBegin, strictlyLowerTraits, generalTraits, sizeT]
    simp
    omega
  have he : fillEnd strictlyLowerTraits col m.rows = N := by
    simp [fillEnd, strictlyLowerTraits, generalTraits, hrows]
  have hsym : strictlyLowerTraits.isSymmetric = false := rfl
  obtain ⟨s', h1, h2, h3, h4⟩ := fillLoop_plain_spec col N s m (col + 1) hN
  refine ⟨s'.2, ?_, ?_, by rw [h2, hrows], by rw [h3, hcols], ?_, ?_⟩
  · simp only [ColumnMajor.assignScalar, ColumnMajor.size, hb, he, hsym, h1,
      Option.map_some']
  · simp only [RowMajor.assignScalar, RowMajor.size, hb, he, hsym, h1, Option.map_some']
  · intro i j
    rw [h4]
    split_ifs <;> first | rfl | (exfalso; omega)
  · simp only [ColumnMajor.size, hb, he]
    omega

/-- C1, at `N = 5`, `col = 2`, `s = 7` on the zero matrix: exactly rows 3 and 4 of column 2
are set. -/
theorem C1_strictlyLower_scalar_assign_witness :
    (∃ m', ColumnMajor.assignScalar strictlyLowerTraits zero5 2 (7 : Int) = some m' ∧
      RowMajor.assignScalar strictlyLowerTraits zero5 2 7 = some m' ∧
      m'.rows = 5 ∧ m'.columns = 5 ∧
      (∀ i j, m'.elem i j = if j = 2 ∧ 2 < i ∧ i < 5 then 7 else zero5.elem i j) ∧
      fillEnd strictlyLowerTraits 2 (ColumnMajor.size zero5) -
        fillBegin strictlyLowerTraits 2 = 5 - 1 - 2) ∧
    (ColumnMajor.assignScalar strictlyLowerTraits zero5 2 (7 : Int)).map
      (fun m' => m'.columnList 2) = some [0, 0, 0, 7, 7] :=
  ⟨C1_strictlyLower_scalar_assign zero5 5 2 7 rfl rfl (by decide) (by decide), by decide⟩

/-- C2: for a power-of-two `SIMDSIZE`, a column of `n` rows (with `n + 4*SIMDSIZE` within the
range of `size_t`) and a dense source vector of length `n`, the SIMD `assign` kernel, both
in its streaming-store loop shape and in its unrolled-by-four loop shape, and the default
scalar `assign` kernel all complete, and the `n` logical elements of the column agree:
`column[i] = rhs[i]` for every `i < n`; the other columns are untouched. -/
theorem C2_simd_assign_equals_default {α : Type} (cfg : KernelConfig) (t : MatrixTraits)
    (column k : Nat) (rhs : VecExpr α) (v : Nat → α) (m : DenseMatrix α)
    (hpow : cfg.SIMDSIZE = 2 ^ k)
    (hbound : m.rows + 4 * cfg.SIMDSIZE ≤ 18446744073709551616)
    (hsize : rhs.size = ColumnMajor.size m) (hv : ∀ m' i, rhs.elem m' i = v i) :
    ∃ ms mstream munrolled md,
      ColumnMajor.assignSIMD cfg t column rhs m = some ms ∧
      streamLoops (!t.isPadded || !rhs.traits.isPadded) cfg.SIMDSIZE column m.rows
        (simdEnd (!t.isPadded || !rhs.traits.isPadded) m.rows cfg.SIMDSIZE) rhs m
          = some mstream ∧
      simdLoops (fun _ r => r) (!t.isPadded || !rhs.traits.isPadded) cfg.SIMDSIZE column
        m.rows (simdEnd (!t.isPadded || !rhs.traits.isPadded) m.rows cfg.SIMDSIZE) rhs m
          = some munrolled ∧
      (ms = mstream ∨ ms = munrolled) ∧
      ColumnMajor.assignDefault column rhs m = some md ∧
      (∀ i, i < ColumnMajor.size m →
        mstream.elem i column = md.elem i column ∧
        munrolled.elem i column = md.elem i column ∧
        ms.elem i column = md.elem i column ∧ md.elem i column = v i) ∧
      (∀ i j, j ≠ column →
        ms.elem i j = m.elem i j ∧ mstream.elem i j = m.elem i j ∧
        munrolled.elem i j = m.elem i j ∧ md.elem i j = m.elem i j) := by
  have hk : k < 64 := pow_lt_of_bound m.rows k (by rw [← hpow]; exact hbound)
  have hS : 0 < cfg.SIMDSIZE := by rw [hpow]; exact Nat.pos_pow_of_pos _ (by decide)
  have hrows : m.rows < 18446744073709551616 := by omega
  have hipos : ∀ r, simdEnd r m.rows cfg.SIMDSIZE ≤ m.rows := by
    intro r; rw [hpow]; exact simdEnd_le r m.rows k hk hrows
  have hcover : ∀ r, r = false → simdEnd r m.rows cfg.SIMDSIZE = m.rows := by
    intro r hr; simp [simdEnd, hr]
  obtain ⟨m1, n1, e1, _, _, g1, el1⟩ := streamLoops_spec
    (!t.isPadded || !rhs.traits.isPadded) cfg.SIMDSIZE column m.rows _ rhs v m hv hS hbound
    (hipos _) (hcover _)
  obtain ⟨m2, n2, e2, _, _, g2, el2⟩ := simdLoops_spec (fun _ r => r)
    (!t.isPadded || !rhs.traits.isPadded) cfg.SIMDSIZE column m.rows _ rhs v m hv hS hbound
    (hipos _) (hcover _)
  obtain ⟨md, ed, _, _, eld⟩ := defaultLoops_spec (fun _ r => r) column rhs v m hv
    (by rw [hsize]; simp only [ColumnMajor.size]; omega)
  have hsz : rhs.size = m.rows := hsize
  have key1 : ∀ i, i < m.rows → m1.elem i column = v i := by
    intro i hi; rw [el1]; have : i < n1 := by omega
    simp [this]
  have key2 : ∀ i, i < m.rows → m2.elem i column = v i := by
    intro i hi; rw [el2]; have : i < n2 := by omega
    simp [this]
  have keyd : ∀ i, i < m.rows → md.elem i column = v i := by
    intro i hi; rw [eld]; have : i < rhs.size := by omega
    simp [this]
  have f1 : ∀ i j, j ≠ column → m1.elem i j = m.elem i j := by
    intro i j hj; rw [el1]; simp [hj]
  have f2 : ∀ i j, j ≠ column → m2.elem i j = m.elem i j := by
    intro i j hj; rw [el2]; simp [hj]
  have fd : ∀ i j, j ≠ column → md.elem i j = m.elem i j := by
    intro i j hj; rw [eld]; simp [hj]
  by_cases hstream : ColumnMajor.streamingSelected cfg (ColumnMajor.size m) rhs = true
  · refine ⟨m1, m1, m2, md, ?_, e1, e2, Or.inl rfl, ed, ?_, ?_⟩
    · simp only [ColumnMajor.assignSIMD, hstream, if_true]
      exact e1
    · intro i hi
      exact ⟨by rw [key1 i hi, keyd i hi], by rw [key2 i hi, keyd i hi],
        by rw [key1 i hi, keyd i hi], keyd i hi⟩
    · intro i j hj
      exact ⟨f1 i j hj, f1 i j hj, f2 i j hj, fd i j hj⟩
  · refine ⟨m2, m1, m2, md, ?_, e1, e2, Or.inr rfl, ed, ?_, ?_⟩
    · simp only [ColumnMajor.assignSIMD, hstream]
      exact e2
    · intro i hi
      exact ⟨by rw [key1 i hi, keyd i hi], by rw [key2 i hi, keyd i hi],
        by rw [key2 i hi, keyd i hi], keyd i hi⟩
    · intro i j hj
      exact ⟨f2 i j hj, f1 i j hj, f2 i j hj, fd i j hj⟩

/-- C2, for a column of 7 rows and packs of 4 elements (7 is not a multiple of 4): the
kernels agree, and the SIMD kernel, here in its streaming branch, yields `100..106`. -/
theorem C2_simd_assign_equals_default_witness :
    (∃ ms mstream munrolled md,
      ColumnMajor.assignSIMD smallConfig generalTraits 0
        (plainVector 7 fun i => 100 + (i : Int)) sample7x2 = some ms ∧
      streamLoops (!generalTraits.isPadded ||
          !(plainVector 7 fun i => 100 + (i : Int)).traits.isPadded)
        smallConfig.SIMDSIZE 0 sample7x2.rows
        (simdEnd (!generalTraits.isPadded ||
          !(plainVector 7 fun i => 100 + (i : Int)).traits.isPadded) sample7x2.rows
          smallConfig.SIMDSIZE) (plainVector 7 fun i => 100 + (i : Int)) sample7x2
          = some mstream ∧
      simdLoops (fun _ r => r) (!generalTraits.isPadded ||
          !(plainVector 7 fun i => 100 + (i : Int)).traits.isPadded)
        smallConfig.SIMDSIZE 0 sample7x2.rows
        (simdEnd (!generalTraits.isPadded ||
          !(plainVector 7 fun i => 100 + (i : Int)).traits.isPadded) sample7x2.rows
          smallConfig.SIMDSIZE) (plainVector 7 fun i => 100 + (i : Int)) sample7x2
          = some munrolled ∧
      (ms = mstream ∨ ms = munrolled) ∧
      ColumnMajor.assignDefault 0 (plainVector 7 fun i => 100 + (i : Int)) sample7x2
        = some md ∧
      (∀ i, i < ColumnMajor.size sample7x2 →
        mstream.elem i 0 = md.elem i 0 ∧
        munrolled.elem i 0 = md.elem i 0 ∧
        ms.elem i 0 = md.elem i 0 ∧ md.elem i 0 = (fun i => 100 + (i : Int)) i) ∧
      (∀ i j, j ≠ 0 →
        ms.elem i j = sample7x2.elem i j ∧ mstream.elem i j = sample7x2.elem i j ∧
        munrolled.elem i j = sample7x2.elem i j ∧ md.elem i j = sample7x2.elem i j)) ∧
    ColumnMajor.streamingSelected smallConfig 7 (plainVector 7 fun i => 100 + (i : Int))
      = true ∧
    (ColumnMajor.assignSIMD smallConfig generalTraits 0
        (plainVector 7 fun i => 100 + (i : Int)) sample7x2).map (fun m' => m'.columnList 0)
      = some [100, 101, 102, 103, 104, 105, 106] :=
  ⟨C2_simd_assign_equals_default smallConfig generalTraits 0 2
      (plainVector 7 fun i => 100 + (i : Int)) (fun i => 100 + (i : Int)) sample7x2
      rfl (by decide) rfl (fun _ _ => rfl),
    by decide, by decide⟩

/-- The serial `smpAssign` of the column-major view with a dense right-hand side whose
elements `v` do not depend on the matrix: whichever kernel is selected, it completes and the
logical elements of the column become `v`, all other logical elements keep their value. -/
theorem smpAssign_dense_spec {α : Type} (cfg : KernelConfig) (t : MatrixTraits)
    (column k : Nat) (rhs : VecExpr α) (v : Nat → α) (m : DenseMatrix α)
    (hpow : cfg.SIMDSIZE = 2 ^ k)
    (hbound : m.rows + 4 * cfg.SIMDSIZE ≤ 18446744073709551616)
    (hsize : rhs.size = m.rows) (hv : ∀ m' i, rhs.elem m' i = v i)
    (hd : rhs.traits.isSparse = false) :
    ∃ m', ColumnMajor.smpAssign cfg t column rhs m = some m' ∧
      m'.rows = m.rows ∧ m'.columns = m.columns ∧
      ∀ a b, a < m.rows → m'.elem a b = if b = column then v a else m.elem a b := by
  have hk : k < 64 := pow_lt_of_bound m.rows k (by rw [← hpow]; exact hbound)
  have hS : 0 < cfg.SIMDSIZE := by rw [hpow]; exact Nat.pos_pow_of_pos _ (by decide)
  have hrows : m.rows < 18446744073709551616 := by omega
  have hipos : ∀ r, simdEnd r m.rows cfg.SIMDSIZE ≤ m.rows := by
    intro r; rw [hpow]; exact simdEnd_le r m.rows k hk hrows
  have hcover : ∀ r, r = false → simdEnd r m.rows cfg.SIMDSIZE = m.rows := by
    intro r hr; simp [simdEnd, hr]
  have fin : ∀ (m' : DenseMatrix α) (n' : Nat), m.rows ≤ n' →
      (∀ a b, m'.elem a b = if b = column ∧ a < n' then v a else m.elem a b) →
      ∀ a b, a < m.rows → m'.elem a b = if b = column then v a else m.elem a b := by
    intro m' n' hn hel a b ha
    rw [hel]
    have : a < n' := by omega
    simp [this]
  unfold ColumnMajor.smpAssign
  simp only [hd, Bool.false_eq_true, if_false]
  by_cases hvec : ColumnMajor.vectorizedAssign cfg t rhs.traits = true
  · simp only [hvec, if_true, ColumnMajor.assignSIMD, ColumnMajor.size]
    by_cases hstream : ColumnMajor.streamingSelected cfg m.rows rhs = true
    · obtain ⟨m1, n1, e1, r1, c1, g1, el1⟩ := streamLoops_spec
        (!t.isPadded || !rhs.traits.isPadded) cfg.SIMDSIZE column m.rows _ rhs v m hv hS
        hbound (hipos _) (hcover _)
      exact ⟨m1, by simp only [hstream, if_true]; exact e1, r1, c1, fin m1 n1 g1 el1⟩
    · obtain ⟨m2, n2, e2, r2, c2, g2, el2⟩ := simdLoops_spec (fun _ r => r)
        (!t.isPadded || !rhs.traits.isPadded) cfg.SIMDSIZE column m.rows _ rhs v m hv hS
        hbound (hipos _) (hcover _)
      exact ⟨m2, by simp only [hstream]; exact e2, r2, c2, fin m2 n2 g2 el2⟩
  · obtain ⟨md, ed, rd, cd, eld⟩ := defaultLoops_spec (fun _ r => r) column rhs v m hv
      (by omega)
    refine ⟨md, by simp only [hvec]; exact ed, rd, cd, ?_⟩
    rw [hsize] at eld
    exact fin md m.rows (le_refl _) eld

/-- For a dense source that can alias the matrix, `operator=` of the column-major view
completes, and the logical elements of the final matrix are those obtained by copying the
value of the source on the pre-assignment matrix into a buffer and assigning the buffer. -/
theorem columnMajor_assign_aliased_dense {α : Type} [Zero α] (cfg : KernelConfig)
    (t : MatrixTraits) (ops : MatrixOps α) (column k : Nat) (rhs : VecExpr α)
    (m : DenseMatrix α) (hpow : cfg.SIMDSIZE = 2 ^ k)
    (hbound : m.rows + 4 * cfg.SIMDSIZE ≤ 18446744073709551616)
    (hsize : rhs.size = ColumnMajor.size m) (hd : rhs.traits.isSparse = false)
    (hrd : rhs.resultTraits.isSparse = false) (halias : rhs.canAlias = true)
    (htry : ops.tryAssign m (bindRight t rhs m) 0 column = true) :
    ∃ m', ColumnMajor.operatorAssign cfg t ops column rhs m = some (Signal.done, m') ∧
      m'.rows = m.rows ∧ m'.columns = m.columns ∧
      ∀ a b, a < m.rows → m'.elem a b = (copyThenAssign column rhs m).elem a b := by
  have hsz : ColumnMajor.size m = rhs.size := hsize.symm
  obtain ⟨m', e, r, c, el⟩ := smpAssign_dense_spec cfg t column k (rhs.eval m)
    (fun i => rhs.elem m i) m hpow hbound hsize (fun _ _ => rfl) hrd
  have hcopy : ∀ a b, a < m.rows → m'.elem a b = (copyThenAssign column rhs m).elem a b := by
    intro a b ha
    rw [el a b ha]
    simp [copyThenAssign, VecExpr.value, hd, ha]
  refine ⟨m', ?_, r, c, hcopy⟩
  unfold ColumnMajor.operatorAssign
  simp only [hsz, ne_eq, not_true_eq_false, if_false, htry, Bool.not_true, Bool.false_eq_true]
  by_cases href : isReferenceRight t rhs.traits = true
  · have hb : bindRight t rhs m = rhs := by simp [bindRight, href]
    simp only [hb, href, halias, Bool.and_self, if_true, finish, e, Option.map_some']
  · have hb : bindRight t rhs m = rhs.eval m := by simp [bindRight, href]
    simp only [Bool.not_eq_true] at href
    simp only [hb, href, Bool.false_and, Bool.false_eq_true, if_false, hd, finish, e,
      Option.map_some']

/-- For any source, dense or sparse, that can alias an unrestricted matrix, `operator=` of
the row-major view completes with exactly the matrix obtained by copying the value of the
source on the pre-assignment matrix into a buffer and assigning the buffer. -/
theorem rowMajor_assign_aliased {α : Type} [Zero α] (t : MatrixTraits) (ops : MatrixOps α)
    (column : Nat) (rhs : VecExpr α) (m : DenseMatrix α)
    (hunrestricted : t.isRestricted = false)
    (hbound : m.rows + 2 ≤ 18446744073709551616)
    (hsize : rhs.size = RowMajor.size m) (halias : rhs.canAlias = true)
    (htry : ops.tryAssign m (bindRight t rhs m) 0 column = true) :
    RowMajor.operatorAssign t ops column rhs m =
      some (Signal.done, copyThenAssign column rhs m) := by
  have hsz : RowMajor.size m = rhs.size := hsize.symm
  have href : isReferenceRight t rhs.traits = true := by simp [isReferenceRight, hunrestricted]
  have hb : bindRight t rhs m = rhs := by simp [bindRight, href]
  have hsize' : (rhs.toDense m).size = m.rows := hsize
  obtain ⟨md, ed, rd, cd, eld⟩ := defaultLoops_spec (fun _ r => r) column (rhs.toDense m)
    (fun i => rhs.value m i) m (fun _ _ => rfl) (by rw [hsize']; exact hbound)
  have hmd : md = copyThenAssign column rhs m := by
    cases md with
    | mk r c e =>
      have hr : r = m.rows := rd
      have hc : c = m.columns := cd
      have he : e = fun a b =>
          if b = column ∧ a < m.rows then rhs.value m a else m.elem a b :=
        funext fun a => funext fun b => by
          have := eld a b
          rw [hsize'] at this
          exact this
      subst hr hc he
      rfl
  rw [hb] at htry
  unfold RowMajor.operatorAssign
  simp only [hsz, ne_eq, not_true_eq_false, if_false, htry, Bool.not_true, Bool.false_eq_true,
    hb, href, halias, Bool.and_self, if_true]
  have hs : RowMajor.smpAssign column (rhs.toDense m) m = some md := by
    simp [RowMajor.smpAssign, RowMajor.assignDense, VecExpr.toDense, columnResultTraits]
    exact ed
  rw [hs, hmd]
  rfl

/-- C3: on the column-major view, assigning the aliasing sparse expression
`column(A,1) * sv` to `column(A,0)` takes the temporary branch, whose temporary is sparse and
is assigned without a prior reset: row 1 of column 0 keeps its old value `3`, whereas copying
the value `(2, 0)` of the expression into a buffer and assigning the buffer gives `(2, 0)`.
The row-major view, whose temporary is dense, gives `(2, 0)`. -/
theorem C3_aliased_sparse_assign_keeps_stale_element :
    (ColumnMajor.operatorAssign scalarConfig generalTraits (plainOps Int) 0
        aliasedSparseProduct sample2x2).map (fun r => (r.1, r.2.columnList 0))
      = some (Signal.done, [2, 3]) ∧
    (copyThenAssign 0 aliasedSparseProduct sample2x2).columnList 0 = [2, 0] ∧
    (RowMajor.operatorAssign generalTraits (plainOps Int) 0
        aliasedSparseProduct sample2x2).map (fun r => (r.1, r.2.columnList 0))
      = some (Signal.done, [2, 0]) := by
  refine ⟨by decide, by decide, by decide⟩

/-- C4: for a right-hand side vector whose size differs from the size of the column, each of
the vector assignment operators `=`, `+=`, `-=`, `*=` (dense and sparse) and `/=` signals
`std::invalid_argument` ("Vector sizes do not match") and returns the matrix unchanged. -/
theorem C4_size_mismatch_rejected {α : Type} [Add α] [Sub α] [Mul α] [Div α] [Zero α]
    (op : VectorOp) (cfg : KernelConfig) (t : MatrixTraits) (ops : MatrixOps α)
    (column : Nat) (rhs : VecExpr α) (m : DenseMatrix α)
    (hsize : rhs.size ≠ ColumnMajor.size m) :
    ColumnMajor.applyOp op cfg t ops column rhs m =
      some (Signal.invalidArgument "Vector sizes do not match", m) := by
  have h : ColumnMajor.size m ≠ rhs.size := fun e => hsize e.symm
  cases op <;>
    simp [ColumnMajor.applyOp, ColumnMajor.operatorAssign, ColumnMajor.operatorAddAssign,
      ColumnMajor.operatorSubAssign, ColumnMajor.operatorMultAssign,
      ColumnMajor.operatorMultAssignSparse, ColumnMajor.operatorDivAssign, h]

/-- C4, assigning a vector of length 3 to a column of length 4. -/
theorem C4_size_mismatch_rejected_witness :
    ColumnMajor.applyOp VectorOp.assign scalarConfig generalTraits (plainOps Int) 1
        (plainVector 3 fun _ => 9) sample4x4 =
      some (Signal.invalidArgument "Vector sizes do not match", sample4x4) :=
  C4_size_mismatch_rejected VectorOp.assign scalarConfig generalTraits (plainOps Int) 1
    (plainVector 3 fun _ => 9) sample4x4 (by decide)

/-- C5: for a same-size right-hand side, an operator whose structural check on the
underlying matrix fails signals `std::invalid_argument` ("Invalid assignment to restricted
matrix") and returns the matrix unchanged; and whenever any of the operators ends with an
error signal, the matrix is in its pre-call state. -/
theorem C5_structure_violation_rejected {α : Type} [Add α] [Sub α] [Mul α] [Div α] [Zero α]
    (op : VectorOp) (cfg : KernelConfig) (t : MatrixTraits) (ops : MatrixOps α)
    (column : Nat) (rhs : VecExpr α) (m : DenseMatrix α)
    (hsize : rhs.size = ColumnMajor.size m)
    (hcheck : ColumnMajor.structuralCheck op t ops column rhs m = false) :
    ColumnMajor.applyOp op cfg t ops column rhs m =
        some (Signal.invalidArgument "Invalid assignment to restricted matrix", m) ∧
      ∀ (op' : VectorOp) (rhs' : VecExpr α) (column' : Nat) (r : Signal × DenseMatrix α),
        ColumnMajor.applyOp op' cfg t ops column' rhs' m = some r →
          r.1 ≠ Signal.done → r.2 = m := by
  constructor
  · cases op <;>
      simp [ColumnMajor.structuralCheck] at hcheck <;>
      simp [ColumnMajor.applyOp, ColumnMajor.operatorAssign, ColumnMajor.operatorAddAssign,
        ColumnMajor.operatorSubAssign, ColumnMajor.operatorMultAssign,
        ColumnMajor.operatorMultAssignSparse, ColumnMajor.operatorDivAssign, hsize, hcheck]
  · intro op' rhs' column' r hr hne
    cases op' <;>
      simp only [ColumnMajor.applyOp, ColumnMajor.operatorAssign,
        ColumnMajor.operatorAddAssign, ColumnMajor.operatorSubAssign,
        ColumnMajor.operatorMultAssign, ColumnMajor.operatorMultAssignSparse,
        ColumnMajor.operatorDivAssign, finish] at hr <;>
      split_ifs at hr <;>
      first
        | (cases hr; rfl)
        | (simp only [Option.map_eq_some'] at hr
           obtain ⟨m', _, rfl⟩ := hr
           exact absurd rfl hne)

/-- C5, assigning the vector `(9, 9, 9, 9)` to column 1 of a strictly lower `4×4` matrix:
the structural check fails, the error is signalled and the matrix is returned unchanged. -/
theorem C5_structure_violation_rejected_witness :
    ColumnMajor.applyOp VectorOp.assign scalarConfig strictlyLowerTraits strictlyLowerOps 1
        (plainVector 4 fun _ => 9) strictlyLower4 =
        some (Signal.invalidArgument "Invalid assignment to restricted matrix",
          strictlyLower4) ∧
      ∀ (op' : VectorOp) (rhs' : VecExpr Int) (column' : Nat) (r : Signal × DenseMatrix Int),
        ColumnMajor.applyOp op' scalarConfig strictlyLowerTraits strictlyLowerOps column' rhs'
          strictlyLower4 = some r →
          r.1 ≠ Signal.done → r.2 = strictlyLower4 :=
  C5_structure_violation_rejected VectorOp.assign scalarConfig strictlyLowerTraits
    strictlyLowerOps 1 (plainVector 4 fun _ => 9) strictlyLower4 rfl (by decide)

/-! ### Structural closure of the element-wise difference -/

theorem sub_isSymmetric {α : Type} [HSub α α α] (A B : DenseMatrix α) (hA : A.IsSymmetric)
    (hB : B.IsSymmetric) (hs : SameShape A B) : (Sub.map A B).IsSymmetric := by
  obtain ⟨hA1, hA2⟩ := hA
  obtain ⟨hB1, hB2⟩ := hB
  obtain ⟨hr, hc⟩ := hs
  refine ⟨hA1, ?_⟩
  intro i hi j hj
  simp only [Sub.map] at hi hj
  simp only [Sub.map, Sub.call]
  rw [hA2 i hi j hj, hB2 i (by omega) j (by omega)]

theorem sub_isLower {α : Type} [AddGroup α] (A B : DenseMatrix α) (hA : A.IsLower)
    (hB : B.IsLower) (hs : SameShape A B) : (Sub.map A B).IsLower := by
  obtain ⟨hA1, hA2⟩ := hA
  obtain ⟨hB1, hB2⟩ := hB
  obtain ⟨hr, hc⟩ := hs
  refine ⟨hA1, ?_⟩
  intro i hi j hj hij
  simp only [Sub.map] at hi hj
  simp only [Sub.map, Sub.call]
  rw [hA2 i hi j hj hij, hB2 i (by omega) j (by omega) hij, sub_zero]

theorem sub_isUpper {α : Type} [AddGroup α] (A B : DenseMatrix α) (hA : A.IsUpper)
    (hB : B.IsUpper) (hs : SameShape A B) : (Sub.map A B).IsUpper := by
  obtain ⟨hA1, hA2⟩ := hA
  obtain ⟨hB1, hB2⟩ := hB
  obtain ⟨hr, hc⟩ := hs
  refine ⟨hA1, ?_⟩
  intro i hi j hj hij
  simp only [Sub.map] at hi hj
  simp only [Sub.map, Sub.call]
  rw [hA2 i hi j hj hij, hB2 i (by omega) j (by omega) hij, sub_zero]

theorem sub_hasDiagonal {α : Type} [AddGroup α] (A B : DenseMatrix α) (d : α)
    (hA : A.HasDiagonal d) (hB : B.HasDiagonal 0) (hs : SameShape A B) :
    (Sub.map A B).HasDiagonal d := by
  obtain ⟨hr, hc⟩ := hs
  intro i hi hj
  simp only [Sub.map] at hi hj
  simp only [Sub.map, Sub.call]
  rw [hA i hi hj, hB i (by omega) (by omega), sub_zero]

/-- C6: the element-wise difference of two symmetric matrices of equal shape, computed with
the `Sub` functor, is symmetric; and whenever `YieldsSymmetric<Sub,MT1,MT2>` is true, both
operand types are symmetric and the difference of any two matrices conforming to the
declared structure of `MT1` and `MT2` is symmetric. -/
theorem C6_sub_yields_symmetric {α : Type} [HSub α α α] [Zero α] [One α]
    (A B : DenseMatrix α) (hA : A.IsSymmetric) (hB : B.IsSymmetric) (hs : SameShape A B) :
    (Sub.map A B).IsSymmetric ∧
      (∀ i j, i < A.rows → j < A.columns →
        (Sub.map A B).elem i j = (Sub.map A B).elem j i) ∧
      ∀ MT1 MT2 : MatrixTraits, Sub.YieldsSymmetric MT1 MT2 = true →
        (MT1.isSymmetric = true ∧ MT2.isSymmetric = true) ∧
        ∀ A' B' : DenseMatrix α, Conforms MT1 A' → Conforms MT2 B' → SameShape A' B' →
          (Sub.map A' B').IsSymmetric := by
  refine ⟨sub_isSymmetric A B hA hB hs, ?_, ?_⟩
  · intro i j hi hj
    exact (sub_isSymmetric A B hA hB hs).2 i hi j hj
  · intro MT1 MT2 hy
    simp only [Sub.YieldsSymmetric, Bool.and_eq_true] at hy
    refine ⟨hy, ?_⟩
    intro A' B' hA' hB' hs'
    exact sub_isSymmetric A' B' (hA'.1 hy.1) (hB'.1 hy.2) hs'

/-- C7: `YieldsUniLower<Sub,MT1,MT2>` is true exactly when `MT1` is uni-lower and `MT2` is
strictly lower, and the difference of a uni-lower and a strictly lower matrix of equal shape
is uni-lower (zero above the diagonal, one on the diagonal); likewise `YieldsUniUpper` for a
uni-upper minuend and a strictly upper subtrahend. -/
theorem C7_sub_yields_uni {α : Type} [AddGroup α] [One α]
    (A B U V : DenseMatrix α) (hA : A.IsUniLower) (hB : B.IsStrictlyLower)
    (hs : SameShape A B) (hU : U.IsUniUpper) (hV : V.IsStrictlyUpper) (hs' : SameShape U V) :
    (Sub.map A B).IsUniLower ∧ (Sub.map U V).IsUniUpper ∧
      ∀ MT1 MT2 : MatrixTraits,
        (Sub.YieldsUniLower MT1 MT2 = true ↔
          MT1.isUniLower = true ∧ MT2.isStrictlyLower = true) ∧
        (Sub.YieldsUniUpper MT1 MT2 = true ↔
          MT1.isUniUpper = true ∧ MT2.isStrictlyUpper = true) ∧
        (Sub.YieldsUniLower MT1 MT2 = true →
          ∀ A' B' : DenseMatrix α, Conforms MT1 A' → Conforms MT2 B' → SameShape A' B' →
            (Sub.map A' B').IsUniLower) ∧
        (Sub.YieldsUniUpper MT1 MT2 = true →
          ∀ A' B' : DenseMatrix α, Conforms MT1 A' → Conforms MT2 B' → SameShape A' B' →
            (Sub.map A' B').IsUniUpper) := by
  have low : ∀ A' B' : DenseMatrix α, A'.IsUniLower → B'.IsStrictlyLower → SameShape A' B' →
      (Sub.map A' B').IsUniLower := fun A' B' h1 h2 h3 =>
    ⟨sub_isLower A' B' h1.1 h2.1 h3, sub_hasDiagonal A' B' 1 h1.2 h2.2 h3⟩
  have upp : ∀ A' B' : DenseMatrix α, A'.IsUniUpper → B'.IsStrictlyUpper → SameShape A' B' →
      (Sub.map A' B').IsUniUpper := fun A' B' h1 h2 h3 =>
    ⟨sub_isUpper A' B' h1.1 h2.1 h3, sub_hasDiagonal A' B' 1 h1.2 h2.2 h3⟩
  refine ⟨low A B hA hB hs, upp U V hU hV hs', ?_⟩
  intro MT1 MT2
  refine ⟨by simp [Sub.YieldsUniLower], by simp [Sub.YieldsUniUpper], ?_, ?_⟩
  · intro hy A' B' hA' hB' h3
    simp only [Sub.YieldsUniLower, Bool.and_eq_true] at hy
    exact low A' B' (hA'.2.2.1 hy.1) (hB'.2.2.2.1 hy.2) h3
  · intro hy A' B' hA' hB' h3
    simp only [Sub.YieldsUniUpper, Bool.and_eq_true] at hy
    exact upp A' B' (hA'.2.2.2.2.2.1 hy.1) (hB'.2.2.2.2.2.2 hy.2) h3

/-- C8: for each structure `X` among lower, strictly lower, upper and strictly upper, the
trait `Yields-X<Sub,MT1,MT2>` is true exactly when both operand types have structure `X`,
and the element-wise difference of two matrices of equal shape that both have structure `X`
has structure `X`. -/
theorem C8_sub_yields_triangular {α : Type} [AddGroup α] (X : TriangularKind)
    (A B : DenseMatrix α) (hA : X.Holds A) (hB : X.Holds B) (hs : SameShape A B) :
    X.Holds (Sub.map A B) ∧
      ∀ MT1 MT2 : MatrixTraits,
        (X.yieldsSub MT1 MT2 = true ↔ X.trait MT1 = true ∧ X.trait MT2 = true) := by
  constructor
  · cases X with
    | lower => exact sub_isLower A B hA hB hs
    | strictlyLower =>
      exact ⟨sub_isLower A B hA.1 hB.1 hs, sub_hasDiagonal A B 0 hA.2 hB.2 hs⟩
    | upper => exact sub_isUpper A B hA hB hs
    | strictlyUpper =>
      exact ⟨sub_isUpper A B hA.1 hB.1 hs, sub_hasDiagonal A B 0 hA.2 hB.2 hs⟩
  · intro MT1 MT2
    cases X <;>
      simp [TriangularKind.yieldsSub, TriangularKind.trait, Sub.YieldsLower,
        Sub.YieldsStrictlyLower, Sub.YieldsUpper, Sub.YieldsStrictlyUpper]

/-- C6, for the symmetric matrices `((1,2),(2,3))` and `((0,5),(5,1))`. -/
theorem C6_sub_yields_symmetric_witness :
    (Sub.map (ofRows 2 [[1, 2], [2, 3]]) (ofRows 2 [[0, 5], [5, 1]])).IsSymmetric ∧
      (∀ i j, i < (ofRows 2 [[1, 2], [2, 3]]).rows → j < (ofRows 2 [[1, 2], [2, 3]]).columns →
        (Sub.map (ofRows 2 [[1, 2], [2, 3]]) (ofRows 2 [[0, 5], [5, 1]])).elem i j =
          (Sub.map (ofRows 2 [[1, 2], [2, 3]]) (ofRows 2 [[0, 5], [5, 1]])).elem j i) ∧
      ∀ MT1 MT2 : MatrixTraits, Sub.YieldsSymmetric MT1 MT2 = true →
        (MT1.isSymmetric = true ∧ MT2.isSymmetric = true) ∧
        ∀ A' B' : DenseMatrix Int, Conforms MT1 A' → Conforms MT2 B' → SameShape A' B' →
          (Sub.map A' B').IsSymmetric :=
  C6_sub_yields_symmetric (ofRows 2 [[1, 2], [2, 3]]) (ofRows 2 [[0, 5], [5, 1]])
    (by unfold DenseMatrix.IsSymmetric; decide) (by unfold DenseMatrix.IsSymmetric; decide)
    (by unfold SameShape; decide)

/-- C7, for a uni-lower and a strictly lower `2×2` matrix, and a uni-upper and a strictly
upper one. -/
theorem C7_sub_yields_uni_witness :
    (Sub.map (ofRows 2 [[1, 0], [4, 1]]) (ofRows 2 [[0, 0], [7, 0]])).IsUniLower ∧
      (Sub.map (ofRows 2 [[1, 3], [0, 1]]) (ofRows 2 [[0, 2], [0, 0]])).IsUniUpper ∧
      ∀ MT1 MT2 : MatrixTraits,
        (Sub.YieldsUniLower MT1 MT2 = true ↔
          MT1.isUniLower = true ∧ MT2.isStrictlyLower = true) ∧
        (Sub.YieldsUniUpper MT1 MT2 = true ↔
          MT1.isUniUpper = true ∧ MT2.isStrictlyUpper = true) ∧
        (Sub.YieldsUniLower MT1 MT2 = true →
          ∀ A' B' : DenseMatrix Int, Conforms MT1 A' → Conforms MT2 B' → SameShape A' B' →
            (Sub.map A' B').IsUniLower) ∧
        (Sub.YieldsUniUpper MT1 MT2 = true →
          ∀ A' B' : DenseMatrix Int, Conforms MT1 A' → Conforms MT2 B' → SameShape A' B' →
            (Sub.map A' B').IsUniUpper) :=
  C7_sub_yields_uni (ofRows 2 [[1, 0], [4, 1]]) (ofRows 2 [[0, 0], [7, 0]])
    (ofRows 2 [[1, 3], [0, 1]]) (ofRows 2 [[0, 2], [0, 0]])
    (by unfold DenseMatrix.IsUniLower DenseMatrix.IsLower DenseMatrix.HasDiagonal; decide)
    (by unfold DenseMatrix.IsStrictlyLower DenseMatrix.IsLower DenseMatrix.HasDiagonal; decide)
    (by unfold SameShape; decide)
    (by unfold DenseMatrix.IsUniUpper DenseMatrix.IsUpper DenseMatrix.HasDiagonal; decide)
    (by unfold DenseMatrix.IsStrictlyUpper DenseMatrix.IsUpper DenseMatrix.HasDiagonal; decide)
    (by unfold SameShape; decide)

/-- C8, for the lower matrices `((1,0),(2,3))` and `((4,0),(5,6))`. -/
theorem C8_sub_yields_triangular_witness :
    TriangularKind.lower.Holds
        (Sub.map (ofRows 2 [[1, 0], [2, 3]]) (ofRows 2 [[4, 0], [5, 6]])) ∧
      ∀ MT1 MT2 : MatrixTraits,
        (TriangularKind.lower.yieldsSub MT1 MT2 = true ↔
          TriangularKind.lower.trait MT1 = true ∧ TriangularKind.lower.trait MT2 = true) :=
  C8_sub_yields_triangular TriangularKind.lower (ofRows 2 [[1, 0], [2, 3]])
    (ofRows 2 [[4, 0], [5, 6]])
    (by unfold TriangularKind.Holds DenseMatrix.IsLower; decide)
    (by unfold TriangularKind.Holds DenseMatrix.IsLower; decide)
    (by unfold SameShape; decide)

/-! ### `MultTrait` -/

theorem usualArithmeticConversion_self (b : Builtin) (h : integralPromotion b = b) :
    usualArithmeticConversion b b = b := by
  cases b <;> simp_all [usualArithmeticConversion, integralPromotion]

theorem multTrait_base (env : TypeEnv) (T1 T2 : QType)
    (h1 : ¬ (T1 = T2 ∧ IsBuiltin T1 = true)) (h2 : isPlainComplex T1 = false)
    (h3 : isPlainComplex T2 = false) (h4 : ¬ (T1.isConst = true ∧ T2.isConst = true))
    (h5 : ¬ (IsRowVector T1 = true ∧ IsColumnVector T2 = true)) :
    MultTrait env T1 T2 =
      if HasMult env T1 T2 then multDecltype env T1 T2 else CType.invalid := by
  rw [MultTrait]
  simp only [h1, h2, h3, if_false, false_and, and_false, Bool.false_eq_true]
  rw [evalMultTrait]
  simp only [h4, dite_false]
  rw [MultTraitEval1, MultTraitEval2]
  simp only [h5, dite_false]

/-- C9 (as stated, refuted): for two operands of type `short`, `MultTrait` yields `short`,
whereas the product `short * short` has type `int`. -/
theorem C9_identical_small_types_not_promoted :
    MultTrait builtinEnv (QType.plain (CType.builtin Builtin.short))
        (QType.plain (CType.builtin Builtin.short)) = CType.builtin Builtin.short ∧
      multDecltype builtinEnv (QType.plain (CType.builtin Builtin.short))
        (QType.plain (CType.builtin Builtin.short)) = CType.builtin Builtin.int ∧
      MultTrait builtinEnv (QType.plain (CType.builtin Builtin.short))
        (QType.plain (CType.builtin Builtin.short)) ≠
      multDecltype builtinEnv (QType.plain (CType.builtin Builtin.short))
        (QType.plain (CType.builtin Builtin.short)) := by
  have h : MultTrait builtinEnv (QType.plain (CType.builtin Builtin.short))
      (QType.plain (CType.builtin Builtin.short)) = CType.builtin Builtin.short := by
    rw [MultTrait]
    simp [IsBuiltin, QType.plain, Decay]
  refine ⟨h, by decide, ?_⟩
  rw [h]
  decide

/-- C9 (amended): for built-in arithmetic types `T1` and `T2` that differ, or that are the
same type left unchanged by integral promotion, `MultTrait<T1,T2>::Type` is the type of
`declval<T1>() * declval<T2>()` under the usual arithmetic conversions. -/
theorem C9_multTrait_matches_product (env : TypeEnv) (T1 T2 : Builtin)
    (h : T1 ≠ T2 ∨ integralPromotion T1 = T1) :
    MultTrait env (QType.plain (CType.builtin T1)) (QType.plain (CType.builtin T2)) =
        multDecltype env (QType.plain (CType.builtin T1)) (QType.plain (CType.builtin T2)) ∧
      multDecltype env (QType.plain (CType.builtin T1)) (QType.plain (CType.builtin T2)) =
        CType.builtin (usualArithmeticConversion T1 T2) := by
  have hd : multDecltype env (QType.plain (CType.builtin T1))
      (QType.plain (CType.builtin T2)) = CType.builtin (usualArithmeticConversion T1 T2) := by
    simp [multDecltype, QType.plain]
  refine ⟨?_, hd⟩
  by_cases he : T1 = T2
  · subst he
    have hp : integralPromotion T1 = T1 := by
      cases h with
      | inl h => exact absurd rfl h
      | inr h => exact h
    rw [hd, usualArithmeticConversion_self T1 hp, MultTrait]
    simp [IsBuiltin, QType.plain, Decay]
  · rw [multTrait_base env _ _ (by simp [QType.plain, he]) (by simp [isPlainComplex, QType.plain])
      (by simp [isPlainComplex, QType.plain]) (by simp [QType.plain])
      (by simp [IsRowVector, QType.plain])]
    simp [HasMult, QType.plain]

/-- C9 (amended), for `short` and `int`: both sides are `int`. -/
theorem C9_multTrait_matches_product_witness :
    MultTrait builtinEnv (QType.plain (CType.builtin Builtin.short))
        (QType.plain (CType.builtin Builtin.int)) =
        multDecltype builtinEnv (QType.plain (CType.builtin Builtin.short))
          (QType.plain (CType.builtin Builtin.int)) ∧
      multDecltype builtinEnv (QType.plain (CType.builtin Builtin.short))
          (QType.plain (CType.builtin Builtin.int)) =
        CType.builtin (usualArithmeticConversion Builtin.short Builtin.int) :=
  C9_multTrait_matches_product builtinEnv Builtin.short Builtin.int (Or.inl (by decide))

/-- C10: for every built-in type `T`, with any cv-qualifiers, `MultTrait<T,T>::Type` is the
decayed `T` itself, also where promotion would change the type (`short`); for a complex
type and a built-in type, in either order, it is the `CommonType_t` of the two operand
types. -/
theorem C10_identical_builtin_and_complex_builtin (env : TypeEnv) (b : Builtin)
    (c v : Bool) (U : CType) :
    MultTrait env { base := CType.builtin b, isConst := c, isVolatile := v }
        { base := CType.builtin b, isConst := c, isVolatile := v } = CType.builtin b ∧
      MultTrait env (QType.plain (CType.complex U))
          { base := CType.builtin b, isConst := c, isVolatile := v } =
        env.commonType (QType.plain (CType.complex U))
          { base := CType.builtin b, isConst := c, isVolatile := v } ∧
      MultTrait env { base := CType.builtin b, isConst := c, isVolatile := v }
          (QType.plain (CType.complex U)) =
        env.commonType { base := CType.builtin b, isConst := c, isVolatile := v }
          (QType.plain (CType.complex U)) ∧
      MultTrait env (QType.plain (CType.builtin Builtin.short))
          (QType.plain (CType.builtin Builtin.short)) ≠
        CType.builtin (integralPromotion Builtin.short) := by
  refine ⟨?_, ?_, ?_, ?_⟩
  · rw [MultTrait]
    simp [IsBuiltin, Decay]
  · rw [MultTrait]
    simp [IsBuiltin, isPlainComplex, QType.plain]
  · rw [MultTrait]
    simp [IsBuiltin, isPlainComplex, QType.plain]
  · rw [MultTrait]
    simp [IsBuiltin, Decay, QType.plain, integralPromotion]

/-! ### The fall-back of `MultTrait` -/

/-- C13: constructing a column view with a runtime index fails, with the out-of-range error,
exactly when the index is not smaller than the current number of columns of the matrix, and
succeeds with a view of that column exactly when the index is smaller; the constructors of
the column-major and of the row-major specialisation behave alike, both only initialising
the base class. -/
theorem C13_construct_checks_index {α : Type} (m : DenseMatrix α) (index : Nat) :
    (ColumnMajor.construct m index =
        Outcome.thrown (Signal.outOfRange "Invalid column access index") ↔
      m.columns ≤ index) ∧
    ((∃ s, ColumnMajor.construct m index = Outcome.thrown s) ↔ m.columns ≤ index) ∧
    (ColumnMajor.construct m index = Outcome.value { column := index } ↔
      index < m.columns) ∧
    RowMajor.construct m index = ColumnMajor.construct m index := by
  refine ⟨?_, ?_, ?_, rfl⟩
  · by_cases h : m.columns ≤ index
    · simp [ColumnMajor.construct, ColumnData.construct, h]
    · simp [ColumnMajor.construct, ColumnData.construct, h]
  · by_cases h : m.columns ≤ index
    · simp [ColumnMajor.construct, ColumnData.construct, h]
    · simp [ColumnMajor.construct, ColumnData.construct, h]
  · by_cases h : m.columns ≤ index
    · simp [ColumnMajor.construct, ColumnData.construct, h]
    · simp [ColumnMajor.construct, ColumnData.construct, h]
      omega

/-- C14: the checked accessor `at( index )` signals `std::out_of_range` exactly when
`index >= size()`, and otherwise returns the reference that `operator[]( index )` returns,
which refers to the matrix element `(index, column())`; in the column-major and in the
row-major specialisation. -/
theorem C14_at_checks_index {α : Type} (m : DenseMatrix α) (column index : Nat) :
    (ColumnMajor.atIndex m column index =
        Outcome.thrown (Signal.outOfRange "Invalid column access index") ↔
      ColumnMajor.size m ≤ index) ∧
    (ColumnMajor.atIndex m column index = Outcome.value (ColumnMajor.subscript column index) ↔
      index < ColumnMajor.size m) ∧
    (RowMajor.atIndex m column index =
        Outcome.thrown (Signal.outOfRange "Invalid column access index") ↔
      RowMajor.size m ≤ index) ∧
    (RowMajor.atIndex m column index = Outcome.value (RowMajor.subscript column index) ↔
      index < RowMajor.size m) ∧
    (ColumnMajor.subscript column index).read m = m.elem index column ∧
    (RowMajor.subscript column index).read m = m.elem index column := by
  refine ⟨?_, ?_, ?_, ?_, rfl, rfl⟩
  · by_cases h : ColumnMajor.size m ≤ index
    · simp [ColumnMajor.atIndex, h]
    · simp [ColumnMajor.atIndex, h]
  · by_cases h : ColumnMajor.size m ≤ index
    · simp [ColumnMajor.atIndex, h]
    · simp [ColumnMajor.atIndex, h]
      omega
  · by_cases h : RowMajor.size m ≤ index
    · simp [RowMajor.atIndex, h]
    · simp [RowMajor.atIndex, h]
  · by_cases h : RowMajor.size m ≤ index
    · simp [RowMajor.atIndex, h]
    · simp [RowMajor.atIndex, h]
      omega

/-! ### Scalar assignment for every structural kind -/

theorem scaleLoop_spec {α : Type} [Mul α] (mirrored : Bool) (column ib ie : Nat)
    (scalar : α) (m : DenseMatrix α) (hend : ie < 18446744073709551616) :
    ∃ s', whileLoop (fun s : Nat × DenseMatrix α => decide (s.1 < ie))
        (fun s => (sizeT (s.1 + 1),
          s.2.write mirrored s.1 column (s.2.elem s.1 column * scalar)))
        (ie + 1) (ib, m) = some s' ∧
      s'.2.rows = m.rows ∧ s'.2.columns = m.columns ∧
      ∀ a b, s'.2.elem a b =
        if b = column ∧ ib ≤ a ∧ a < ie then m.elem a b * scalar
        else if mirrored = true ∧ a = column ∧ ib ≤ b ∧ b < ie then m.elem b a * scalar
        else m.elem a b := by
  obtain ⟨s', h1, ⟨h2, h2b, h3, h4, h5⟩, h6⟩ := whileLoop_spec
    (fun s : Nat × DenseMatrix α => decide (s.1 < ie))
    (fun s => (sizeT (s.1 + 1),
      s.2.write mirrored s.1 column (s.2.elem s.1 column * scalar)))
    (fun s => ib ≤ s.1 ∧ (s.1 ≤ ie ∨ s.1 = ib) ∧ s.2.rows = m.rows ∧
      s.2.columns = m.columns ∧
      ∀ a b, s.2.elem a b =
        if b = column ∧ ib ≤ a ∧ a < s.1 then m.elem a b * scalar
        else if mirrored = true ∧ a = column ∧ ib ≤ b ∧ b < s.1 then m.elem b a * scalar
        else m.elem a b)
    (fun s => ie - s.1)
    (by
      rintro ⟨i, mm⟩ ⟨hi, hib, hr, hc, he⟩ hcond
      simp only [decide_eq_true_eq] at hcond
      have hw : sizeT (i + 1) = i + 1 := by simp only [sizeT]; omega
      simp only [hw]
      refine ⟨⟨by omega, by omega, hr, hc, ?_⟩, by omega⟩
      intro a b
      dsimp only at he hi ⊢
      have hcur : mm.elem i column = m.elem i column := by
        rw [he]
        have n1 : ¬ (column = column ∧ ib ≤ i ∧ i < i) := by omega
        have n2 : ¬ (mirrored = true ∧ i = column ∧ ib ≤ column ∧ column < i) := by
          rintro ⟨_, h, _, h'⟩; omega
        rw [if_neg n1, if_neg n2]
      simp only [DenseMatrix.write, hcur]
      by_cases hab : a = i ∧ b = column
      · obtain ⟨rfl, rfl⟩ := hab
        have : b = b ∧ ib ≤ a ∧ a < a + 1 := ⟨rfl, by omega, by omega⟩
        rw [if_pos (Or.inl ⟨rfl, rfl⟩), if_pos this]
      · by_cases hmir : mirrored = true ∧ a = column ∧ b = i
        · obtain ⟨hm, rfl, rfl⟩ := hmir
          have n1 : ¬ (b = a ∧ ib ≤ a ∧ a < b + 1) := by
            rintro ⟨h, _, _⟩
            exact hab ⟨h.symm, h⟩
          have p2 : mirrored = true ∧ a = a ∧ ib ≤ b ∧ b < b + 1 :=
            ⟨hm, rfl, by omega, by omega⟩
          rw [if_pos (Or.inr ⟨hm, rfl, rfl⟩), if_neg n1, if_pos p2]
        · have n0 : ¬ ((a = i ∧ b = column) ∨ (mirrored = true ∧ a = column ∧ b = i)) := by
            rintro (h | h)
            · exact hab h
            · exact hmir h
          rw [if_neg n0, he]
          by_cases c1 : b = column ∧ ib ≤ a ∧ a < i
          · have c1' : b = column ∧ ib ≤ a ∧ a < i + 1 := ⟨c1.1, c1.2.1, by omega⟩
            rw [if_pos c1, if_pos c1']
          · have c1' : ¬ (b = column ∧ ib ≤ a ∧ a < i + 1) := by
              rintro ⟨h1, h2, h3⟩
              by_cases hai : a = i
              · exact hab ⟨hai, h1⟩
              · exact c1 ⟨h1, h2, by omega⟩
            rw [if_neg c1, if_neg c1']
            by_cases c2 : mirrored = true ∧ a = column ∧ ib ≤ b ∧ b < i
            · have c2' : mirrored = true ∧ a = column ∧ ib ≤ b ∧ b < i + 1 :=
                ⟨c2.1, c2.2.1, c2.2.2.1, by omega⟩
              rw [if_pos c2, if_pos c2']
            · have c2' : ¬ (mirrored = true ∧ a = column ∧ ib ≤ b ∧ b < i + 1) := by
                rintro ⟨h1, h2, h3, h4⟩
                by_cases hbi : b = i
                · exact hmir ⟨h1, h2, hbi⟩
                · exact c2 ⟨h1, h2, h3, by omega⟩
              rw [if_neg c2, if_neg c2'])
    (ie + 1) (ib, m) ⟨le_refl _, Or.inr rfl, rfl, rfl, by
      intro a b; dsimp only
      have n1 : ¬ (b = column ∧ ib ≤ a ∧ a < ib) := by omega
      have n2 : ¬ (mirrored = true ∧ a = column ∧ ib ≤ b ∧ b < ib) := by
        rintro ⟨_, _, h, h'⟩; omega
      rw [if_neg n1, if_neg n2]⟩
    (by simp; omega)
  refine ⟨s', h1, h3, h4, ?_⟩
  intro a b
  rw [h5]
  simp only [decide_eq_false_iff_not, not_lt] at h6
  by_cases hlt : ib ≤ ie
  · have hs : s'.1 = ie := by omega
    rw [hs]
  · have hs : s'.1 = ib := by omega
    rw [hs]
    have n1 : ¬ (b = column ∧ ib ≤ a ∧ a < ib) := by omega
    have n2 : ¬ (mirrored = true ∧ a = column ∧ ib ≤ b ∧ b < ib) := by
      rintro ⟨_, _, h, h'⟩; omega
    have n3 : ¬ (b = column ∧ ib ≤ a ∧ a < ie) := by omega
    have n4 : ¬ (mirrored = true ∧ a = column ∧ ib ≤ b ∧ b < ie) := by
      rintro ⟨_, _, h, h'⟩; omega
    rw [if_neg n1, if_neg n2, if_neg n3, if_neg n4]

/-- C16: for a matrix type that is not unitriangular and every column index, `scale( s )`
completes and touches exactly the half-open row range `[ibegin, iend)` that the scalar
assignment `column = s` touches: it multiplies each element of the column in that range by
`s`, where the assignment stores `s`.  For a general, lower, strictly lower, upper or
strictly upper type (none of them symmetric) every other element of the matrix is unchanged;
a symmetric matrix type mirrors each of these writes, of either operation, to the element
`(column(), i)`. -/
theorem C16_scale_same_range {α : Type} [Mul α] (t : MatrixTraits) (m : DenseMatrix α)
    (column : Nat) (s : α) (hrows : m.rows < 18446744073709551616)
    (hcolumn : column < 18446744073709551616)
    (hl : t.isUniLower = false) (hu : t.isUniUpper = false) :
    ColumnMajor.scaleBegin t column = fillBegin t column ∧
    ColumnMajor.scaleEnd t column (ColumnMajor.size m) =
      fillEnd t column (ColumnMajor.size m) ∧
    ∃ ms mf,
      ColumnMajor.scale t m column s = some ms ∧
      ColumnMajor.assignScalar t m column s = some mf ∧
      (∀ a b, ms.elem a b =
        if b = column ∧ fillBegin t column ≤ a ∧ a < fillEnd t column (ColumnMajor.size m)
        then m.elem a b * s
        else if t.isSymmetric = true ∧ a = column ∧ fillBegin t column ≤ b ∧
            b < fillEnd t column (ColumnMajor.size m)
        then m.elem b a * s else m.elem a b) ∧
      (∀ a b, mf.elem a b =
        if (b = column ∧ fillBegin t column ≤ a ∧ a < fillEnd t column (ColumnMajor.size m)) ∨
          (t.isSymmetric = true ∧ a = column ∧ fillBegin t column ≤ b ∧
            b < fillEnd t column (ColumnMajor.size m))
        then s else m.elem a b) ∧
      (t.isSymmetric = false →
        (∀ a b, ms.elem a b =
          if b = column ∧ fillBegin t column ≤ a ∧ a < fillEnd t column (ColumnMajor.size m)
          then m.elem a b * s else m.elem a b) ∧
        (∀ a b, mf.elem a b =
          if b = column ∧ fillBegin t column ≤ a ∧ a < fillEnd t column (ColumnMajor.size m)
          then s else m.elem a b)) := by
  have hb : ColumnMajor.scaleBegin t column = fillBegin t column := by
    simp [ColumnMajor.scaleBegin, fillBegin, hl]
  have he : ColumnMajor.scaleEnd t column (ColumnMajor.size m) =
      fillEnd t column (ColumnMajor.size m) := by
    simp [ColumnMajor.scaleEnd, fillEnd, hu]
  have hel : fillEnd t column (ColumnMajor.size m) < 18446744073709551616 := by
    simp only [fillEnd, sizeT, ColumnMajor.size]; split_ifs <;> omega
  obtain ⟨s1, e1, _, _, el1⟩ := scaleLoop_spec t.isSymmetric column (fillBegin t column)
    (fillEnd t column (ColumnMajor.size m)) s m hel
  obtain ⟨s2, e2, _, _, el2⟩ := fillLoop_spec t.isSymmetric column
    (fillEnd t column (ColumnMajor.size m)) s m (fillBegin t column) hel
  refine ⟨hb, he, s1.2, s2.2, ?_, ?_, el1, el2, ?_⟩
  · simp only [ColumnMajor.scale, hb, he, e1, Option.map_some']
  · simp only [ColumnMajor.assignScalar, e2, Option.map_some']
  · intro hs
    refine ⟨?_, ?_⟩
    · intro a b
      rw [el1, hs]
      simp only [Bool.false_eq_true, false_and, if_false]
    · intro a b
      rw [el2, hs]
      simp only [Bool.false_eq_true, false_and, or_false]

/-- The elements of a column outside the row range that `scale` touches are zero in a
matrix that conforms to the structure its type declares. -/
theorem conforms_zero_outside {α : Type} [Zero α] [One α] (t : MatrixTraits)
    (m : DenseMatrix α) (column a : Nat) (hconf : Conforms t m)
    (hrows : m.rows < 18446744073709551616) (hcol : column < m.columns) (ha : a < m.rows)
    (hout : a < ColumnMajor.scaleBegin t column ∨
      ColumnMajor.scaleEnd t column m.rows ≤ a) :
    m.elem a column = 0 := by
  obtain ⟨_, hL, _, hSL, hU, _, hSU⟩ := hconf
  cases hout with
  | inl h =>
    unfold ColumnMajor.scaleBegin at h
    by_cases hl : t.isLower = true
    · have hlow := hL hl
      have hsq := hlow.1
      have hw : sizeT (column + 1) = column + 1 := by simp only [sizeT]; omega
      rw [if_pos hl, hw] at h
      by_cases hs : t.isStrictlyLower = true
      · rw [if_pos hs] at h
        by_cases hac : a < column
        · exact hlow.2 a ha column hcol hac
        · have : a = column := by omega
          subst this
          exact (hSL hs).2 a ha hcol
      · rw [if_neg hs] at h
        exact hlow.2 a ha column hcol h
    · rw [if_neg hl] at h
      omega
  | inr h =>
    unfold ColumnMajor.scaleEnd at h
    by_cases hu : t.isUpper = true
    · have hupp := hU hu
      have hsq := hupp.1
      have hw : sizeT (column + 1) = column + 1 := by simp only [sizeT]; omega
      rw [if_pos hu, hw] at h
      by_cases hs : t.isStrictlyUpper = true
      · rw [if_pos hs] at h
        by_cases hac : column < a
        · exact hupp.2 a ha column hcol hac
        · have : a = column := by omega
          subst this
          exact (hSU hs).2 a ha hcol
      · rw [if_neg hs] at h
        exact hupp.2 a ha column hcol (by omega)
    · rw [if_neg hu] at h
      omega

/-- C17 (as stated, refuted): the symmetric matrix `((1,2),(2,3))` is of a symmetric adaptor
type, which is not unitriangular.  `scale( 3 )` on the view of column 0 multiplies the
elements of column 0 and, each write being mirrored, sets the element `(0,1)` of column 1
to `6`: another column is changed. -/
theorem C17_symmetric_scale_changes_other_column :
    symmetricTraits.isUniLower = false ∧ symmetricTraits.isUniUpper = false ∧
    symmetric2x2.elem 0 1 = 2 ∧
    (ColumnMajor.scale symmetricTraits symmetric2x2 0 3).map
        (fun m' => m'.elem 0 1) = some 6 ∧
    (ColumnMajor.scale symmetricTraits symmetric2x2 0 3).map
        (fun m' => [[m'.elem 0 0, m'.elem 0 1], [m'.elem 1 0, m'.elem 1 1]]) =
      some [[3, 6], [6, 3]] := by
  refine ⟨rfl, rfl, by decide, by decide, by decide⟩

/-- C17 (amended): for an element type in which `0 * s = 0` (the built-in integer types), a
matrix type that is not unitriangular, a matrix conforming to the structure of its type and
a scalar `s`, `scale( s )` completes and multiplies the rows `[ibegin, iend)` of the column
by `s`, for a symmetric matrix type also the mirrored elements of row `column()`, and
changes nothing else.  For a matrix type that is not symmetric both `scale( s )` and
`column *= s` (which is `operator=( (*this) * s )`) complete, and after either every
element of the column equals its previous value times `s` and all other columns are
unchanged.  The structural check of the matrix type is assumed to admit the scaled
column. -/
theorem C17_scale_equals_mult_assign {α : Type} [MulZeroClass α] [One α]
    (cfg : KernelConfig) (t : MatrixTraits) (ops : MatrixOps α) (vt rt : VectorTraits)
    (column k : Nat) (s : α) (m : DenseMatrix α)
    (hpow : cfg.SIMDSIZE = 2 ^ k)
    (hbound : m.rows + 4 * cfg.SIMDSIZE ≤ 18446744073709551616)
    (hvt : vt.isSparse = false) (hrt : rt.isSparse = false)
    (hl : t.isUniLower = false) (hu : t.isUniUpper = false)
    (hconf : Conforms t m) (hcol : column < m.columns)
    (htry : ops.tryAssign m
      (bindRight t (scaledColumn vt rt column (ColumnMajor.size m) s) m) 0 column = true) :
    ∃ ms,
      ColumnMajor.scale t m column s = some ms ∧
      (∀ a b, ms.elem a b =
        if b = column ∧ ColumnMajor.scaleBegin t column ≤ a ∧
            a < ColumnMajor.scaleEnd t column m.rows
        then m.elem a b * s
        else if t.isSymmetric = true ∧ a = column ∧ ColumnMajor.scaleBegin t column ≤ b ∧
            b < ColumnMajor.scaleEnd t column m.rows
        then m.elem b a * s else m.elem a b) ∧
      (t.isSymmetric = false →
        ∃ mo,
          ColumnMajor.operatorMultScalar cfg t ops vt rt column s m =
            some (Signal.done, mo) ∧
          (∀ a, a < m.rows →
            ms.elem a column = m.elem a column * s ∧ mo.elem a column = m.elem a column * s) ∧
          (∀ a b, a < m.rows → b ≠ column →
            ms.elem a b = m.elem a b ∧ mo.elem a b = m.elem a b) ∧
          (∀ a b, a < m.rows → ms.elem a b = mo.elem a b)) := by
  have hS : 0 < cfg.SIMDSIZE := by rw [hpow]; exact Nat.pos_pow_of_pos _ (by decide)
  have hrows : m.rows < 18446744073709551616 := by omega
  have _ := hl
  have hel : ColumnMajor.scaleEnd t column m.rows < 18446744073709551616 := by
    unfold ColumnMajor.scaleEnd
    by_cases hup : t.isUpper = true
    · have hsq := (hconf.2.2.2.2.1 hup).1
      rw [if_pos hup]
      simp only [sizeT]
      split_ifs <;> omega
    · rw [if_neg hup]; exact hrows
  have _ := hu
  obtain ⟨s1, e1, _, _, el1⟩ := scaleLoop_spec t.isSymmetric column
    (ColumnMajor.scaleBegin t column) (ColumnMajor.scaleEnd t column m.rows) s m hel
  refine ⟨s1.2, ?_, el1, ?_⟩
  · simp only [ColumnMajor.scale, ColumnMajor.size, e1, Option.map_some']
  intro hsym
  obtain ⟨mo, eo, _, _, elo⟩ := columnMajor_assign_aliased_dense cfg t ops column k
    (scaledColumn vt rt column (ColumnMajor.size m) s) m hpow hbound rfl hvt hrt rfl htry
  have hms : ∀ a b, a < m.rows →
      s1.2.elem a b = if b = column then m.elem a column * s else m.elem a b := by
    intro a b ha
    rw [el1, hsym]
    simp only [Bool.false_eq_true, false_and, if_false]
    by_cases hb : b = column
    · subst hb
      by_cases hin : ColumnMajor.scaleBegin t b ≤ a ∧ a < ColumnMajor.scaleEnd t b m.rows
      · simp [hin]
      · have hz := conforms_zero_outside t m b a hconf hrows hcol ha (by omega)
        simp only [true_and, if_true]
        rw [if_neg hin, hz, zero_mul]
    · simp [hb]
  have hmo : ∀ a b, a < m.rows →
      mo.elem a b = if b = column then m.elem a column * s else m.elem a b := by
    intro a b ha
    rw [elo a b ha]
    simp [copyThenAssign, VecExpr.value, scaledColumn, hvt, ha]
  refine ⟨mo, eo, ?_, ?_, ?_⟩
  · intro a ha
    exact ⟨by rw [hms a column ha]; simp, by rw [hmo a column ha]; simp⟩
  · intro a b ha hb
    exact ⟨by rw [hms a b ha]; simp [hb], by rw [hmo a b ha]; simp [hb]⟩
  · intro a b ha
    rw [hms a b ha, hmo a b ha]

/-! ### List assignment -/

/-- C19: for a column view of an unrestricted matrix (a matrix type whose structural check
never fails), the cross-product assignment `column %= rhs` returns, and it signals an
error exactly when `size() != 3` or `rhs.size() != 3`; the error is `std::invalid_argument`
("Invalid vector size for cross product") and the matrix is then unchanged. -/
theorem C19_cross_assign_size_check {α : Type} [Sub α] [Mul α] [Zero α]
    (cfg : KernelConfig) (t : MatrixTraits) (ops : MatrixOps α) (ct : VectorTraits)
    (column k : Nat) (rhs : VecExpr α) (m : DenseMatrix α)
    (hunrestricted : ∀ r : VecExpr α, ops.tryAssign m r 0 column = true)
    (hpow : cfg.SIMDSIZE = 2 ^ k)
    (hbound : 3 + 4 * cfg.SIMDSIZE ≤ 18446744073709551616)
    (hct : ct.isSparse = false) :
    ∃ r, ColumnMajor.operatorCrossAssign cfg t ops ct column rhs m = some r ∧
      (r.1 ≠ Signal.done ↔ (ColumnMajor.size m ≠ 3 ∨ rhs.size ≠ 3)) ∧
      (r.1 ≠ Signal.done →
        r = (Signal.invalidArgument "Invalid vector size for cross product", m)) := by
  by_cases hs : ColumnMajor.size m ≠ 3 ∨ rhs.size ≠ 3
  · refine ⟨(Signal.invalidArgument "Invalid vector size for cross product", m), ?_, ?_, ?_⟩
    · simp only [ColumnMajor.operatorCrossAssign, hs, if_true]
    · constructor
      · intro _; exact hs
      · intro _ h; cases h
    · intro _; rfl
  · have h3 : m.rows = 3 := by
      simp only [ColumnMajor.size] at hs; omega
    obtain ⟨m', e, _, _, _⟩ := smpAssign_dense_spec cfg t column k
      (crossProduct ct m column rhs) ((crossProduct ct m column rhs).elem m) m hpow
      (by rw [h3]; exact hbound) (by rw [h3]; rfl) (fun _ _ => rfl) hct
    have ea : ColumnMajor.assign cfg t column (crossProduct ct m column rhs) m = some m' := e
    refine ⟨(Signal.done, m'), ?_, ?_, ?_⟩
    · simp only [ColumnMajor.operatorCrossAssign, hs, if_false, hunrestricted, Bool.not_true,
        Bool.false_eq_true, ea, finish, Option.map_some']
    · constructor
      · intro h; exact absurd rfl h
      · intro h; exact absurd h hs
    · intro h; exact absurd rfl h

/-! ### SIMD and default kernels of the compound assignments -/

/-- C20: for a power-of-two `SIMDSIZE`, a column of `n` rows (with `n + 4*SIMDSIZE` within
the range of `size_t`) and a dense right-hand side of length `n`, each of the SIMD kernels
`addAssign`, `subAssign`, `multAssign` and `divAssign` and its default scalar counterpart
complete, and both replace every `column[i]`, `i < n`, by `column[i] op rhs[i]` computed
from the previous value of the element, so every logical element is updated exactly once
and the two kernels agree on them; the other columns are untouched. -/
theorem C20_simd_compound_equals_default {α : Type} [Add α] [Sub α] [Mul α] [Div α]
    (o : ArithOp) (cfg : KernelConfig) (t : MatrixTraits) (column k : Nat)
    (rhs : VecExpr α) (v : Nat → α) (m : DenseMatrix α)
    (hpow : cfg.SIMDSIZE = 2 ^ k)
    (hbound : m.rows + 4 * cfg.SIMDSIZE ≤ 18446744073709551616)
    (hsize : rhs.size = ColumnMajor.size m) (hv : ∀ m' i, rhs.elem m' i = v i) :
    ∃ ms md,
      ColumnMajor.simdKernel o cfg t column rhs m = some ms ∧
      ColumnMajor.defaultKernel o column rhs m = some md ∧
      (∀ i, i < ColumnMajor.size m →
        ms.elem i column = o.apply (m.elem i column) (v i) ∧
        md.elem i column = o.apply (m.elem i column) (v i) ∧
        ms.elem i column = md.elem i column) ∧
      (∀ i j, j ≠ column → ms.elem i j = m.elem i j ∧ md.elem i j = m.elem i j) := by
  have hk : k < 64 := pow_lt_of_bound m.rows k (by rw [← hpow]; exact hbound)
  have hS : 0 < cfg.SIMDSIZE := by rw [hpow]; exact Nat.pos_pow_of_pos _ (by decide)
  have hrows : m.rows < 18446744073709551616 := by omega
  have hipos : ∀ r, simdEnd r m.rows cfg.SIMDSIZE ≤ m.rows := by
    intro r; rw [hpow]; exact simdEnd_le r m.rows k hk hrows
  have hcover : ∀ r, r = false → simdEnd r m.rows cfg.SIMDSIZE = m.rows := by
    intro r hr; simp [simdEnd, hr]
  have hsz : rhs.size = m.rows := hsize
  have main : ∀ (op : α → α → α) (r : Bool),
      ∃ ms md,
        simdLoops op r cfg.SIMDSIZE column m.rows (simdEnd r m.rows cfg.SIMDSIZE) rhs m
          = some ms ∧
        defaultLoops op column rhs m = some md ∧
        (∀ i, i < m.rows →
          ms.elem i column = op (m.elem i column) (v i) ∧
          md.elem i column = op (m.elem i column) (v i) ∧
          ms.elem i column = md.elem i column) ∧
        (∀ i j, j ≠ column → ms.elem i j = m.elem i j ∧ md.elem i j = m.elem i j) := by
    intro op r
    obtain ⟨ms, n', e1, _, _, g1, el1⟩ := simdLoops_spec op r cfg.SIMDSIZE column m.rows _
      rhs v m hv hS hbound (hipos r) (hcover r)
    obtain ⟨md, e2, _, _, el2⟩ := defaultLoops_spec op column rhs v m hv (by omega)
    have k1 : ∀ i, i < m.rows → ms.elem i column = op (m.elem i column) (v i) := by
      intro i hi; rw [el1]; have : i < n' := by omega
      simp [this]
    have k2 : ∀ i, i < m.rows → md.elem i column = op (m.elem i column) (v i) := by
      intro i hi; rw [el2]; have : i < rhs.size := by omega
      simp [this]
    refine ⟨ms, md, e1, e2, ?_, ?_⟩
    · intro i hi
      exact ⟨k1 i hi, k2 i hi, by rw [k1 i hi, k2 i hi]⟩
    · intro i j hj
      exact ⟨by rw [el1]; simp [hj], by rw [el2]; simp [hj]⟩
  cases o with
  | add => exact main (fun l r => l + r) (!t.isPadded || !rhs.traits.isPadded)
  | sub => exact main (fun l r => l - r) (!t.isPadded || !rhs.traits.isPadded)
  | mult => exact main (fun l r => l * r) (!t.isPadded || !rhs.traits.isPadded)
  | div => exact main (fun l r => l / r) true

/-- C16, for column 3 of a general `2×5` matrix with elements `10*i + j` and `s = 3`: both
rows of the column are scaled, `(3, 13)` becomes `(9, 39)`. -/
theorem C16_scale_same_range_witness :
    (ColumnMajor.scaleBegin generalTraits 3 = fillBegin generalTraits 3 ∧
    ColumnMajor.scaleEnd generalTraits 3 (ColumnMajor.size sample2x5) =
      fillEnd generalTraits 3 (ColumnMajor.size sample2x5) ∧
    ∃ ms mf,
      ColumnMajor.scale generalTraits sample2x5 3 (3 : Int) = some ms ∧
      ColumnMajor.assignScalar generalTraits sample2x5 3 (3 : Int) = some mf ∧
      (∀ a b, ms.elem a b =
        if b = 3 ∧ fillBegin generalTraits 3 ≤ a ∧ a < fillEnd generalTraits 3 (ColumnMajor.size sample2x5)
        then sample2x5.elem a b * (3 : Int)
        else if generalTraits.isSymmetric = true ∧ a = 3 ∧ fillBegin generalTraits 3 ≤ b ∧
            b < fillEnd generalTraits 3 (ColumnMajor.size sample2x5)
        then sample2x5.elem b a * (3 : Int) else sample2x5.elem a b) ∧
      (∀ a b, mf.elem a b =
        if (b = 3 ∧ fillBegin generalTraits 3 ≤ a ∧ a < fillEnd generalTraits 3 (ColumnMajor.size sample2x5)) ∨
          (generalTraits.isSymmetric = true ∧ a = 3 ∧ fillBegin generalTraits 3 ≤ b ∧
            b < fillEnd generalTraits 3 (ColumnMajor.size sample2x5))
        then (3 : Int) else sample2x5.elem a b) ∧
      (generalTraits.isSymmetric = false →
        (∀ a b, ms.elem a b =
          if b = 3 ∧ fillBegin generalTraits 3 ≤ a ∧ a < fillEnd generalTraits 3 (ColumnMajor.size sample2x5)
          then sample2x5.elem a b * (3 : Int) else sample2x5.elem a b) ∧
        (∀ a b, mf.elem a b =
          if b = 3 ∧ fillBegin generalTraits 3 ≤ a ∧ a < fillEnd generalTraits 3 (ColumnMajor.size sample2x5)
          then (3 : Int) else sample2x5.elem a b))) ∧
    (ColumnMajor.scale generalTraits sample2x5 3 (3 : Int)).map
      (fun m' => m'.columnList 3) = some [9, 39] ∧
    (ColumnMajor.scale strictlyLowerTraits strictlyLower4 1 (3 : Int)).map
      (fun m' => m'.columnList 1) = some [0, 0, 63, 93] :=
  ⟨C16_scale_same_range generalTraits sample2x5 3 3 (by decide) (by decide)
    rfl rfl, by decide, by decide⟩

/-- C17 (amended), for column 1 of a strictly lower `4×4` matrix and `s = 3`: both operations
yield the column `(0, 0, 63, 93)`. -/
theorem C17_scale_equals_mult_assign_witness :
    (∃ ms,
      ColumnMajor.scale strictlyLowerTraits strictlyLower4 1 (3 : Int) = some ms ∧
      (∀ a b, ms.elem a b =
        if b = 1 ∧ ColumnMajor.scaleBegin strictlyLowerTraits 1 ≤ a ∧
            a < ColumnMajor.scaleEnd strictlyLowerTraits 1 strictlyLower4.rows
        then strictlyLower4.elem a b * (3 : Int)
        else if strictlyLowerTraits.isSymmetric = true ∧ a = 1 ∧ ColumnMajor.scaleBegin strictlyLowerTraits 1 ≤ b ∧
            b < ColumnMajor.scaleEnd strictlyLowerTraits 1 strictlyLower4.rows
        then strictlyLower4.elem b a * (3 : Int) else strictlyLower4.elem a b) ∧
      (strictlyLowerTraits.isSymmetric = false →
        ∃ mo,
          ColumnMajor.operatorMultScalar scalarConfig strictlyLowerTraits strictlyLowerOps denseVectorTraits denseVectorTraits 1 (3 : Int) strictlyLower4 =
            some (Signal.done, mo) ∧
          (∀ a, a < strictlyLower4.rows →
            ms.elem a 1 = strictlyLower4.elem a 1 * (3 : Int) ∧ mo.elem a 1 = strictlyLower4.elem a 1 * (3 : Int)) ∧
          (∀ a b, a < strictlyLower4.rows → b ≠ 1 →
            ms.elem a b = strictlyLower4.elem a b ∧ mo.elem a b = strictlyLower4.elem a b) ∧
          (∀ a b, a < strictlyLower4.rows → ms.elem a b = mo.elem a b))) ∧
    (ColumnMajor.operatorMultScalar scalarConfig strictlyLowerTraits strictlyLowerOps
        denseVectorTraits denseVectorTraits 1 (3 : Int) strictlyLower4).map
      (fun r => (r.1, r.2.columnList 1)) = some (Signal.done, [0, 0, 63, 93]) :=
  ⟨C17_scale_equals_mult_assign scalarConfig strictlyLowerTraits strictlyLowerOps
    denseVectorTraits denseVectorTraits 1 2 3 strictlyLower4 rfl (by decide) rfl rfl rfl rfl
    (by
      have hlow : strictlyLower4.IsLower := by
        unfold DenseMatrix.IsLower; decide
      have hdiag : strictlyLower4.HasDiagonal 0 := by
        unfold DenseMatrix.HasDiagonal; decide
      exact ⟨fun h => absurd h (by decide), fun _ => hlow, fun h => absurd h (by decide),
        fun _ => ⟨hlow, hdiag⟩, fun h => absurd h (by decide),
        fun h => absurd h (by decide), fun h => absurd h (by decide)⟩)
    (by decide) (by decide), by decide⟩

/-- C19, for a column of size 4 and a right-hand side of size 3: the error is signalled. -/
theorem C19_cross_assign_size_check_witness :
    (∃ r, ColumnMajor.operatorCrossAssign scalarConfig generalTraits (plainOps Int) denseVectorTraits 1 (plainVector 3 fun _ => (1 : Int)) sample4x4 = some r ∧
      (r.1 ≠ Signal.done ↔ (ColumnMajor.size sample4x4 ≠ 3 ∨ (plainVector 3 fun _ => (1 : Int)).size ≠ 3)) ∧
      (r.1 ≠ Signal.done →
        r = (Signal.invalidArgument "Invalid vector size for cross product", sample4x4))) ∧
    ColumnMajor.operatorCrossAssign scalarConfig generalTraits (plainOps Int)
        denseVectorTraits 1 (plainVector 3 fun _ => (1 : Int)) sample4x4 =
      some (Signal.invalidArgument "Invalid vector size for cross product", sample4x4) :=
  ⟨C19_cross_assign_size_check scalarConfig generalTraits (plainOps Int) denseVectorTraits
    1 2 (plainVector 3 fun _ => (1 : Int)) sample4x4 (fun _ => rfl) rfl (by decide) rfl,
    rfl⟩

/-- C20, for `addAssign` on a column of 7 rows with packs of 4 elements. -/
theorem C20_simd_compound_equals_default_witness :
    (∃ ms md,
      ColumnMajor.simdKernel ArithOp.add smallConfig generalTraits 0 (plainVector 7 fun i => 100 + (i : Int)) sample7x2 = some ms ∧
      ColumnMajor.defaultKernel ArithOp.add 0 (plainVector 7 fun i => 100 + (i : Int)) sample7x2 = some md ∧
      (∀ i, i < ColumnMajor.size sample7x2 →
        ms.elem i 0 = ArithOp.add.apply (sample7x2.elem i 0) ((fun i => 100 + (i : Int)) i) ∧
        md.elem i 0 = ArithOp.add.apply (sample7x2.elem i 0) ((fun i => 100 + (i : Int)) i) ∧
        ms.elem i 0 = md.elem i 0) ∧
      (∀ i j, j ≠ 0 → ms.elem i j = sample7x2.elem i j ∧ md.elem i j = sample7x2.elem i j)) ∧
    (ColumnMajor.simdKernel ArithOp.add smallConfig generalTraits 0
        (plainVector 7 fun i => 100 + (i : Int)) sample7x2).map (fun m' => m'.columnList 0)
      = some [100, 111, 122, 133, 144, 155, 166] ∧
    (ColumnMajor.defaultKernel ArithOp.add 0
        (plainVector 7 fun i => 100 + (i : Int)) sample7x2).map (fun m' => m'.columnList 0)
      = some [100, 111, 122, 133, 144, 155, 166] :=
  ⟨C20_simd_compound_equals_default ArithOp.add smallConfig generalTraits 0 2
    (plainVector 7 fun i => 100 + (i : Int)) (fun i => 100 + (i : Int)) sample7x2
    rfl (by decide) rfl (fun _ _ => rfl), by decide, by decide⟩

/-! ### The view on a symmetric matrix presents the same vector -/

/-- C21: for a symmetric matrix `M` (square, `M(i,j) = M(j,i)`), an in-range column index
`c` and an index `i < size()`, the subscript of the symmetric specialisation of the column
view, which accesses `M(c,i)`, yields the same element value as the subscript of the general
row-major specialisation, which accesses `M(i,c)`; both specialisations report the same
`size()`, and the checked access `at(i)` of either returns its subscript. -/
theorem C21_symmetric_view_same_vector {α : Type} (M : DenseMatrix α) (c i : Nat)
    (hsym : M.IsSymmetric) (hc : c < M.columns) (hi : i < Symmetric.size M) :
    (Symmetric.subscript c i).read M = (RowMajor.subscript c i).read M ∧
    (Symmetric.subscript c i).read M = M.elem c i ∧
    (RowMajor.subscript c i).read M = M.elem i c ∧
    Symmetric.size M = RowMajor.size M ∧
    Symmetric.atIndex M c i = Outcome.value (Symmetric.subscript c i) ∧
    RowMajor.atIndex M c i = Outcome.value (RowMajor.subscript c i) := by
  obtain ⟨hsq, hel⟩ := hsym
  have hi' : i < M.rows := hi
  refine ⟨?_, rfl, rfl, rfl, ?_, ?_⟩
  · show M.elem c i = M.elem i c
    exact hel c (by omega) i (by omega)
  · simp [Symmetric.atIndex, Symmetric.size, Nat.not_le.mpr hi']
  · simp [RowMajor.atIndex, RowMajor.size, Nat.not_le.mpr hi']

/-- C21, on the symmetric matrix with rows `(1, 2)` and `(2, 3)`, column `1`, index `0`:
both specialisations read the value `2`. -/
theorem C21_symmetric_view_same_vector_witness :
    ((Symmetric.subscript 1 0).read symmetric2x2 = (RowMajor.subscript 1 0).read symmetric2x2 ∧
    (Symmetric.subscript 1 0).read symmetric2x2 = symmetric2x2.elem 1 0 ∧
    (RowMajor.subscript 1 0).read symmetric2x2 = symmetric2x2.elem 0 1 ∧
    Symmetric.size symmetric2x2 = RowMajor.size symmetric2x2 ∧
    Symmetric.atIndex symmetric2x2 1 0 = Outcome.value (Symmetric.subscript 1 0) ∧
    RowMajor.atIndex symmetric2x2 1 0 = Outcome.value (RowMajor.subscript 1 0)) ∧
    (Symmetric.subscript 1 0).read symmetric2x2 = 2 :=
  ⟨C21_symmetric_view_same_vector symmetric2x2 1 0
      (by unfold DenseMatrix.IsSymmetric; decide) (by decide) (by decide), by decide⟩

/-! ### `HasClamp` and `HasInvSqrt` -/

theorem hasClamp_innermost (env : OperationEnv) (T : MathType) :
    HasClamp env T = env.clampExists T.innermost := by
  induction T with
  | vector id X ih => simpa [HasClamp, MathType.innermost] using ih
  | matrix id X ih => simpa [HasClamp, MathType.innermost] using ih
  | other id => simp [HasClamp, HasClampHelper, MathType.innermost]

theorem hasInvSqrt_innermost (env : OperationEnv) (T : MathType) :
    HasInvSqrt env T = env.invsqrtExists T.innermost := by
  induction T with
  | vector id X ih => simpa [HasInvSqrt, MathType.innermost] using ih
  | matrix id X ih => simpa [HasInvSqrt, MathType.innermost] using ih
  | other id => simp [HasInvSqrt, HasInvSqrtHelper, MathType.innermost]

/-- C22: for a vector type and for a matrix type with element type `X`, `HasClamp` and
`HasInvSqrt` have the value they have for `X`; for a type that is neither a vector nor a
matrix the value is `true` exactly if the operation `clamp( T, T, T )`, respectively
`invsqrt( T )`, exists, so it is `false` for a type without the operation.  Through any
nesting of vectors and matrices the value is the one of the innermost element type. -/
theorem C22_elementwise_traits_defer_to_element (env : OperationEnv) (id : Nat)
    (X : MathType) :
    HasClamp env (MathType.vector id X) = HasClamp env X ∧
    HasClamp env (MathType.matrix id X) = HasClamp env X ∧
    HasInvSqrt env (MathType.vector id X) = HasInvSqrt env X ∧
    HasInvSqrt env (MathType.matrix id X) = HasInvSqrt env X ∧
    (IsVector (MathType.other id) = false ∧ IsMatrix (MathType.other id) = false) ∧
    (HasClamp env (MathType.other id) = true ↔ env.clampExists (MathType.other id) = true) ∧
    (HasInvSqrt env (MathType.other id) = true ↔
      env.invsqrtExists (MathType.other id) = true) ∧
    (HasClamp env (MathType.other id) = false ↔ env.clampExists (MathType.other id) = false) ∧
    (HasInvSqrt env (MathType.other id) = false ↔
      env.invsqrtExists (MathType.other id) = false) ∧
    HasClamp env X = env.clampExists X.innermost ∧
    HasInvSqrt env X = env.invsqrtExists X.innermost := by
  refine ⟨rfl, rfl, rfl, rfl, ⟨rfl, rfl⟩, ?_, ?_, ?_, ?_, hasClamp_innermost env X,
    hasInvSqrt_innermost env X⟩
  · simp [HasClamp, HasClampHelper]
  · simp [HasInvSqrt, HasInvSqrtHelper]
  · simp [HasClamp, HasClampHelper]
  · simp [HasInvSqrt, HasInvSqrtHelper]

/-! ### `Or` -/

theorem orHelper_eq_any (T : Bool) (Ts : List Bool) :
    Mpl.OrHelper T Ts = (T :: Ts).any id := by
  induction Ts generalizing T with
  | nil => simp [Mpl.OrHelper]
  | cons U Us ih => rw [Mpl.OrHelper, ih U]; simp

/-- C23: for operands `T1, T2, Ts...` (two or more), `Or<T1,T2,Ts...>::value` is `true`
exactly if the member `value` of at least one operand is `true`; it equals the disjunction of
all operands, and any reordering of the operands gives the same value. -/
theorem C23_or_is_disjunction (T1 T2 : Bool) (Ts : List Bool) :
    (Mpl.Or T1 T2 Ts = true ↔ ∃ T ∈ T1 :: T2 :: Ts, T = true) ∧
    Mpl.Or T1 T2 Ts = (T1 :: T2 :: Ts).any id ∧
    (∀ U1 U2 Us, List.Perm (U1 :: U2 :: Us) (T1 :: T2 :: Ts) →
      Mpl.Or U1 U2 Us = Mpl.Or T1 T2 Ts) := by
  have hany : ∀ (A B : Bool) (Cs : List Bool),
      (Mpl.Or A B Cs = true ↔ ∃ T ∈ A :: B :: Cs, T = true) := by
    intro A B Cs
    rw [Mpl.Or, orHelper_eq_any, List.any_eq_true]
    simp
  refine ⟨hany T1 T2 Ts, by rw [Mpl.Or, orHelper_eq_any], ?_⟩
  intro U1 U2 Us hp
  rw [Bool.eq_iff_iff, hany, hany]
  constructor
  · rintro ⟨T, hT, h⟩
    exact ⟨T, hp.mem_iff.mp hT, h⟩
  · rintro ⟨T, hT, h⟩
    exact ⟨T, hp.mem_iff.mpr hT, h⟩

/-! ### `Minus` -/

theorem constantDifference_spec (A B : Builtin) (a b : ℤ) :
    constantDifference A B a b =
      if (usualArithmeticConversion A B).isSignedIntegral = true then
        (if (usualArithmeticConversion A B).represents (a - b) = true then
          some (usualArithmeticConversion A B, a - b) else none)
      else some (usualArithmeticConversion A B,
        (a - b) % 2 ^ (usualArithmeticConversion A B).width) := by
  unfold constantDifference Builtin.convert
  by_cases h : (usualArithmeticConversion A B).isSignedIntegral = true
  · simp [h]
  · simp only [h, if_false, Bool.false_eq_true]
    rw [← Int.sub_emod]

theorem usualArithmeticConversion_promoted (A B : Builtin) (hA : A.isIntegral = true)
    (hB : B.isIntegral = true) :
    usualArithmeticConversion A B = Builtin.int ∨
    usualArithmeticConversion A B = Builtin.unsignedInt ∨
    usualArithmeticConversion A B = Builtin.long ∨
    usualArithmeticConversion A B = Builtin.unsignedLong ∨
    usualArithmeticConversion A B = Builtin.longLong ∨
    usualArithmeticConversion A B = Builtin.unsignedLongLong := by
  cases A <;> cases B <;>
    first
      | decide
      | (exfalso; revert hA; decide)
      | (exfalso; revert hB; decide)

theorem minus_distinct_types (V1 V2 : Builtin) (a b : ℤ) (h1 : V1.isIntegral = true)
    (h2 : V2.isIntegral = true) (hne : V1 ≠ V2) :
    Mpl.Minus ⟨V1, a⟩ ⟨V2, b⟩ =
      if (CommonType V1 V2).isSignedIntegral = false ∧ 32 ≤ (CommonType V1 V2).width then
        some ⟨CommonType V1 V2, differenceIn (CommonType V1 V2) a b⟩
      else if (CommonType V1 V2).represents (a - b) = true then
        some ⟨CommonType V1 V2, a - b⟩
      else none := by
  have hC : CommonType V1 V2 = usualArithmeticConversion V1 V2 := by simp [CommonType, hne]
  unfold Mpl.Minus
  rw [constantDifference_spec]
  dsimp only
  rw [hC]
  rcases usualArithmeticConversion_promoted V1 V2 h1 h2 with h | h | h | h | h | h <;>
    rw [h] <;>
    simp [Builtin.isSignedIntegral, Builtin.width, Builtin.represents, Builtin.minValue,
      Builtin.maxValue, IntegralConstant.instantiate, differenceIn] <;>
    (try split_ifs) <;> (try simp) <;> (try omega)

theorem minus_identical_types (V : Builtin) (a b : ℤ) (h1 : V.isIntegral = true)
    (hv1 : V.represents a = true) (hv2 : V.represents b = true) :
    Mpl.Minus ⟨V, a⟩ ⟨V, b⟩ =
      if (CommonType V V).isSignedIntegral = false ∧ 32 ≤ (CommonType V V).width then
        some ⟨CommonType V V, differenceIn (CommonType V V) a b⟩
      else if (CommonType V V).represents (a - b) = true then
        some ⟨CommonType V V, a - b⟩
      else none := by
  have hC : CommonType V V = V := by simp [CommonType]
  unfold Mpl.Minus
  rw [constantDifference_spec]
  dsimp only
  rw [hC]
  cases V <;>
    simp [usualArithmeticConversion, integralPromotion, Builtin.isSignedIntegral,
      Builtin.width, Builtin.represents, Builtin.minValue, Builtin.maxValue,
      IntegralConstant.instantiate, differenceIn, Builtin.isIntegral] at hv1 hv2 h1 ⊢ <;>
    (try split_ifs) <;> (try simp) <;> (try omega)

/-- C24 (counterexample): for two constants of the identical type `unsigned short` with the
values `3` and `5`, the common type is `unsigned short` and the difference computed in it,
wrapping modulo `2^16`, would be `65534`; but `T1::value - T2::value` is evaluated after
integral promotion in `int`, where it is `-2`, and `-2` is not a valid argument for a
template parameter of type `unsigned short`: the instantiation is ill-formed, `Minus` has no
member `value`. -/
theorem C24_identical_unsigned_short_does_not_wrap :
    Mpl.Minus { ValueType := Builtin.unsignedShort, value := 3 }
        { ValueType := Builtin.unsignedShort, value := 5 } = none ∧
    CommonType Builtin.unsignedShort Builtin.unsignedShort = Builtin.unsignedShort ∧
    differenceIn Builtin.unsignedShort 3 5 = 65534 ∧
    constantDifference Builtin.unsignedShort Builtin.unsignedShort 3 5
      = some (Builtin.int, -2) ∧
    IntegralConstant.instantiate Builtin.unsignedShort (-2) = none := by
  refine ⟨by decide, by decide, by decide, by decide, by decide⟩

/-- C24 (amended): for integral constants `T1`, `T2` whose values their types can represent,
with `C` the common type of the two value types: if `C` is an unsigned type of at least 32
bits the instantiation `Minus<T1,T2>` is well-formed and `value` is
`T1::value - T2::value` reduced modulo `2^w`; otherwise it is well-formed exactly if `C` can
represent `T1::value - T2::value`, and `value` is that difference.  Whenever it is
well-formed, `ValueType` is `C` and `value` is the difference computed in `C`.  The common
type of `long` and `int` is `long` in either order. -/
theorem C24_minus_value_and_type (T1 T2 : IntegralConstant)
    (h1 : T1.ValueType.isIntegral = true) (h2 : T2.ValueType.isIntegral = true)
    (hv1 : T1.ValueType.represents T1.value = true)
    (hv2 : T2.ValueType.represents T2.value = true) :
    (Mpl.Minus T1 T2 =
      if (CommonType T1.ValueType T2.ValueType).isSignedIntegral = false ∧
          32 ≤ (CommonType T1.ValueType T2.ValueType).width then
        some { ValueType := CommonType T1.ValueType T2.ValueType,
               value := differenceIn (CommonType T1.ValueType T2.ValueType) T1.value T2.value }
      else if (CommonType T1.ValueType T2.ValueType).represents (T1.value - T2.value) = true
      then some { ValueType := CommonType T1.ValueType T2.ValueType,
                  value := T1.value - T2.value }
      else none) ∧
    (∀ r, Mpl.Minus T1 T2 = some r →
      r.ValueType = CommonType T1.ValueType T2.ValueType ∧
      r.value = differenceIn (CommonType T1.ValueType T2.ValueType) T1.value T2.value) ∧
    CommonType Builtin.long Builtin.int = Builtin.long ∧
    CommonType Builtin.int Builtin.long = Builtin.long := by
  obtain ⟨V1, a⟩ := T1
  obtain ⟨V2, b⟩ := T2
  dsimp only at h1 h2 hv1 hv2 ⊢
  have key : Mpl.Minus ⟨V1, a⟩ ⟨V2, b⟩ =
      if (CommonType V1 V2).isSignedIntegral = false ∧ 32 ≤ (CommonType V1 V2).width then
        some ⟨CommonType V1 V2, differenceIn (CommonType V1 V2) a b⟩
      else if (CommonType V1 V2).represents (a - b) = true then
        some ⟨CommonType V1 V2, a - b⟩
      else none := by
    by_cases hEq : V1 = V2
    · subst hEq
      exact minus_identical_types V1 a b h1 hv1 hv2
    · exact minus_distinct_types V1 V2 a b h1 h2 hEq
  refine ⟨key, ?_, by decide, by decide⟩
  intro r hr
  rw [key] at hr
  by_cases hw : (CommonType V1 V2).isSignedIntegral = false ∧ 32 ≤ (CommonType V1 V2).width
  · rw [if_pos hw] at hr
    cases hr
    exact ⟨rfl, rfl⟩
  · rw [if_neg hw] at hr
    by_cases hrep : (CommonType V1 V2).represents (a - b) = true
    · rw [if_pos hrep] at hr
      cases hr
      refine ⟨rfl, ?_⟩
      show a - b = differenceIn (CommonType V1 V2) a b
      unfold differenceIn
      by_cases hs : (CommonType V1 V2).isSignedIntegral = true
      · rw [if_pos hs]
      · rw [if_neg hs]
        simp only [Builtin.represents, Builtin.minValue, Builtin.maxValue, hs,
          decide_eq_true_eq, if_false, Bool.false_eq_true] at hrep
        exact (Int.emod_eq_of_lt hrep.1 (by omega)).symm
    · rw [if_neg hrep] at hr
      cases hr

/-- C24, for `Long<3>` and `Int<2>`: the value is `1` and the value type is `long`. -/
theorem C24_minus_value_and_type_witness :
    ((Mpl.Minus (Mpl.Long 3) (Mpl.Int 2) =
      if (CommonType (Mpl.Long 3).ValueType (Mpl.Int 2).ValueType).isSignedIntegral = false ∧
          32 ≤ (CommonType (Mpl.Long 3).ValueType (Mpl.Int 2).ValueType).width then
        some { ValueType := CommonType (Mpl.Long 3).ValueType (Mpl.Int 2).ValueType,
               value := differenceIn (CommonType (Mpl.Long 3).ValueType (Mpl.Int 2).ValueType)
                 (Mpl.Long 3).value (Mpl.Int 2).value }
      else if (CommonType (Mpl.Long 3).ValueType (Mpl.Int 2).ValueType).represents
          ((Mpl.Long 3).value - (Mpl.Int 2).value) = true
      then some { ValueType := CommonType (Mpl.Long 3).ValueType (Mpl.Int 2).ValueType,
                  value := (Mpl.Long 3).value - (Mpl.Int 2).value }
      else none) ∧
    (∀ r, Mpl.Minus (Mpl.Long 3) (Mpl.Int 2) = some r →
      r.ValueType = CommonType (Mpl.Long 3).ValueType (Mpl.Int 2).ValueType ∧
      r.value = differenceIn (CommonType (Mpl.Long 3).ValueType (Mpl.Int 2).ValueType)
        (Mpl.Long 3).value (Mpl.Int 2).value) ∧
    CommonType Builtin.long Builtin.int = Builtin.long ∧
    CommonType Builtin.int Builtin.long = Builtin.long) ∧
    Mpl.Minus (Mpl.Long 3) (Mpl.Int 2) = some (Mpl.Long 1) ∧
    Mpl.Minus (Mpl.Int 3) (Mpl.Long 2) = some (Mpl.Long 1) :=
  ⟨C24_minus_value_and_type (Mpl.Long 3) (Mpl.Int 2) (by decide) (by decide) (by decide)
      (by decide), by decide, by decide⟩

/-- C25 (counterexample): `Minus< Int<3>, Int<2> >::value` is not `5`. -/
theorem C25_minus_example_is_not_five :
    Mpl.Minus (Mpl.Int 3) (Mpl.Int 2) ≠ some (Mpl.Int 5) ∧
    (Mpl.Minus (Mpl.Int 3) (Mpl.Int 2)).map (fun r => r.value) ≠ some 5 := by
  refine ⟨by decide, by decide⟩

/-- C25 (amended): `Minus< Int<3>, Int<2> >` is well-formed, its `value` is `3 - 2 = 1` and
its `ValueType` is `int`. -/
theorem C25_minus_example_is_one :
    Mpl.Minus (Mpl.Int 3) (Mpl.Int 2) = some (Mpl.Int 1) ∧
    (Mpl.Minus (Mpl.Int 3) (Mpl.Int 2)).map (fun r => r.value) = some 1 ∧
    (Mpl.Minus (Mpl.Int 3) (Mpl.Int 2)).map (fun r => r.ValueType) = some Builtin.int := by
  refine ⟨by decide, by decide, by decide⟩

/-! ### `TSMatScalarMultExprTrait` -/

theorem unqualified_not_qualified (MT ST : RefType) :
    TSMatScalarMultExprTrait.qualified MT.unqualified ST.unqualified = false := by
  simp [TSMatScalarMultExprTrait.qualified, RefType.unqualified, IsConst, IsVolatile,
    IsReference, QType.plain]

theorem removeQualifiers_unqualified (T : RefType) :
    (RemoveReference (RemoveCV T)).unqualified = T.unqualified := by
  obtain ⟨⟨b, c, v⟩, r⟩ := T
  cases r <;> simp [RemoveReference, RemoveCV, RefType.unqualified, QType.plain]

theorem not_qualified_eq_unqualified (MT ST : RefType)
    (h : TSMatScalarMultExprTrait.qualified MT ST = false) :
    MT = MT.unqualified ∧ ST = ST.unqualified := by
  obtain ⟨⟨b1, c1, v1⟩, r1⟩ := MT
  obtain ⟨⟨b2, c2, v2⟩, r2⟩ := ST
  revert h
  cases r1 <;> cases c1 <;> cases v1 <;> cases r2 <;> cases c2 <;> cases v2 <;>
    simp [TSMatScalarMultExprTrait.qualified, IsConst, IsVolatile, IsReference,
      RefType.unqualified, QType.plain]

theorem tsMatScalarMultExprTrait_eq (env : ExprTraitEnv) :
    ∀ (n : Nat) (MT ST : RefType), MT.weight + ST.weight = n →
      TSMatScalarMultExprTrait env MT ST =
        TSMatScalarMultExprTraitHelper env MT.unqualified ST.unqualified
          (TSMatScalarMultExprTrait.condition env MT.unqualified ST.unqualified) := by
  intro n
  induction n using Nat.strong_induction_on with
  | _ n ih =>
    intro MT ST hn
    rw [TSMatScalarMultExprTrait]
    by_cases hq : TSMatScalarMultExprTrait.qualified MT ST = true
    · rw [dif_pos hq]
      have hlt : (RemoveReference (RemoveCV MT)).weight + (RemoveReference (RemoveCV ST)).weight
          < n := by
        rw [← hn]
        obtain ⟨⟨b1, c1, v1⟩, r1⟩ := MT
        obtain ⟨⟨b2, c2, v2⟩, r2⟩ := ST
        revert hq
        cases r1 <;> cases c1 <;> cases v1 <;> cases r2 <;> cases c2 <;> cases v2 <;>
          simp [TSMatScalarMultExprTrait.qualified, IsConst, IsVolatile, IsReference, RemoveCV,
            RemoveReference, RefType.weight, QType.plain]
      rw [ih _ hlt _ _ rfl, removeQualifiers_unqualified, removeQualifiers_unqualified]
    · rw [dif_neg hq]
      simp only [Bool.not_eq_true] at hq
      obtain ⟨e1, e2⟩ := not_qualified_eq_unqualified MT ST hq
      rw [← e1, ← e2]

/-- C26: with `MT'` and `ST'` the arguments without their `const`, `volatile` and reference
qualifiers, `TSMatScalarMultExprTrait<MT,ST>::Type` is `INVALID_TYPE` exactly if `MT'` is not
a column-major sparse matrix type or `ST'` is not a numeric type; otherwise it is
`SMatScalarMultExpr<MT',ElementType,true>` with the `ElementType` the helper selects.
The qualifier-stripping recursion ends: the result for qualified arguments is the result for
their unqualified forms. -/
theorem C26_tsmat_scalar_mult_expr_trait (env : ExprTraitEnv) (MT ST : RefType) :
    (TSMatScalarMultExprTrait env MT ST = ExprType.invalid ↔
      (env.isSparseMatrix MT.unqualified && env.isColumnMajorMatrix MT.unqualified) = false ∨
        env.isNumeric ST.unqualified = false) ∧
    TSMatScalarMultExprTrait env MT ST =
      (if env.isSparseMatrix MT.unqualified && env.isColumnMajorMatrix MT.unqualified &&
          env.isNumeric ST.unqualified then
        ExprType.sMatScalarMultExpr MT.unqualified
          (TSMatScalarMultExprTraitHelper.ElementType env MT.unqualified ST.unqualified) true
      else ExprType.invalid) ∧
    TSMatScalarMultExprTrait env MT ST =
      TSMatScalarMultExprTrait env MT.unqualified ST.unqualified := by
  have h := tsMatScalarMultExprTrait_eq env _ MT ST rfl
  have h' := tsMatScalarMultExprTrait_eq env _ MT.unqualified ST.unqualified rfl
  have hu : ∀ T : RefType, T.unqualified.unqualified = T.unqualified := fun _ => rfl
  rw [hu, hu] at h'
  refine ⟨?_, ?_, by rw [h, h']⟩
  · rw [h]
    unfold TSMatScalarMultExprTraitHelper TSMatScalarMultExprTrait.condition
    cases env.isSparseMatrix MT.unqualified <;> cases env.isColumnMajorMatrix MT.unqualified <;>
      cases env.isNumeric ST.unqualified <;> simp
  · rw [h]
    rfl

/-! ### Assignment of a sparse vector -/

theorem sparseAssign_spec {α : Type} [Zero α] (column : Nat) (es : List (Nat × α)) :
    (es.map Prod.fst).Nodup → ∀ (m0 : DenseMatrix α),
      (es.foldl (fun acc e => acc.set e.1 column e.2) m0).rows = m0.rows ∧
      (es.foldl (fun acc e => acc.set e.1 column e.2) m0).columns = m0.columns ∧
      ∀ a b, (es.foldl (fun acc e => acc.set e.1 column e.2) m0).elem a b =
        if b = column ∧ a ∈ es.map Prod.fst then sparseLookup es a else m0.elem a b := by
  induction es with
  | nil => intro _ m0; simp
  | cons e es ih =>
    intro hnd m0
    simp only [List.map_cons, List.nodup_cons] at hnd
    obtain ⟨hnot, hnd'⟩ := hnd
    obtain ⟨h1, h2, h3⟩ := ih hnd' (m0.set e.1 column e.2)
    simp only [List.foldl_cons]
    refine ⟨h1, h2, ?_⟩
    intro a b
    rw [h3]
    by_cases hb : b = column
    · by_cases ha : a = e.1
      · subst ha
        simp [hb, hnot, DenseMatrix.set, sparseLookup]
      · have hne : ¬ (e.1 = a) := fun h => ha h.symm
        by_cases hin : a ∈ es.map Prod.fst
        · simp [hb, ha, hin, sparseLookup, List.find?_cons, hne]
        · simp [hb, ha, hin, DenseMatrix.set]
    · simp [hb, DenseMatrix.set]

theorem sparseLookup_absent {α : Type} [Zero α] (es : List (Nat × α)) (a : Nat)
    (h : a ∉ es.map Prod.fst) : sparseLookup es a = 0 := by
  induction es with
  | nil => simp [sparseLookup]
  | cons e es ih =>
    simp only [List.map_cons, List.mem_cons, not_or] at h
    have hne : ¬ (e.1 = a) := fun h' => h.1 h'.symm
    have hbeq : (e.1 == a) = false := by simpa using hne
    have ih' := ih h.2
    unfold sparseLookup at ih' ⊢
    rw [List.find?_cons, hbeq]
    exact ih'

/-- For a sparse source that cannot alias an unrestricted matrix, whose stored elements do not
depend on the matrix and have pairwise distinct indices, `operator=` of the column-major view resets the column and
assigns the stored elements: afterwards every element of the column equals the
corresponding element of the source, and the other columns are unchanged. -/
theorem columnMajor_assign_sparse_direct {α : Type} [Zero α] (cfg : KernelConfig)
    (t : MatrixTraits) (column : Nat) (rhs : VecExpr α) (m : DenseMatrix α)
    (hunrestricted : t.isRestricted = false)
    (hsize : rhs.size = ColumnMajor.size m) (hs : rhs.traits.isSparse = true)
    (halias : rhs.canAlias = false)
    (hindep : ∀ m', rhs.entries m' = rhs.entries m)
    (hnd : ((rhs.entries m).map Prod.fst).Nodup) :
    ∃ m', ColumnMajor.operatorAssign cfg t (plainOps α) column rhs m = some (Signal.done, m') ∧
      m'.rows = m.rows ∧ m'.columns = m.columns ∧
      (∀ a, a < m.rows → m'.elem a column = rhs.value m a) ∧
      ∀ a b, b ≠ column → m'.elem a b = m.elem a b := by
  have hsz : ColumnMajor.size m = rhs.size := hsize.symm
  have href : isReferenceRight t rhs.traits = true := by simp [isReferenceRight, hunrestricted]
  have hb : bindRight t rhs m = rhs := by simp [bindRight, href]
  obtain ⟨h1, h2, h3⟩ := sparseAssign_spec column (rhs.entries ((plainOps α).reset m column))
    (by rw [hindep]; exact hnd) ((plainOps α).reset m column)
  have hval : ∀ a, rhs.value ((plainOps α).reset m column) a = rhs.value m a := by
    intro a
    simp only [VecExpr.value, hs, if_true, hindep ((plainOps α).reset m column)]
  refine ⟨ColumnMajor.assignSparse column rhs ((plainOps α).reset m column), ?_, h1, h2, ?_, ?_⟩
  · unfold ColumnMajor.operatorAssign
    simp only [hsz, ne_eq, not_true_eq_false, if_false, hb, href, halias, hs, if_true]
    simp [plainOps, ColumnMajor.smpAssign, hs, finish]
  · intro a ha
    rw [← hval a]
    show (sparseLoop (fun _ r => r) column rhs ((plainOps α).reset m column)).elem a column = _
    unfold sparseLoop
    rw [h3]
    by_cases hin : a ∈ (rhs.entries ((plainOps α).reset m column)).map Prod.fst
    · simp only [hin, and_self, if_true, VecExpr.value, hs]
    · simp only [hin, and_false, if_false, VecExpr.value, hs, if_true]
      rw [sparseLookup_absent _ _ hin]
      simp [plainOps, ha]
  · intro a b hb'
    show (sparseLoop (fun _ r => r) column rhs ((plainOps α).reset m column)).elem a b = _
    unfold sparseLoop
    rw [h3]
    simp [hb', plainOps]

/-- C27: on the column-major view, `column(A,0) = column(A,2) * sv` for the `3×3` matrix `A`
with rows `(1,2,3)`, `(4,5,6)`, `(7,8,9)` and a sparse `sv` storing `1` at index `1`.  The
source is a sparse vector with the elements `(0, 6, 0)` that can alias `A`, so it is first
evaluated into a temporary; the temporary is sparse and is assigned without a reset of the
column, so the rows `0` and `2` keep their old values: the column becomes `(1, 6, 7)`, not
`(0, 6, 0)`.  The sparse vector with the same elements that cannot alias `A` is assigned
correctly, and so is the aliasing source by the row-major view. -/
theorem C27_aliased_sparse_assign_skips_reset :
    (ColumnMajor.operatorAssign scalarConfig generalTraits (plainOps Int) 0
        aliasedSparseColumn sample3x3).map (fun r => (r.1, r.2.columnList 0))
      = some (Signal.done, [1, 6, 7]) ∧
    (List.range 3).map (fun i => aliasedSparseColumn.value sample3x3 i) = [0, 6, 0] ∧
    aliasedSparseColumn.canAlias = true ∧ aliasedSparseColumn.traits.isSparse = true ∧
    aliasedSparseColumn.size = ColumnMajor.size sample3x3 ∧
    (ColumnMajor.operatorAssign scalarConfig generalTraits (plainOps Int) 0
        (sparseVector 3 [(1, 6)]) sample3x3).map (fun r => (r.1, r.2.columnList 0))
      = some (Signal.done, [0, 6, 0]) ∧
    (RowMajor.operatorAssign generalTraits (plainOps Int) 0
        aliasedSparseColumn sample3x3).map (fun r => (r.1, r.2.columnList 0))
      = some (Signal.done, [0, 6, 0]) := by
  refine ⟨by decide, by decide, rfl, rfl, rfl, by decide, by decide⟩

/-! ### Copy assignment of column views -/

theorem whileLoop_congr {σ : Type} (cond : σ → Bool) (b1 b2 : σ → σ) (inv : σ → Prop)
    (h : ∀ s, inv s → cond s = true → b1 s = b2 s ∧ inv (b2 s)) :
    ∀ (fuel : Nat) (s : σ), inv s →
      whileLoop cond b1 fuel s = whileLoop cond b2 fuel s ∧
      ∀ s', whileLoop cond b2 fuel s = some s' → inv s' := by
  intro fuel
  induction fuel with
  | zero => intro s _; simp [whileLoop]
  | succ n ih =>
    intro s hs
    by_cases hc : cond s = true
    · obtain ⟨e, hi⟩ := h s hs hc
      obtain ⟨e', hp⟩ := ih (b2 s) hi
      simp only [whileLoop, hc, if_true, e]
      exact ⟨e', hp⟩
    · have w1 : whileLoop cond b1 (n + 1) s = some s := by simp [whileLoop, hc]
      have w2 : whileLoop cond b2 (n + 1) s = some s := by simp [whileLoop, hc]
      rw [w1, w2]
      refine ⟨rfl, ?_⟩
      intro s' hs'
      cases hs'
      exact hs

theorem kernelInv_reach {α : Type} (op : α → α → α) (column : Nat) (v : Nat → α)
    (m0 : DenseMatrix α) (s : KernelState α) (h : KernelInv op column v m0 s) :
    KernelReach op column v m0 s.matrix :=
  ⟨s.left, h.2.2.2⟩

theorem simdBatch_congr {α : Type} (op : α → α → α) (S column : Nat) (rhs : VecExpr α)
    (v : Nat → α) (m0 : DenseMatrix α)
    (hv : ∀ m' i, KernelReach op column v m0 m' → rhs.elem m' i = v i)
    (s : KernelState α) (h : KernelInv op column v m0 s) :
    simdBatch op S column rhs s = simdBatch op S column (rhs.frozen v) s := by
  have hr := kernelInv_reach op column v m0 s h
  simp only [simdBatch, loadRight, VecExpr.frozen, hv _ _ hr]

theorem scalarStep_congr {α : Type} (op : α → α → α) (column : Nat) (rhs : VecExpr α)
    (v : Nat → α) (m0 : DenseMatrix α)
    (hv : ∀ m' i, KernelReach op column v m0 m' → rhs.elem m' i = v i)
    (s : KernelState α) (h : KernelInv op column v m0 s) :
    scalarStep op column rhs s = scalarStep op column (rhs.frozen v) s := by
  have hr := kernelInv_reach op column v m0 s h
  simp only [scalarStep, VecExpr.frozen, hv _ _ hr]

theorem unrolledLoop_congr {α : Type} (op : α → α → α) (S column ipos : Nat)
    (rhs : VecExpr α) (v : Nat → α) (m0 : DenseMatrix α)
    (hv : ∀ m' i, KernelReach op column v m0 m' → rhs.elem m' i = v i)
    (fuel : Nat) (s : KernelState α) (h : KernelInv op column v m0 s) :
    unrolledLoop op S column ipos rhs fuel s =
        unrolledLoop op S column ipos (rhs.frozen v) fuel s ∧
      ∀ s', unrolledLoop op S column ipos (rhs.frozen v) fuel s = some s' →
        KernelInv op column v m0 s' := by
  have hf : ∀ m' i, (rhs.frozen v).elem m' i = v i := fun _ _ => rfl
  refine whileLoop_congr _ _ _ (fun s => KernelInv op column v m0 s) ?_ fuel s h
  intro s hk _
  obtain ⟨k1, _, _⟩ := simdBatch_inv op S column (rhs.frozen v) v m0 hf s hk
  obtain ⟨k2, _, _⟩ := simdBatch_inv op S column (rhs.frozen v) v m0 hf _ k1
  obtain ⟨k3, _, _⟩ := simdBatch_inv op S column (rhs.frozen v) v m0 hf _ k2
  obtain ⟨k4, _, _⟩ := simdBatch_inv op S column (rhs.frozen v) v m0 hf _ k3
  have e1 := simdBatch_congr op S column rhs v m0 hv s hk
  have e2 := simdBatch_congr op S column rhs v m0 hv _ k1
  have e3 := simdBatch_congr op S column rhs v m0 hv _ k2
  have e4 := simdBatch_congr op S column rhs v m0 hv _ k3
  refine ⟨?_, ?_⟩
  · dsimp only
    rw [e1, e2, e3, e4]
  · obtain ⟨a, b, c, d⟩ := k4
    exact ⟨a, b, c, d⟩

theorem batchLoop_congr {α : Type} (op : α → α → α) (S column ipos : Nat)
    (rhs : VecExpr α) (v : Nat → α) (m0 : DenseMatrix α)
    (hv : ∀ m' i, KernelReach op column v m0 m' → rhs.elem m' i = v i)
    (fuel : Nat) (s : KernelState α) (h : KernelInv op column v m0 s) :
    batchLoop op S column ipos rhs fuel s =
        batchLoop op S column ipos (rhs.frozen v) fuel s ∧
      ∀ s', batchLoop op S column ipos (rhs.frozen v) fuel s = some s' →
        KernelInv op column v m0 s' := by
  have hf : ∀ m' i, (rhs.frozen v).elem m' i = v i := fun _ _ => rfl
  refine whileLoop_congr _ _ _ (fun s => KernelInv op column v m0 s) ?_ fuel s h
  intro s hk _
  obtain ⟨k1, _, _⟩ := simdBatch_inv op S column (rhs.frozen v) v m0 hf s hk
  have e1 := simdBatch_congr op S column rhs v m0 hv s hk
  refine ⟨?_, ?_⟩
  · dsimp only
    rw [e1]
  · obtain ⟨a, b, c, d⟩ := k1
    exact ⟨a, b, c, d⟩

theorem remainderLoop_congr {α : Type} (op : α → α → α) (remainder : Bool)
    (column rows : Nat) (rhs : VecExpr α) (v : Nat → α) (m0 : DenseMatrix α)
    (hv : ∀ m' i, KernelReach op column v m0 m' → rhs.elem m' i = v i)
    (fuel : Nat) (s : KernelState α) (h : KernelInv op column v m0 s) :
    remainderLoop op remainder column rows rhs fuel s =
        remainderLoop op remainder column rows (rhs.frozen v) fuel s ∧
      ∀ s', remainderLoop op remainder column rows (rhs.frozen v) fuel s = some s' →
        KernelInv op column v m0 s' := by
  have hf : ∀ m' i, (rhs.frozen v).elem m' i = v i := fun _ _ => rfl
  refine whileLoop_congr _ _ _ (fun s => KernelInv op column v m0 s) ?_ fuel s h
  intro s hk _
  obtain ⟨k1, _, _⟩ := scalarStep_inv op column (rhs.frozen v) v m0 hf s hk
  have e1 := scalarStep_congr op column rhs v m0 hv s hk
  refine ⟨?_, ?_⟩
  · dsimp only
    rw [e1]
  · obtain ⟨a, b, c, d⟩ := k1
    exact ⟨a, b, c, d⟩

/-- A right-hand side whose elements, on every matrix the kernel can leave behind, are the
fixed values `v` is processed by the unrolled loop shape like the vector of the values `v`. -/
theorem simdLoops_congr {α : Type} (op : α → α → α) (remainder : Bool)
    (S column rows ipos : Nat) (rhs : VecExpr α) (v : Nat → α) (m0 : DenseMatrix α)
    (hv : ∀ m' i, KernelReach op column v m0 m' → rhs.elem m' i = v i) :
    simdLoops op remainder S column rows ipos rhs m0 =
      simdLoops op remainder S column rows ipos (rhs.frozen v) m0 := by
  unfold simdLoops
  obtain ⟨e1, p1⟩ := unrolledLoop_congr op S column ipos rhs v m0 hv (rows + 1) _
    (kernelInv_init op column v m0)
  rw [e1]
  cases h1 : unrolledLoop op S column ipos (rhs.frozen v) (rows + 1)
      { i := 0, left := 0, right := 0, matrix := m0 } with
  | none => rfl
  | some s1 =>
    obtain ⟨e2, p2⟩ := batchLoop_congr op S column ipos rhs v m0 hv (rows + 1) s1 (p1 s1 h1)
    simp only [Option.some_bind]
    rw [e2]
    cases h2 : batchLoop op S column ipos (rhs.frozen v) (rows + 1) s1 with
    | none => rfl
    | some s2 =>
      obtain ⟨e3, _⟩ := remainderLoop_congr op remainder column rows rhs v m0 hv (rows + 1) s2
        (p2 s2 h2)
      simp only [Option.some_bind]
      rw [e3]

theorem streamLoops_congr {α : Type} (remainder : Bool)
    (S column rows ipos : Nat) (rhs : VecExpr α) (v : Nat → α) (m0 : DenseMatrix α)
    (hv : ∀ m' i, KernelReach (fun _ r => r) column v m0 m' → rhs.elem m' i = v i) :
    streamLoops remainder S column rows ipos rhs m0 =
      streamLoops remainder S column rows ipos (rhs.frozen v) m0 := by
  unfold streamLoops
  obtain ⟨e2, p2⟩ := batchLoop_congr (fun _ r => r) S column ipos rhs v m0 hv (rows + 1) _
    (kernelInv_init _ column v m0)
  rw [e2]
  cases h2 : batchLoop (fun _ r => r) S column ipos (rhs.frozen v) (rows + 1)
      { i := 0, left := 0, right := 0, matrix := m0 } with
  | none => rfl
  | some s2 =>
    obtain ⟨e3, _⟩ := remainderLoop_congr (fun _ r => r) remainder column rows rhs v m0 hv
      (rows + 1) s2 (p2 s2 h2)
    simp only [Option.some_bind]
    rw [e3]

theorem set_next_row {α : Type} (op : α → α → α) (column : Nat) (v : Nat → α)
    (m0 mm : DenseMatrix α) (i : Nat)
    (he : ∀ a b, mm.elem a b =
      if b = column ∧ a < i then op (m0.elem a column) (v a) else m0.elem a b) :
    ∀ a b, (mm.set i column (op (mm.elem i column) (v i))).elem a b =
      if b = column ∧ a < i + 1 then op (m0.elem a column) (v a) else m0.elem a b := by
  intro a b
  simp only [DenseMatrix.set, he]
  by_cases hb : b = column
  · by_cases ha1 : a = i
    · simp [hb, ha1]
    · by_cases ha3 : a < i
      · have : a < i + 1 := by omega
        simp [hb, ha1, ha3, this]
      · have : ¬ a < i + 1 := by omega
        simp [hb, ha1, ha3, this]
  · simp [hb]

/-- A right-hand side whose elements, on every matrix the kernel can leave behind, are the
fixed values `v` is processed by the default loop shape like the vector of the values `v`. -/
theorem defaultLoops_congr {α : Type} (op : α → α → α) (column : Nat) (rhs : VecExpr α)
    (v : Nat → α) (m0 : DenseMatrix α)
    (hv : ∀ m' i, KernelReach op column v m0 m' → rhs.elem m' i = v i)
    (hsize : rhs.size + 2 ≤ 18446744073709551616) :
    defaultLoops op column rhs m0 = defaultLoops op column (rhs.frozen v) m0 := by
  have hmask : Nat.land rhs.size (sizeTNeg 2) = rhs.size - rhs.size % 2 := by
    have := simdMask rhs.size 1 (by decide) (by omega)
    simpa using this
  obtain ⟨e, p⟩ := whileLoop_congr
    (fun s : Nat × DenseMatrix α => decide (s.1 < Nat.land rhs.size (sizeTNeg 2)))
    (fun s =>
      let m1 := s.2.set s.1 column (op (s.2.elem s.1 column) (rhs.elem s.2 s.1))
      let j := sizeT (s.1 + 1)
      let m2 := m1.set j column (op (m1.elem j column) (rhs.elem m1 j))
      (sizeT (s.1 + 2), m2))
    (fun s =>
      let m1 := s.2.set s.1 column (op (s.2.elem s.1 column) ((rhs.frozen v).elem s.2 s.1))
      let j := sizeT (s.1 + 1)
      let m2 := m1.set j column (op (m1.elem j column) ((rhs.frozen v).elem m1 j))
      (sizeT (s.1 + 2), m2))
    (fun s => ∀ a b, s.2.elem a b =
        if b = column ∧ a < s.1 then op (m0.elem a column) (v a) else m0.elem a b)
    (by
      rintro ⟨i, mm⟩ he hcond
      simp only [decide_eq_true_eq, hmask] at hcond
      have hw1 : sizeT (i + 1) = i + 1 := by simp only [sizeT]; omega
      have hw2 : sizeT (i + 2) = i + 2 := by simp only [sizeT]; omega
      dsimp only at he ⊢
      have e1 : rhs.elem mm i = v i := hv mm i ⟨i, he⟩
      have hm1 := set_next_row op column v m0 mm i he
      have e2 : rhs.elem (mm.set i column (op (mm.elem i column) (v i))) (i + 1) = v (i + 1) :=
        hv _ _ ⟨i + 1, hm1⟩
      have hm2 := set_next_row op column v m0 _ (i + 1) hm1
      have f1 : ∀ (m' : DenseMatrix α) (k : Nat), (rhs.frozen v).elem m' k = v k :=
        fun _ _ => rfl
      rw [hw1, hw2, e1, e2, f1, f1]
      exact ⟨rfl, hm2⟩)
    (rhs.size + 1) (0, m0) (by intro a b; simp)
  unfold defaultLoops
  dsimp only
  have hsz : (rhs.frozen v).size = rhs.size := rfl
  rw [hsz, e]
  cases h : whileLoop
      (fun s : Nat × DenseMatrix α => decide (s.1 < Nat.land rhs.size (sizeTNeg 2)))
      (fun s =>
        let m1 := s.2.set s.1 column (op (s.2.elem s.1 column) ((rhs.frozen v).elem s.2 s.1))
        let j := sizeT (s.1 + 1)
        let m2 := m1.set j column (op (m1.elem j column) ((rhs.frozen v).elem m1 j))
        (sizeT (s.1 + 2), m2))
      (rhs.size + 1) (0, m0) with
  | none => rfl
  | some s =>
    have e3 : rhs.elem s.2 (Nat.land rhs.size (sizeTNeg 2)) =
        v (Nat.land rhs.size (sizeTNeg 2)) := hv _ _ ⟨s.1, p s h⟩
    simp only [Option.map_some', e3]
    rfl

/-- The serial `smpAssign` of the column-major view treats a dense right-hand side whose
elements, on every matrix the kernel can leave behind, are the fixed values `v` like the
vector of the values `v`. -/
theorem smpAssign_congr {α : Type} (cfg : KernelConfig) (t : MatrixTraits) (column : Nat)
    (rhs : VecExpr α) (v : Nat → α) (m0 : DenseMatrix α)
    (hv : ∀ m' i, KernelReach (fun _ r => r) column v m0 m' → rhs.elem m' i = v i)
    (hsize : rhs.size + 2 ≤ 18446744073709551616) :
    ColumnMajor.smpAssign cfg t column rhs m0 =
      ColumnMajor.smpAssign cfg t column (rhs.frozen v) m0 := by
  have ht : (rhs.frozen v).traits = rhs.traits := rfl
  unfold ColumnMajor.smpAssign
  rw [ht]
  by_cases hs : rhs.traits.isSparse = true
  · simp only [hs, if_true]
    rfl
  · simp only [hs, if_false, Bool.false_eq_true]
    by_cases hvec : ColumnMajor.vectorizedAssign cfg t rhs.traits = true
    · simp only [hvec, if_true, ColumnMajor.assignSIMD]
      have hst : ColumnMajor.streamingSelected cfg (ColumnMajor.size m0) (rhs.frozen v) =
          ColumnMajor.streamingSelected cfg (ColumnMajor.size m0) rhs := rfl
      rw [hst, ht]
      by_cases hstream : ColumnMajor.streamingSelected cfg (ColumnMajor.size m0) rhs = true
      · simp only [hstream, if_true]
        exact streamLoops_congr _ _ _ _ _ rhs v m0 hv
      · simp only [hstream, if_false, Bool.false_eq_true]
        exact simdLoops_congr _ _ _ _ _ _ rhs v m0 hv
    · simp only [hvec, if_false, Bool.false_eq_true, ColumnMajor.assignDefault]
      exact defaultLoops_congr _ column rhs v m0 hv hsize

/-- C28: for a general matrix `A` (every structural check passes), the copy assignment
`column(A,j) = column(A,k)` of two distinct view objects, in the column-major and in the
general row-major specialisation, assigns directly, completes, and leaves `A(i,j)` equal to
the previous `A(i,k)` for every row `i`, with all other columns unchanged; for `k = j` the
matrix is unchanged.  Assigning a view object to itself returns at once and leaves `A`
unchanged. -/
theorem C28_copy_assign_columns {α : Type} (cfg : KernelConfig) (t : MatrixTraits)
    (ops : MatrixOps α) (j k p : Nat) (rhs : VecExpr α) (A : DenseMatrix α)
    (hpow : cfg.SIMDSIZE = 2 ^ p)
    (hbound : A.rows + 4 * cfg.SIMDSIZE ≤ 18446744073709551616)
    (hgeneral : ∀ r, ops.tryAssign A r 0 j = true)
    (hd : rhs.traits.isSparse = false) (hsize : rhs.size = A.rows)
    (hel : ∀ m' i, rhs.elem m' i = m'.elem i k) :
    (∃ A', ColumnMajor.operatorCopyAssign cfg t ops j false rhs A = some (Signal.done, A') ∧
      A'.rows = A.rows ∧ A'.columns = A.columns ∧
      (∀ i, i < A.rows → A'.elem i j = A.elem i k) ∧
      (∀ i b, i < A.rows → b ≠ j → A'.elem i b = A.elem i b) ∧
      (k = j → ∀ i b, i < A.rows → A'.elem i b = A.elem i b)) ∧
    (∃ A', RowMajor.operatorCopyAssign ops j false rhs A = some (Signal.done, A') ∧
      A'.rows = A.rows ∧ A'.columns = A.columns ∧
      (∀ i, i < A.rows → A'.elem i j = A.elem i k) ∧
      (∀ i b, i < A.rows → b ≠ j → A'.elem i b = A.elem i b) ∧
      (k = j → ∀ i b, i < A.rows → A'.elem i b = A.elem i b)) ∧
    ColumnMajor.operatorCopyAssign cfg t ops j true rhs A = some (Signal.done, A) ∧
    RowMajor.operatorCopyAssign ops j true rhs A = some (Signal.done, A) := by
  have hS : 0 < cfg.SIMDSIZE := by rw [hpow]; exact Nat.pos_pow_of_pos _ (by decide)
  have hv : ∀ m' i, KernelReach (fun _ r => r) j (fun a => A.elem a k) A m' →
      rhs.elem m' i = (fun a => A.elem a k) i := by
    rintro m' i ⟨n, hn⟩
    rw [hel, hn]
    split_ifs with h
    · rfl
    · rfl
  have hfin : ∀ A' : DenseMatrix α,
      (∀ a b, a < A.rows → A'.elem a b = if b = j then A.elem a k else A.elem a b) →
      (∀ i, i < A.rows → A'.elem i j = A.elem i k) ∧
      (∀ i b, i < A.rows → b ≠ j → A'.elem i b = A.elem i b) ∧
      (k = j → ∀ i b, i < A.rows → A'.elem i b = A.elem i b) := by
    intro A' h
    refine ⟨?_, ?_, ?_⟩
    · intro i hi; rw [h i j hi]; simp
    · intro i b hi hb; rw [h i b hi]; simp [hb]
    · intro hkj i b hi
      rw [h i b hi]
      split_ifs with hb
      · rw [hb, hkj]
      · rfl
  have hsz1 : ColumnMajor.size A = rhs.size := hsize.symm
  have hsz2 : RowMajor.size A = rhs.size := hsize.symm
  refine ⟨?_, ?_, ?_, ?_⟩
  · obtain ⟨A', e, r, c, el⟩ := smpAssign_dense_spec cfg t j p
      (rhs.frozen fun a => A.elem a k) (fun a => A.elem a k) A hpow hbound hsize
      (fun _ _ => rfl) hd
    rw [← smpAssign_congr cfg t j rhs (fun a => A.elem a k) A hv (by omega)] at e
    refine ⟨A', ?_, r, c, hfin A' el⟩
    simp [ColumnMajor.operatorCopyAssign, hsz1, hgeneral, finish, e]
  · obtain ⟨A', e, r, c, el⟩ := defaultLoops_spec (fun _ r => r) j
      (rhs.frozen fun a => A.elem a k) (fun a => A.elem a k) A (fun _ _ => rfl)
      (by show rhs.size + 2 ≤ _; omega)
    rw [← defaultLoops_congr (fun _ r => r) j rhs (fun a => A.elem a k) A hv (by omega)] at e
    have hsf : (rhs.frozen fun a => A.elem a k).size = A.rows := hsize
    refine ⟨A', ?_, r, c, hfin A' ?_⟩
    · simp [RowMajor.operatorCopyAssign, hsz2, hgeneral, finish, RowMajor.smpAssign, hd,
        RowMajor.assignDense, e]
    · intro a b ha
      rw [el, hsf]
      simp [ha]
  · simp [ColumnMajor.operatorCopyAssign]
  · simp [RowMajor.operatorCopyAssign]

/-- C28, for `column(A,0) = column(A,1)` on a `4×4` matrix with elements `10*i + j`, with
packs of four elements: column `0` becomes `(1, 11, 21, 31)`. -/
theorem C28_copy_assign_columns_witness :
    ((∃ A', ColumnMajor.operatorCopyAssign smallConfig simdTraits (plainOps Int) 0 false
          (columnOf denseVectorTraits 1 4) sample4x4 = some (Signal.done, A') ∧
      A'.rows = sample4x4.rows ∧ A'.columns = sample4x4.columns ∧
      (∀ i, i < sample4x4.rows → A'.elem i 0 = sample4x4.elem i 1) ∧
      (∀ i b, i < sample4x4.rows → b ≠ 0 → A'.elem i b = sample4x4.elem i b) ∧
      (1 = 0 → ∀ i b, i < sample4x4.rows → A'.elem i b = sample4x4.elem i b)) ∧
    (∃ A', RowMajor.operatorCopyAssign (plainOps Int) 0 false
          (columnOf denseVectorTraits 1 4) sample4x4 = some (Signal.done, A') ∧
      A'.rows = sample4x4.rows ∧ A'.columns = sample4x4.columns ∧
      (∀ i, i < sample4x4.rows → A'.elem i 0 = sample4x4.elem i 1) ∧
      (∀ i b, i < sample4x4.rows → b ≠ 0 → A'.elem i b = sample4x4.elem i b) ∧
      (1 = 0 → ∀ i b, i < sample4x4.rows → A'.elem i b = sample4x4.elem i b)) ∧
    ColumnMajor.operatorCopyAssign smallConfig simdTraits (plainOps Int) 0 true
      (columnOf denseVectorTraits 1 4) sample4x4 = some (Signal.done, sample4x4) ∧
    RowMajor.operatorCopyAssign (plainOps Int) 0 true
      (columnOf denseVectorTraits 1 4) sample4x4 = some (Signal.done, sample4x4)) ∧
    (ColumnMajor.operatorCopyAssign smallConfig simdTraits (plainOps Int) 0 false
        (columnOf denseVectorTraits 1 4) sample4x4).map (fun r => (r.1, r.2.columnList 0))
      = some (Signal.done, [1, 11, 21, 31]) ∧
    (RowMajor.operatorCopyAssign (plainOps Int) 0 false
        (columnOf denseVectorTraits 1 4) sample4x4).map (fun r => (r.1, r.2.columnList 0))
      = some (Signal.done, [1, 11, 21, 31]) ∧
    (ColumnMajor.operatorCopyAssign smallConfig simdTraits (plainOps Int) 1 false
        (columnOf denseVectorTraits 1 4) sample4x4).map (fun r => (r.1, r.2.columnList 1))
      = some (Signal.done, [1, 11, 21, 31]) :=
  ⟨C28_copy_assign_columns smallConfig simdTraits (plainOps Int) 0 1 2
      (columnOf denseVectorTraits 1 4) sample4x4 rfl (by decide) (fun _ => rfl) rfl rfl
      (fun _ _ => rfl),
    by decide, by decide, by decide⟩

/-! ### The phases of the SIMD kernels -/

/-- A loop whose body preserves `inv`, advances the counter `c` by `d` and decreases the
measure `μ` finishes within any budget exceeding the measure; the number of its iterations
is the advance of the counter divided by `d`. -/
theorem loopTrace_spec {σ : Type} (cond : σ → Bool) (body : σ → σ) (inv : σ → Prop)
    (c : σ → Nat) (d : Nat) (μ : σ → Nat)
    (hstep : ∀ s, inv s → cond s = true →
      inv (body s) ∧ c (body s) = c s + d ∧ μ (body s) < μ s) :
    ∀ (fuel : Nat) (s : σ), inv s → μ s < fuel →
      ∃ s' n, whileLoop cond body fuel s = some s' ∧
        loopIterations cond body fuel s = some n ∧
        c s' = c s + n * d ∧ inv s' ∧ cond s' = false := by
  intro fuel
  induction fuel with
  | zero => intro s _ h; omega
  | succ k ih =>
    intro s hs hμ
    by_cases hc : cond s = true
    · obtain ⟨hi, hcd, hd⟩ := hstep s hs hc
      obtain ⟨s', n, h1, h2, h3, h4, h5⟩ := ih (body s) hi (by omega)
      refine ⟨s', n + 1, by simp [whileLoop, hc, h1], by simp [loopIterations, hc, h2], ?_,
        h4, h5⟩
      rw [h3, hcd, Nat.succ_mul]
      omega
    · refine ⟨s, 0, by simp [whileLoop, hc], by simp [loopIterations, hc], by simp, hs,
        by simpa using hc⟩

theorem unrolledLoop_trace {α : Type} (op : α → α → α) (S column rows ipos : Nat)
    (rhs : VecExpr α) (v : Nat → α) (m0 : DenseMatrix α)
    (hv : ∀ m' i, rhs.elem m' i = v i) (hS : 0 < S)
    (hbound : rows + 4 * S ≤ 18446744073709551616) (hipos : ipos ≤ rows) :
    ∃ s' n,
      unrolledLoop op S column ipos rhs (rows + 1)
        { i := 0, left := 0, right := 0, matrix := m0 } = some s' ∧
      unrolledIterations op S column ipos rhs (rows + 1)
        { i := 0, left := 0, right := 0, matrix := m0 } = some n ∧
      KernelInv op column v m0 s' ∧ s'.left = s'.i ∧ s'.i = n * (4 * S) ∧
      (s'.i = 0 ∨ s'.i < ipos + S) ∧ ipos ≤ s'.i + 3 * S := by
  obtain ⟨s', n, h1, h2, h3, ⟨k, l, b⟩, h5⟩ := loopTrace_spec
    (fun s : KernelState α => decide (sizeT (s.i + sizeT (S * 3)) < ipos))
    (fun s =>
      let s4 := simdBatch op S column rhs (simdBatch op S column rhs
        (simdBatch op S column rhs (simdBatch op S column rhs s)))
      { s4 with i := sizeT (s.i + sizeT (S * 4)) })
    (fun s => KernelInv op column v m0 s ∧ s.left = s.i ∧ (s.i = 0 ∨ s.i < ipos + S))
    (fun s => s.i) (4 * S) (fun s => ipos - s.i)
    (by
      rintro s ⟨hk, hl, hi⟩ hc
      simp only [decide_eq_true_eq, sizeT] at hc
      have hc' : s.i + S * 3 < ipos := by omega
      have hw : sizeT (s.i + sizeT (S * 4)) = s.i + 4 * S := by simp only [sizeT]; omega
      obtain ⟨k1, l1, _⟩ := simdBatch_inv op S column rhs v m0 hv s hk
      obtain ⟨k2, l2, _⟩ := simdBatch_inv op S column rhs v m0 hv _ k1
      obtain ⟨k3, l3, _⟩ := simdBatch_inv op S column rhs v m0 hv _ k2
      obtain ⟨k4, l4, _⟩ := simdBatch_inv op S column rhs v m0 hv _ k3
      refine ⟨⟨?_, ?_, ?_⟩, ?_, ?_⟩
      · exact k4
      · show (simdBatch op S column rhs _).left = sizeT (s.i + sizeT (S * 4))
        rw [hw, l4, l3, l2, l1, hl]; omega
      · show sizeT (s.i + sizeT (S * 4)) = 0 ∨ sizeT (s.i + sizeT (S * 4)) < ipos + S
        rw [hw]; right; omega
      · show sizeT (s.i + sizeT (S * 4)) = s.i + 4 * S
        exact hw
      · show ipos - sizeT (s.i + sizeT (S * 4)) < ipos - s.i
        rw [hw]; omega)
    (rows + 1) { i := 0, left := 0, right := 0, matrix := m0 }
    ⟨kernelInv_init op column v m0, rfl, Or.inl rfl⟩ (by show ipos - 0 < rows + 1; omega)
  refine ⟨s', n, h1, h2, k, l, by simpa using h3, b, ?_⟩
  simp only [decide_eq_false_iff_not, not_lt, sizeT] at h5
  omega

theorem batchLoop_trace {α : Type} (op : α → α → α) (S column rows ipos : Nat)
    (rhs : VecExpr α) (v : Nat → α) (m0 : DenseMatrix α)
    (hv : ∀ m' i, rhs.elem m' i = v i) (hS : 0 < S)
    (hbound : rows + 4 * S ≤ 18446744073709551616) (hipos : ipos ≤ rows)
    (s : KernelState α) (h : KernelInv op column v m0 s) (hl : s.left = s.i)
    (hi : s.i < ipos + S) :
    ∃ s' n, batchLoop op S column ipos rhs (rows + 1) s = some s' ∧
      batchIterations op S column ipos rhs (rows + 1) s = some n ∧
      KernelInv op column v m0 s' ∧ s'.left = s'.i ∧ s'.i = s.i + n * S ∧
      s'.i < ipos + S ∧ ipos ≤ s'.i := by
  obtain ⟨s', n, h1, h2, h3, ⟨k, l, b⟩, h5⟩ := loopTrace_spec
    (fun s : KernelState α => decide (s.i < ipos))
    (fun s => { simdBatch op S column rhs s with i := sizeT (s.i + S) })
    (fun s => KernelInv op column v m0 s ∧ s.left = s.i ∧ s.i < ipos + S)
    (fun s => s.i) S (fun s => ipos - s.i)
    (by
      rintro s ⟨hk, hl, hi⟩ hc
      simp only [decide_eq_true_eq] at hc
      have hw : sizeT (s.i + S) = s.i + S := by simp only [sizeT]; omega
      obtain ⟨k1, l1, _⟩ := simdBatch_inv op S column rhs v m0 hv s hk
      refine ⟨⟨?_, ?_, ?_⟩, ?_, ?_⟩
      · exact k1
      · show (simdBatch op S column rhs _).left = sizeT (s.i + S)
        rw [hw, l1, hl]
      · show sizeT (s.i + S) < ipos + S
        rw [hw]; omega
      · show sizeT (s.i + S) = s.i + S
        exact hw
      · show ipos - sizeT (s.i + S) < ipos - s.i
        rw [hw]; omega)
    (rows + 1) s ⟨h, hl, hi⟩ (by show ipos - s.i < rows + 1; omega)
  simp only [decide_eq_false_iff_not, not_lt] at h5
  exact ⟨s', n, h1, h2, k, l, h3, b, h5⟩

theorem remainderLoop_trace {α : Type} (op : α → α → α) (column rows : Nat)
    (rhs : VecExpr α) (v : Nat → α) (m0 : DenseMatrix α)
    (hv : ∀ m' i, rhs.elem m' i = v i)
    (hbound : rows < 18446744073709551616)
    (s : KernelState α) (h : KernelInv op column v m0 s) (hl : s.left = s.i)
    (hi : s.i ≤ rows) :
    ∃ s' n, remainderLoop op true column rows rhs (rows + 1) s = some s' ∧
      remainderIterations op true column rows rhs (rows + 1) s = some n ∧
      KernelInv op column v m0 s' ∧ s'.left = s'.i ∧ s'.i = s.i + n ∧ s'.i = rows := by
  obtain ⟨s', n, h1, h2, h3, ⟨k, l, b⟩, h5⟩ := loopTrace_spec
    (fun s : KernelState α => true && decide (s.i < rows))
    (fun s => { scalarStep op column rhs s with i := sizeT (s.i + 1) })
    (fun s => KernelInv op column v m0 s ∧ s.left = s.i ∧ s.i ≤ rows)
    (fun s => s.i) 1 (fun s => rows - s.i)
    (by
      rintro s ⟨hk, hl, hi⟩ hc
      simp only [Bool.true_and, decide_eq_true_eq] at hc
      have hw : sizeT (s.i + 1) = s.i + 1 := by simp only [sizeT]; omega
      obtain ⟨k1, l1, _⟩ := scalarStep_inv op column rhs v m0 hv s hk
      refine ⟨⟨?_, ?_, ?_⟩, ?_, ?_⟩
      · exact k1
      · show (scalarStep op column rhs _).left = sizeT (s.i + 1)
        rw [hw, l1, hl]
      · show sizeT (s.i + 1) ≤ rows
        rw [hw]; omega
      · show sizeT (s.i + 1) = s.i + 1
        exact hw
      · show rows - sizeT (s.i + 1) < rows - s.i
        rw [hw]; omega)
    (rows + 1) s ⟨h, hl, hi⟩ (by show rows - s.i < rows + 1; omega)
  simp only [Bool.true_and, decide_eq_false_iff_not, not_lt] at h5
  exact ⟨s', n, h1, h2, k, l, by simpa using h3, by omega⟩

theorem remainderLoop_skipped {α : Type} (op : α → α → α) (column rows : Nat)
    (rhs : VecExpr α) (s : KernelState α) :
    remainderLoop op false column rows rhs (rows + 1) s = some s ∧
    remainderIterations op false column rows rhs (rows + 1) s = some 0 := by
  constructor
  · simp [remainderLoop, whileLoop]
  · simp [remainderIterations, loopIterations]

theorem multiple_le_of_lt_add (S a q : Nat) (h : S * a < S * q + S) :
    S * a ≤ S * q := by
  have h1 : S * a < S * (q + 1) := by rw [Nat.mul_add, Nat.mul_one]; exact h
  have h2 : a < q + 1 := Nat.lt_of_mul_lt_mul_left h1
  exact Nat.mul_le_mul_left S (by omega)

theorem largest_multiple (d n q : Nat) (h1 : q * d ≤ n) (h2 : n < q * d + d) :
    q * d = n - n % d := by
  have hd : 0 < d := by
    by_contra h0
    have : d = 0 := by omega
    subst this
    simp at h2
  have hq : n / d = q := Nat.div_eq_of_lt_le h1 (by rw [Nat.succ_mul]; exact h2)
  have := Nat.div_add_mod n d
  rw [hq, Nat.mul_comm] at this
  omega

/-- The phases of the unrolled-by-four loop shape.  The loops complete; after each loop
exactly the rows below the iterator position have been updated, each once; the unrolled loop
advances by `4*S` per iteration and ends within `3*S` of `ipos`, the single-batch loop
advances by `S` per iteration, runs fewer than four times and ends at the first multiple of
`S` not below `ipos`; with a remainder the batches end at `ipos` and the scalar loop ends at
`rows`, without a remainder the scalar loop does not execute. -/
theorem simdLoopsTrace_spec {α : Type} (op : α → α → α) (remainder : Bool)
    (S column rows ipos : Nat) (rhs : VecExpr α) (v : Nat → α) (m0 : DenseMatrix α)
    (hv : ∀ m' i, rhs.elem m' i = v i) (hS : 0 < S)
    (hbound : rows + 4 * S ≤ 18446744073709551616) (hipos : ipos ≤ rows)
    (hmask : remainder = true → ∃ q, ipos = S * q)
    (hnear : remainder = true → rows < ipos + S) :
    ∃ tr, simdLoopsTrace op remainder S column rows ipos rhs m0 = some tr ∧
      simdLoops op remainder S column rows ipos rhs m0 = some tr.final.matrix ∧
      KernelInv op column v m0 tr.afterUnrolled ∧
      KernelInv op column v m0 tr.afterBatches ∧
      KernelInv op column v m0 tr.final ∧
      tr.afterUnrolled.left = tr.unrolledIterations * (4 * S) ∧
      tr.afterBatches.left = tr.afterUnrolled.left + tr.batchIterations * S ∧
      tr.final.left = tr.afterBatches.left + tr.scalarSteps ∧
      ipos ≤ tr.afterUnrolled.left + 3 * S ∧
      (tr.afterUnrolled.left = 0 ∨ tr.afterUnrolled.left < ipos + S) ∧
      ipos ≤ tr.afterBatches.left ∧ tr.afterBatches.left < ipos + S ∧
      tr.batchIterations < 4 ∧
      (remainder = true →
        tr.afterUnrolled.left = rows - rows % (4 * S) ∧ tr.afterBatches.left = ipos ∧
        tr.final.left = rows) ∧
      (remainder = false → tr.scalarSteps = 0 ∧ tr.final = tr.afterBatches) := by
  obtain ⟨s1, n1, e1, c1, k1, l1, i1, b1, g1⟩ := unrolledLoop_trace op S column rows ipos rhs v
    m0 hv hS hbound hipos
  have hi1 : s1.i < ipos + S := by
    rcases b1 with h | h
    · omega
    · exact h
  obtain ⟨s2, n2, e2, c2, k2, l2, i2, b2, g2⟩ := batchLoop_trace op S column rows ipos rhs v
    m0 hv hS hbound hipos s1 k1 l1 hi1
  have hn2 : n2 < 4 := by
    have : n2 * S < 4 * S := by omega
    exact Nat.lt_of_mul_lt_mul_right this
  cases remainder with
  | true =>
    obtain ⟨q, hq⟩ := hmask rfl
    have hnear' := hnear rfl
    have es2 : s2.i = S * (4 * n1 + n2) := by rw [i2, i1]; ring
    have hle2 : S * (4 * n1 + n2) ≤ S * q :=
      multiple_le_of_lt_add _ _ _ (by rw [← es2, ← hq]; exact b2)
    have hs2 : s2.i = ipos := by omega
    have es1 : s1.i = S * (4 * n1) := by rw [i1]; ring
    have hle1 : s1.i ≤ ipos := by
      rcases b1 with h | h
      · omega
      · have := multiple_le_of_lt_add S (4 * n1) q
          (by rw [← es1, ← hq]; exact h)
        omega
    have hL1 : n1 * (4 * S) = rows - rows % (4 * S) :=
      largest_multiple (4 * S) rows n1 (by omega) (by omega)
    obtain ⟨s3, n3, e3, c3, k3, l3, i3, f3⟩ := remainderLoop_trace op column rows rhs v m0 hv
      (by omega) s2 k2 l2 (by omega)
    refine ⟨{ unrolledIterations := n1, afterUnrolled := s1, batchIterations := n2,
              afterBatches := s2, scalarSteps := n3, final := s3 }, ?_, ?_, k1, k2, k3, ?_,
      ?_, ?_, ?_, ?_, ?_, ?_, hn2, ?_, ?_⟩
    · simp [simdLoopsTrace, e1, c1, e2, c2, e3, c3]
    · simp [simdLoops, e1, e2, e3]
    · show s1.left = n1 * (4 * S)
      rw [l1, i1]
    · show s2.left = s1.left + n2 * S
      rw [l2, l1, i2]
    · show s3.left = s2.left + n3
      rw [l3, l2, i3]
    · show ipos ≤ s1.left + 3 * S
      rw [l1]; exact g1
    · show s1.left = 0 ∨ s1.left < ipos + S
      rw [l1]; exact b1
    · show ipos ≤ s2.left
      rw [l2]; exact g2
    · show s2.left < ipos + S
      rw [l2]; exact b2
    · intro _
      refine ⟨?_, ?_, ?_⟩
      · show s1.left = rows - rows % (4 * S)
        rw [l1, i1]; exact hL1
      · show s2.left = ipos
        rw [l2]; exact hs2
      · show s3.left = rows
        rw [l3]; exact f3
    · intro h; cases h
  | false =>
    obtain ⟨e3, c3⟩ := remainderLoop_skipped op column rows rhs s2
    refine ⟨{ unrolledIterations := n1, afterUnrolled := s1, batchIterations := n2,
              afterBatches := s2, scalarSteps := 0, final := s2 }, ?_, ?_, k1, k2, k2, ?_,
      ?_, ?_, ?_, ?_, ?_, ?_, hn2, ?_, ?_⟩
    · simp [simdLoopsTrace, e1, c1, e2, c2, e3, c3]
    · simp [simdLoops, e1, e2, e3]
    · show s1.left = n1 * (4 * S)
      rw [l1, i1]
    · show s2.left = s1.left + n2 * S
      rw [l2, l1, i2]
    · show s2.left = s2.left + 0
      rfl
    · show ipos ≤ s1.left + 3 * S
      rw [l1]; exact g1
    · show s1.left = 0 ∨ s1.left < ipos + S
      rw [l1]; exact b1
    · show ipos ≤ s2.left
      rw [l2]; exact g2
    · show s2.left < ipos + S
      rw [l2]; exact b2
    · intro h; cases h
    · intro _
      exact ⟨rfl, rfl⟩

/-- The phases of the streaming loop shape: the single-batch loop runs from the start to the
first multiple of `S` not below `ipos`; with a remainder it ends at `ipos` and the scalar
loop ends at `rows`, without a remainder the scalar loop does not execute. -/
theorem streamLoopsTrace_spec {α : Type} (remainder : Bool)
    (S column rows ipos : Nat) (rhs : VecExpr α) (v : Nat → α) (m0 : DenseMatrix α)
    (hv : ∀ m' i, rhs.elem m' i = v i) (hS : 0 < S)
    (hbound : rows + 4 * S ≤ 18446744073709551616) (hipos : ipos ≤ rows)
    (hmask : remainder = true → ∃ q, ipos = S * q) :
    ∃ tr, streamLoopsTrace remainder S column rows ipos rhs m0 = some tr ∧
      streamLoops remainder S column rows ipos rhs m0 = some tr.final.matrix ∧
      KernelInv (fun _ r => r) column v m0 tr.afterBatches ∧
      KernelInv (fun _ r => r) column v m0 tr.final ∧
      tr.unrolledIterations = 0 ∧ tr.afterUnrolled.left = 0 ∧
      tr.afterBatches.left = tr.batchIterations * S ∧
      tr.final.left = tr.afterBatches.left + tr.scalarSteps ∧
      ipos ≤ tr.afterBatches.left ∧ tr.afterBatches.left < ipos + S ∧
      (remainder = true → tr.afterBatches.left = ipos ∧ tr.final.left = rows) ∧
      (remainder = false → tr.scalarSteps = 0 ∧ tr.final = tr.afterBatches) := by
  obtain ⟨s2, n2, e2, c2, k2, l2, i2, b2, g2⟩ := batchLoop_trace (fun _ r => r) S column rows
    ipos rhs v m0 hv hS hbound hipos { i := 0, left := 0, right := 0, matrix := m0 }
    (kernelInv_init _ column v m0) rfl (by show 0 < ipos + S; omega)
  have i2' : s2.i = n2 * S := by simpa using i2
  cases remainder with
  | true =>
    obtain ⟨q, hq⟩ := hmask rfl
    have es2 : s2.i = S * n2 := by rw [i2']; ring
    have hle2 : S * n2 ≤ S * q :=
      multiple_le_of_lt_add _ _ _ (by rw [← es2, ← hq]; exact b2)
    have hs2 : s2.i = ipos := by omega
    obtain ⟨s3, n3, e3, c3, k3, l3, i3, f3⟩ := remainderLoop_trace (fun _ r => r) column rows
      rhs v m0 hv (by omega) s2 k2 l2 (by omega)
    refine ⟨{ unrolledIterations := 0,
              afterUnrolled := { i := 0, left := 0, right := 0, matrix := m0 },
              batchIterations := n2, afterBatches := s2, scalarSteps := n3, final := s3 },
      ?_, ?_, k2, k3, rfl, rfl, ?_, ?_, ?_, ?_, ?_, ?_⟩
    · simp [streamLoopsTrace, e2, c2, e3, c3]
    · simp [streamLoops, e2, e3]
    · show s2.left = n2 * S
      rw [l2, i2']
    · show s3.left = s2.left + n3
      rw [l3, l2, i3]
    · show ipos ≤ s2.left
      rw [l2]; exact g2
    · show s2.left < ipos + S
      rw [l2]; exact b2
    · intro _
      refine ⟨?_, ?_⟩
      · show s2.left = ipos
        rw [l2]; exact hs2
      · show s3.left = rows
        rw [l3]; exact f3
    · intro h; cases h
  | false =>
    obtain ⟨e3, c3⟩ := remainderLoop_skipped (fun _ r => r) column rows rhs s2
    refine ⟨{ unrolledIterations := 0,
              afterUnrolled := { i := 0, left := 0, right := 0, matrix := m0 },
              batchIterations := n2, afterBatches := s2, scalarSteps := 0, final := s2 },
      ?_, ?_, k2, k2, rfl, rfl, ?_, ?_, ?_, ?_, ?_, ?_⟩
    · simp [streamLoopsTrace, e2, c2, e3, c3]
    · simp [streamLoops, e2, e3]
    · show s2.left = n2 * S
      rw [l2, i2']
    · show s2.left = s2.left + 0
      rfl
    · show ipos ≤ s2.left
      rw [l2]; exact g2
    · show s2.left < ipos + S
      rw [l2]; exact b2
    · intro h; cases h
    · intro _
      exact ⟨rfl, rfl⟩

/-- The kernels in their unrolled loop shape, with the `remainder` each of them uses:
the trace is the one of `simdLoopsTrace`, the result the one of `simdLoops`. -/
theorem batchedTrace_unrolled {α : Type} [Add α] [Sub α] [Mul α] [Div α]
    (kn : BatchedKernel) (cfg : KernelConfig) (t : MatrixTraits) (column : Nat)
    (rhs : VecExpr α) (m : DenseMatrix α)
    (hshape : kn = BatchedKernel.assign →
      ColumnMajor.streamingSelected cfg (ColumnMajor.size m) rhs = false) :
    ∃ r : Bool,
      (r = false ↔ kn ≠ BatchedKernel.divAssign ∧ t.isPadded = true ∧
        rhs.traits.isPadded = true) ∧
      ColumnMajor.batchedTrace kn cfg t column rhs m =
        simdLoopsTrace kn.apply r cfg.SIMDSIZE column m.rows
          (simdEnd r m.rows cfg.SIMDSIZE) rhs m ∧
      ColumnMajor.batchedKernel kn cfg t column rhs m =
        simdLoops kn.apply r cfg.SIMDSIZE column m.rows
          (simdEnd r m.rows cfg.SIMDSIZE) rhs m := by
  cases kn with
  | assign =>
    refine ⟨!t.isPadded || !rhs.traits.isPadded, ?_, ?_, ?_⟩
    · cases t.isPadded <;> cases rhs.traits.isPadded <;> simp
    · simp only [ColumnMajor.batchedTrace, hshape rfl, Bool.false_eq_true, if_false]
      rfl
    · simp only [ColumnMajor.batchedKernel, ColumnMajor.assignSIMD, hshape rfl,
        Bool.false_eq_true, if_false]
      rfl
  | addAssign =>
    refine ⟨!t.isPadded || !rhs.traits.isPadded, ?_, rfl, rfl⟩
    cases t.isPadded <;> cases rhs.traits.isPadded <;> simp
  | subAssign =>
    refine ⟨!t.isPadded || !rhs.traits.isPadded, ?_, rfl, rfl⟩
    cases t.isPadded <;> cases rhs.traits.isPadded <;> simp
  | multAssign =>
    refine ⟨!t.isPadded || !rhs.traits.isPadded, ?_, rfl, rfl⟩
    cases t.isPadded <;> cases rhs.traits.isPadded <;> simp
  | divAssign =>
    refine ⟨true, ?_, rfl, rfl⟩
    simp

/-- The loop end `ipos` of the kernels for a power-of-two `SIMDSIZE`: at most `rows`; with a
remainder the largest multiple of `SIMDSIZE` not above `rows`, otherwise `rows`. -/
theorem simdEnd_facts (r : Bool) (rows S p : Nat) (hpow : S = 2 ^ p)
    (hbound : rows + 4 * S ≤ 18446744073709551616) :
    0 < S ∧ simdEnd r rows S ≤ rows ∧
    (r = true → simdEnd r rows S = rows - rows % S) ∧
    (r = true → ∃ q, simdEnd r rows S = S * q) ∧
    (r = true → rows < simdEnd r rows S + S) ∧
    (r = false → simdEnd r rows S = rows) := by
  have hk : p < 64 := pow_lt_of_bound rows p (by rw [← hpow]; exact hbound)
  have hS : 0 < S := by rw [hpow]; exact Nat.pos_pow_of_pos _ (by decide)
  have hrows : rows < 18446744073709551616 := by omega
  have hmask : simdEnd true rows S = rows - rows % S := by
    rw [hpow]
    simp only [simdEnd, if_true]
    exact simdMask rows p hk hrows
  have hmod : rows % S < S := Nat.mod_lt rows hS
  have hle : rows % S ≤ rows := Nat.mod_le rows S
  refine ⟨hS, ?_, ?_, ?_, ?_, ?_⟩
  · rw [hpow]; exact simdEnd_le r rows p hk hrows
  · intro h; subst h; exact hmask
  · intro h; subst h
    rw [hmask]
    obtain ⟨q, hq⟩ := (Nat.dvd_sub_mod rows : S ∣ rows - rows % S)
    exact ⟨q, hq⟩
  · intro h; subst h
    rw [hmask]; omega
  · intro h; subst h
    simp [simdEnd]

/-- C29 (counterexample): with a padded matrix type and a padded vector type, a column of 7
rows and packs of 4 elements, the SIMD kernel `divAssign` ends its batches at row 4 and
executes the scalar remainder loop for the 3 rows `4, 5, 6`; the kernel `multAssign` on the
same operands covers the rows in two batches and executes no scalar step. -/
theorem C29_divAssign_tail_runs_when_padded :
    paddedTraits.isPadded = true ∧
    (paddedVector 7 fun i => 1 + (i : Int)).traits.isPadded = true ∧
    (ColumnMajor.batchedTrace BatchedKernel.divAssign smallConfig paddedTraits 0
        (paddedVector 7 fun i => 1 + (i : Int)) sample7x2).map
      (fun tr => (tr.afterBatches.left, tr.scalarSteps, tr.final.left)) = some (4, 3, 7) ∧
    (ColumnMajor.batchedTrace BatchedKernel.multAssign smallConfig paddedTraits 0
        (paddedVector 7 fun i => 1 + (i : Int)) sample7x2).map
      (fun tr => (tr.afterBatches.left, tr.scalarSteps, tr.final.left)) = some (8, 0, 8) := by
  refine ⟨rfl, rfl, by decide, by decide⟩

/-- C29 (amended): for a power-of-two `SIMDSIZE` and a column of `n` rows (with
`n + 4*SIMDSIZE` within the range of `size_t`), each of the SIMD kernels `assign` (in either
of its loop shapes), `addAssign`, `subAssign`, `multAssign` and `divAssign` completes.  In
the kernels other than `divAssign` the scalar remainder loop executes no element operation
when both the matrix type and the vector type are padded.  In `divAssign` always, and in the
other kernels when one of the two types is not padded, the batches end at row
`n - n % SIMDSIZE` and the scalar remainder loop executes `n % SIMDSIZE` element operations,
for the last `n % SIMDSIZE` rows. -/
theorem C29_remainder_tail {α : Type} [Add α] [Sub α] [Mul α] [Div α]
    (kn : BatchedKernel) (cfg : KernelConfig) (t : MatrixTraits) (column p : Nat)
    (rhs : VecExpr α) (v : Nat → α) (m : DenseMatrix α)
    (hpow : cfg.SIMDSIZE = 2 ^ p)
    (hbound : m.rows + 4 * cfg.SIMDSIZE ≤ 18446744073709551616)
    (hv : ∀ m' i, rhs.elem m' i = v i) :
    ∃ tr, ColumnMajor.batchedTrace kn cfg t column rhs m = some tr ∧
      ColumnMajor.batchedKernel kn cfg t column rhs m = some tr.final.matrix ∧
      KernelInv kn.apply column v m tr.afterBatches ∧
      KernelInv kn.apply column v m tr.final ∧
      tr.final.left = tr.afterBatches.left + tr.scalarSteps ∧
      (kn ≠ BatchedKernel.divAssign → t.isPadded = true → rhs.traits.isPadded = true →
        tr.scalarSteps = 0 ∧ tr.final = tr.afterBatches) ∧
      (kn = BatchedKernel.divAssign ∨ t.isPadded = false ∨ rhs.traits.isPadded = false →
        tr.scalarSteps = m.rows % cfg.SIMDSIZE ∧
        tr.afterBatches.left = m.rows - m.rows % cfg.SIMDSIZE ∧
        tr.final.left = m.rows) := by
  have hle : m.rows % cfg.SIMDSIZE ≤ m.rows := Nat.mod_le _ _
  have fin : ∀ (r : Bool) (tr : KernelTrace α),
      (r = false ↔ kn ≠ BatchedKernel.divAssign ∧ t.isPadded = true ∧
        rhs.traits.isPadded = true) →
      tr.final.left = tr.afterBatches.left + tr.scalarSteps →
      (r = true → tr.afterBatches.left = simdEnd r m.rows cfg.SIMDSIZE ∧
        tr.final.left = m.rows) →
      (r = false → tr.scalarSteps = 0 ∧ tr.final = tr.afterBatches) →
      (r = true → simdEnd r m.rows cfg.SIMDSIZE = m.rows - m.rows % cfg.SIMDSIZE) →
      (kn ≠ BatchedKernel.divAssign → t.isPadded = true → rhs.traits.isPadded = true →
        tr.scalarSteps = 0 ∧ tr.final = tr.afterBatches) ∧
      (kn = BatchedKernel.divAssign ∨ t.isPadded = false ∨ rhs.traits.isPadded = false →
        tr.scalarSteps = m.rows % cfg.SIMDSIZE ∧
        tr.afterBatches.left = m.rows - m.rows % cfg.SIMDSIZE ∧
        tr.final.left = m.rows) := by
    intro r tr hr hsum ht hf hm
    refine ⟨fun h1 h2 h3 => hf (hr.mpr ⟨h1, h2, h3⟩), ?_⟩
    intro h
    have hrt : r = true := by
      cases r with
      | true => rfl
      | false =>
        obtain ⟨h1, h2, h3⟩ := hr.mp rfl
        rcases h with h | h | h
        · exact absurd h h1
        · rw [h2] at h; cases h
        · rw [h3] at h; cases h
    obtain ⟨a, b⟩ := ht hrt
    have := hm hrt
    refine ⟨by omega, by omega, b⟩
  by_cases hstream : kn = BatchedKernel.assign ∧
      ColumnMajor.streamingSelected cfg (ColumnMajor.size m) rhs = true
  · obtain ⟨hkn, hst⟩ := hstream
    subst hkn
    obtain ⟨hS, hipos, hmask, hq, _, hcover⟩ := simdEnd_facts
      (!t.isPadded || !rhs.traits.isPadded) m.rows cfg.SIMDSIZE p hpow hbound
    obtain ⟨tr, e1, e2, k2, k3, _, _, _, hsum, _, _, ht, hf⟩ := streamLoopsTrace_spec
      (!t.isPadded || !rhs.traits.isPadded) cfg.SIMDSIZE column m.rows _ rhs v m hv hS hbound
      hipos hq
    refine ⟨tr, ?_, ?_, k2, k3, hsum, ?_⟩
    · simp only [ColumnMajor.batchedTrace, hst, if_true]
      exact e1
    · simp only [ColumnMajor.batchedKernel, ColumnMajor.assignSIMD, hst, if_true]
      exact e2
    · refine fin (!t.isPadded || !rhs.traits.isPadded) tr ?_ hsum ht hf hmask
      cases t.isPadded <;> cases rhs.traits.isPadded <;> simp
  · have hshape : kn = BatchedKernel.assign →
        ColumnMajor.streamingSelected cfg (ColumnMajor.size m) rhs = false := by
      intro h
      by_contra hc
      exact hstream ⟨h, by simpa using hc⟩
    obtain ⟨r, hr, et, ek⟩ := batchedTrace_unrolled kn cfg t column rhs m hshape
    obtain ⟨hS, hipos, hmask, hq, hnear, hcover⟩ := simdEnd_facts r m.rows cfg.SIMDSIZE p hpow
      hbound
    obtain ⟨tr, e1, e2, _, k2, k3, _, _, hsum, _, _, _, _, _, ht, hf⟩ := simdLoopsTrace_spec
      kn.apply r cfg.SIMDSIZE column m.rows _ rhs v m hv hS hbound hipos hq hnear
    refine ⟨tr, by rw [et]; exact e1, by rw [ek]; exact e2, k2, k3, hsum, ?_⟩
    exact fin r tr hr hsum (fun h => ⟨(ht h).2.1, (ht h).2.2⟩) hf hmask

/-- C30 (counterexamples): with a padded matrix type and a padded vector type, a column of 15
rows and packs of 4 elements, the unrolled loop of `addAssign` runs once and processes 16
elements, more than the column holds, although no multiple of 16 other than 0 fits into 15
rows; and the streaming loop shape of `assign` has no unrolled loop and processes the column
in four single batches. -/
theorem C30_padded_phases_exceed_column :
    ColumnMajor.size sample15x2 = 15 ∧
    15 - 15 % (4 * smallConfig.SIMDSIZE) = 0 ∧
    (ColumnMajor.batchedTrace BatchedKernel.addAssign smallConfig paddedTraits 0
        (paddedVector 15 fun i => 1 + (i : Int)) sample15x2).map
      (fun tr => (tr.unrolledIterations, tr.afterUnrolled.left, tr.batchIterations,
        tr.afterBatches.left, tr.scalarSteps, tr.final.left))
      = some (1, 16, 0, 16, 0, 16) ∧
    ColumnMajor.streamingSelected smallConfig (ColumnMajor.size sample15x2)
      (paddedVector 15 fun i => 1 + (i : Int)) = true ∧
    (ColumnMajor.batchedTrace BatchedKernel.assign smallConfig paddedTraits 0
        (paddedVector 15 fun i => 1 + (i : Int)) sample15x2).map
      (fun tr => (tr.unrolledIterations, tr.afterUnrolled.left, tr.batchIterations,
        tr.afterBatches.left, tr.scalarSteps, tr.final.left))
      = some (0, 0, 4, 16, 0, 16) := by
  refine ⟨rfl, by decide, by decide, by decide, by decide⟩

/-- C30 (amended): for a power-of-two `SIMDSIZE` and a column of `n` rows (with
`n + 4*SIMDSIZE` within the range of `size_t`), every SIMD kernel in the unrolled loop shape
(all but `assign` when it selects its streaming shape) completes in three phases: the
unrolled loop processes `4*SIMDSIZE` elements per iteration, then the single-batch loop runs
fewer than four times, then the scalar loop processes fewer than `SIMDSIZE` elements; each
phase starts where the previous one ended, and after each phase exactly the rows processed
so far have been updated, each once.  In `divAssign`, and in the other kernels unless both
the matrix type and the vector type are padded, the unrolled loop processes
`n - n % (4*SIMDSIZE)` elements, the batches end at `n - n % SIMDSIZE` and the scalar loop at
`n`.  With both types padded there is no scalar step and the batches run into the padding:
they end at the first multiple of `SIMDSIZE` not below `n`, the unrolled loop within
`3*SIMDSIZE` below `n` or less than `SIMDSIZE` above it. -/
theorem C30_kernel_phases {α : Type} [Add α] [Sub α] [Mul α] [Div α]
    (kn : BatchedKernel) (cfg : KernelConfig) (t : MatrixTraits) (column p : Nat)
    (rhs : VecExpr α) (v : Nat → α) (m : DenseMatrix α)
    (hpow : cfg.SIMDSIZE = 2 ^ p)
    (hbound : m.rows + 4 * cfg.SIMDSIZE ≤ 18446744073709551616)
    (hv : ∀ m' i, rhs.elem m' i = v i)
    (hshape : kn = BatchedKernel.assign →
      ColumnMajor.streamingSelected cfg (ColumnMajor.size m) rhs = false) :
    ∃ tr, ColumnMajor.batchedTrace kn cfg t column rhs m = some tr ∧
      ColumnMajor.batchedKernel kn cfg t column rhs m = some tr.final.matrix ∧
      KernelInv kn.apply column v m tr.afterUnrolled ∧
      KernelInv kn.apply column v m tr.afterBatches ∧
      KernelInv kn.apply column v m tr.final ∧
      tr.afterUnrolled.left = tr.unrolledIterations * (4 * cfg.SIMDSIZE) ∧
      tr.afterBatches.left = tr.afterUnrolled.left + tr.batchIterations * cfg.SIMDSIZE ∧
      tr.final.left = tr.afterBatches.left + tr.scalarSteps ∧
      tr.batchIterations < 4 ∧ tr.scalarSteps < cfg.SIMDSIZE ∧ m.rows ≤ tr.final.left ∧
      (kn = BatchedKernel.divAssign ∨ t.isPadded = false ∨ rhs.traits.isPadded = false →
        tr.afterUnrolled.left = m.rows - m.rows % (4 * cfg.SIMDSIZE) ∧
        tr.afterBatches.left = m.rows - m.rows % cfg.SIMDSIZE ∧
        tr.final.left = m.rows) ∧
      (kn ≠ BatchedKernel.divAssign → t.isPadded = true → rhs.traits.isPadded = true →
        tr.scalarSteps = 0 ∧ tr.final.left < m.rows + cfg.SIMDSIZE ∧
        m.rows ≤ tr.afterUnrolled.left + 3 * cfg.SIMDSIZE ∧
        (tr.afterUnrolled.left = 0 ∨ tr.afterUnrolled.left < m.rows + cfg.SIMDSIZE)) := by
  have hle : m.rows % cfg.SIMDSIZE ≤ m.rows := Nat.mod_le _ _
  obtain ⟨r, hr, et, ek⟩ := batchedTrace_unrolled kn cfg t column rhs m hshape
  obtain ⟨hS, hipos, hmask, hq, hnear, hcover⟩ := simdEnd_facts r m.rows cfg.SIMDSIZE p hpow
    hbound
  have hmod : m.rows % cfg.SIMDSIZE < cfg.SIMDSIZE := Nat.mod_lt _ hS
  obtain ⟨tr, e1, e2, k1, k2, k3, a1, a2, a3, g1, b1, g2, b2, hn2, ht, hf⟩ :=
    simdLoopsTrace_spec kn.apply r cfg.SIMDSIZE column m.rows _ rhs v m hv hS hbound hipos hq
      hnear
  refine ⟨tr, by rw [et]; exact e1, by rw [ek]; exact e2, k1, k2, k3, a1, a2, a3, hn2, ?_, ?_,
    ?_, ?_⟩
  · cases hrt : r with
    | true =>
      subst hrt
      obtain ⟨_, x2, x3⟩ := ht rfl
      have := hmask rfl
      omega
    | false =>
      subst hrt
      rw [(hf rfl).1]; exact hS
  · cases hrt : r with
    | true =>
      subst hrt
      obtain ⟨_, x2, x3⟩ := ht rfl
      omega
    | false =>
      subst hrt
      have := hcover rfl
      obtain ⟨x1, _⟩ := hf rfl
      omega
  · intro h
    have hrt : r = true := by
      cases hrr : r with
      | true => rfl
      | false =>
        obtain ⟨h1, h2, h3⟩ := hr.mp hrr
        rcases h with h | h | h
        · exact absurd h h1
        · rw [h2] at h; cases h
        · rw [h3] at h; cases h
    obtain ⟨x1, x2, x3⟩ := ht hrt
    exact ⟨x1, by rw [x2]; exact hmask hrt, x3⟩
  · intro h1 h2 h3
    have hrf : r = false := hr.mpr ⟨h1, h2, h3⟩
    have hc := hcover hrf
    obtain ⟨x1, _⟩ := hf hrf
    rw [hc] at g1 b1 g2 b2
    exact ⟨x1, by omega, g1, b1⟩

/-- C29, for `multAssign` on a column of 7 rows with packs of 4 elements and unpadded
operands: the batches end at row 4 and the scalar loop executes 3 element operations. -/
theorem C29_remainder_tail_witness :
    (∃ tr, ColumnMajor.batchedTrace BatchedKernel.multAssign smallConfig simdTraits 0 (plainVector
        7 fun i => 1 + (i : Int)) sample7x2 = some tr ∧
      ColumnMajor.batchedKernel BatchedKernel.multAssign smallConfig simdTraits 0 (plainVector 7
          fun i => 1 + (i : Int)) sample7x2 = some tr.final.matrix ∧
      KernelInv BatchedKernel.multAssign.apply 0 (fun i => 1 + (i : Int)) sample7x2
          tr.afterBatches ∧
      KernelInv BatchedKernel.multAssign.apply 0 (fun i => 1 + (i : Int)) sample7x2 tr.final ∧
      tr.final.left = tr.afterBatches.left + tr.scalarSteps ∧
      (BatchedKernel.multAssign ≠ BatchedKernel.divAssign → simdTraits.isPadded = true →
          (plainVector 7 fun i => 1 + (i : Int)).traits.isPadded = true →
        tr.scalarSteps = 0 ∧ tr.final = tr.afterBatches) ∧
      (BatchedKernel.multAssign = BatchedKernel.divAssign ∨ simdTraits.isPadded = false ∨
          (plainVector 7 fun i => 1 + (i : Int)).traits.isPadded = false →
        tr.scalarSteps = sample7x2.rows % smallConfig.SIMDSIZE ∧
        tr.afterBatches.left = sample7x2.rows - sample7x2.rows % smallConfig.SIMDSIZE ∧
        tr.final.left = sample7x2.rows)) ∧
    (ColumnMajor.batchedTrace BatchedKernel.multAssign smallConfig simdTraits 0
        (plainVector 7 fun i => 1 + (i : Int)) sample7x2).map
      (fun tr => (tr.afterBatches.left, tr.scalarSteps, tr.final.left)) = some (4, 3, 7) :=
  ⟨C29_remainder_tail BatchedKernel.multAssign smallConfig simdTraits 0 2
      (plainVector 7 fun i => 1 + (i : Int)) (fun i => 1 + (i : Int)) sample7x2 rfl (by decide)
      (fun _ _ => rfl), by decide⟩

/-- C30, for `addAssign` on a column of 23 rows with packs of 4 elements and unpadded
operands: one unrolled iteration processes the rows `0..15`, one single batch the rows
`16..19`, and three scalar steps the rows `20..22`. -/
theorem C30_kernel_phases_witness :
    (∃ tr, ColumnMajor.batchedTrace BatchedKernel.addAssign smallConfig simdTraits 0 (plainVector
        23 fun i => 1 + (i : Int)) sample23x2 = some tr ∧
      ColumnMajor.batchedKernel BatchedKernel.addAssign smallConfig simdTraits 0 (plainVector 23
          fun i => 1 + (i : Int)) sample23x2 = some tr.final.matrix ∧
      KernelInv BatchedKernel.addAssign.apply 0 (fun i => 1 + (i : Int)) sample23x2
          tr.afterUnrolled ∧
      KernelInv BatchedKernel.addAssign.apply 0 (fun i => 1 + (i : Int)) sample23x2
          tr.afterBatches ∧
      KernelInv BatchedKernel.addAssign.apply 0 (fun i => 1 + (i : Int)) sample23x2 tr.final ∧
      tr.afterUnrolled.left = tr.unrolledIterations * (4 * smallConfig.SIMDSIZE) ∧
      tr.afterBatches.left = tr.afterUnrolled.left + tr.batchIterations * smallConfig.SIMDSIZE ∧
      tr.final.left = tr.afterBatches.left + tr.scalarSteps ∧
      tr.batchIterations < 4 ∧ tr.scalarSteps < smallConfig.SIMDSIZE ∧ sample23x2.rows ≤
          tr.final.left ∧
      (BatchedKernel.addAssign = BatchedKernel.divAssign ∨ simdTraits.isPadded = false ∨
          (plainVector 23 fun i => 1 + (i : Int)).traits.isPadded = false →
        tr.afterUnrolled.left = sample23x2.rows - sample23x2.rows % (4 * smallConfig.SIMDSIZE) ∧
        tr.afterBatches.left = sample23x2.rows - sample23x2.rows % smallConfig.SIMDSIZE ∧
        tr.final.left = sample23x2.rows) ∧
      (BatchedKernel.addAssign ≠ BatchedKernel.divAssign → simdTraits.isPadded = true →
          (plainVector 23 fun i => 1 + (i : Int)).traits.isPadded = true →
        tr.scalarSteps = 0 ∧ tr.final.left < sample23x2.rows + smallConfig.SIMDSIZE ∧
        sample23x2.rows ≤ tr.afterUnrolled.left + 3 * smallConfig.SIMDSIZE ∧
        (tr.afterUnrolled.left = 0 ∨ tr.afterUnrolled.left < sample23x2.rows +
            smallConfig.SIMDSIZE))) ∧
    (ColumnMajor.batchedTrace BatchedKernel.addAssign smallConfig simdTraits 0
        (plainVector 23 fun i => 1 + (i : Int)) sample23x2).map
      (fun tr => (tr.unrolledIterations, tr.afterUnrolled.left, tr.batchIterations,
        tr.afterBatches.left, tr.scalarSteps, tr.final.left))
      = some (1, 16, 1, 20, 3, 23) :=
  ⟨C30_kernel_phases BatchedKernel.addAssign smallConfig simdTraits 0 2
      (plainVector 23 fun i => 1 + (i : Int)) (fun i => 1 + (i : Int)) sample23x2 rfl (by decide)
      (fun _ _ => rfl) (fun h => by cases h), by decide⟩

/-! ### The end-of-loop masks -/

/-- C31: for a power-of-two `SIMDSIZE = 2^k` (a `size_t` constant, `k < 64`) and every
64-bit value `rows`, `rows & size_t(-SIMDSIZE)` equals `rows - rows % SIMDSIZE`, so the
condition of the internal assertion "Invalid end calculation" holds for the `ipos` of every
SIMD kernel, with and without a remainder; and for every 64-bit value `size`,
`size & size_t(-2)` is `size - size % 2`, the largest even number not exceeding `size`. -/
theorem C31_end_masks (rows size k : Nat) (hk : k < 64)
    (hrows : rows < 18446744073709551616) (hsize : size < 18446744073709551616) :
    Nat.land rows (sizeTNeg (2 ^ k)) = rows - rows % 2 ^ k ∧
    simdEnd true rows (2 ^ k) = rows - rows % 2 ^ k ∧
    (∀ remainder : Bool,
      endCalculationHolds remainder rows (2 ^ k) (simdEnd remainder rows (2 ^ k)) = true) ∧
    defaultEnd size = size - size % 2 ∧
    defaultEnd size % 2 = 0 ∧ defaultEnd size ≤ size ∧
    (∀ e, e % 2 = 0 → e ≤ size → e ≤ defaultEnd size) := by
  have h1 := simdMask rows k hk hrows
  have h2 : defaultEnd size = size - size % 2 := by
    have := simdMask size 1 (by decide) hsize
    simpa [defaultEnd] using this
  have hle : rows % 2 ^ k ≤ rows := Nat.mod_le _ _
  refine ⟨h1, by simp [simdEnd, h1], ?_, h2, ?_, ?_, ?_⟩
  · intro remainder
    cases remainder with
    | false => simp [endCalculationHolds]
    | true =>
      have hw : sizeT (rows - rows % 2 ^ k) = rows - rows % 2 ^ k := by
        simp only [sizeT]; omega
      simp [endCalculationHolds, simdEnd, h1, hw]
  · rw [h2]; omega
  · rw [h2]; omega
  · intro e he hes
    rw [h2]; omega

/-- C31, for 7 rows and packs of `4 = 2^2` elements: the mask gives 4; for the size 7 the
default kernels' mask gives 6. -/
theorem C31_end_masks_witness :
    (Nat.land 7 (sizeTNeg (2 ^ 2)) = 7 - 7 % 2 ^ 2 ∧
    simdEnd true 7 (2 ^ 2) = 7 - 7 % 2 ^ 2 ∧
    (∀ remainder : Bool,
      endCalculationHolds remainder 7 (2 ^ 2) (simdEnd remainder 7 (2 ^ 2)) = true) ∧
    defaultEnd 7 = 7 - 7 % 2 ∧
    defaultEnd 7 % 2 = 0 ∧ defaultEnd 7 ≤ 7 ∧
    (∀ e, e % 2 = 0 → e ≤ 7 → e ≤ defaultEnd 7)) ∧
    simdEnd true 7 4 = 4 ∧ defaultEnd 7 = 6 :=
  ⟨C31_end_masks 7 7 2 (by decide) (by decide) (by decide), by decide, by decide⟩

/-! ### The uni-lower rule of `Sub` depends on the operand order -/

/-- C33: for a uni-lower matrix type `U` and a strictly lower matrix type `S` (which is not
uni-lower), `YieldsUniLower<Sub,U,S>` is `true` and `YieldsUniLower<Sub,S,U>` is `false`.
Correspondingly, for a strictly lower matrix `B` and a uni-lower matrix `A` of equal shape
every diagonal element of `B - A` is `-1`, so that, if `-1 ≠ 1` in the element type, `B - A`
is not uni-lower as soon as it has a diagonal element (a matrix without rows is uni-lower
vacuously); `A - B` is uni-lower. -/
theorem C33_uni_lower_rule_is_asymmetric {α : Type} [AddGroup α] [One α]
    (U S : MatrixTraits) (A B : DenseMatrix α)
    (hU : U.isUniLower = true) (hS : S.isStrictlyLower = true) (hSU : S.isUniLower = false)
    (hA : A.IsUniLower) (hB : B.IsStrictlyLower) (hshape : SameShape B A)
    (hneg : (-1 : α) ≠ 1) :
    Sub.YieldsUniLower U S = true ∧ Sub.YieldsUniLower S U = false ∧
    (Sub.map B A).HasDiagonal (-1) ∧
    (0 < A.rows → ¬ (Sub.map B A).IsUniLower) ∧
    (Sub.map A B).IsUniLower := by
  obtain ⟨⟨hAsq, hAl⟩, hAd⟩ := hA
  obtain ⟨⟨hBsq, hBl⟩, hBd⟩ := hB
  obtain ⟨hr, hc⟩ := hshape
  have hdiag : (Sub.map B A).HasDiagonal (-1) := by
    intro i hi hj
    show B.elem i i - A.elem i i = -1
    rw [hBd i hi hj, hAd i (by rw [← hr]; exact hi) (by rw [← hc]; exact hj)]
    simp
  refine ⟨by simp [Sub.YieldsUniLower, hU, hS], by simp [Sub.YieldsUniLower, hSU], hdiag, ?_,
    ?_⟩
  · intro hpos hu
    have h0r : 0 < (Sub.map B A).rows := by show 0 < B.rows; omega
    have h0c : 0 < (Sub.map B A).columns := by show 0 < B.columns; omega
    have e1 := hdiag 0 h0r h0c
    have e2 := hu.2 0 h0r h0c
    rw [e1] at e2
    exact hneg e2
  · refine ⟨⟨hAsq, ?_⟩, ?_⟩
    · intro i hi j hj hij
      show A.elem i j - B.elem i j = 0
      rw [hAl i hi j hj hij, hBl i (by rw [hr]; exact hi) j (by rw [hc]; exact hj) hij]
      simp
    · intro i hi hj
      show A.elem i i - B.elem i i = 1
      rw [hAd i hi hj, hBd i (by rw [hr]; exact hi) (by rw [hc]; exact hj)]
      simp

/-! ### Hermitian matrices -/

theorem sub_isHermitian {α : Type} [AddGroup α] [StarAddMonoid α] (A B : DenseMatrix α)
    (hA : A.IsHermitian) (hB : B.IsHermitian) (hshape : SameShape A B) :
    (Sub.map A B).IsHermitian := by
  obtain ⟨hAsq, hAe⟩ := hA
  obtain ⟨hBsq, hBe⟩ := hB
  obtain ⟨hr, hc⟩ := hshape
  refine ⟨hAsq, ?_⟩
  intro i hi j hj
  show A.elem i j - B.elem i j = star (A.elem j i - B.elem j i)
  rw [star_sub, ← hAe i hi j hj, ← hBe i (by rw [← hr]; exact hi) j (by rw [← hc]; exact hj)]

/-- C34: for Hermitian matrices `A` and `B` of equal shape over the complex numbers the
element-wise difference `A - B` is Hermitian: square and equal to its own conjugate
transpose; and `YieldsHermitian<Sub,MT1,MT2>` is `true` exactly if both `IsHermitian<MT1>`
and `IsHermitian<MT2>` are. -/
theorem C34_sub_yields_hermitian (A B : DenseMatrix ℂ) (hA : A.IsHermitian)
    (hB : B.IsHermitian) (hshape : SameShape A B) :
    (Sub.map A B).IsHermitian ∧
    (∀ i j, i < A.rows → j < A.columns →
      (Sub.map A B).elem i j = (starRingEnd ℂ) ((Sub.map A B).elem j i)) ∧
    (∀ MT1 MT2 : MatrixTraits, Sub.YieldsHermitian MT1 MT2 = true ↔
      (MT1.isHermitian = true ∧ MT2.isHermitian = true)) := by
  have h := sub_isHermitian A B hA hB hshape
  refine ⟨h, ?_, ?_⟩
  · intro i j hi hj
    exact h.2 i hi j hj
  · intro MT1 MT2
    simp [Sub.YieldsHermitian]

/-! ### The `Asin` functor -/

theorem asin_isSymmetric {α : Type} (f : α → α) (A : DenseMatrix α) (h : A.IsSymmetric) :
    (Asin.map f A).IsSymmetric := by
  refine ⟨h.1, ?_⟩
  intro i hi j hj
  show f (A.elem i j) = f (A.elem j i)
  rw [h.2 i hi j hj]

theorem asin_isLower {α : Type} [Zero α] (f : α → α) (hf : f 0 = 0) (A : DenseMatrix α)
    (h : A.IsLower) : (Asin.map f A).IsLower := by
  refine ⟨h.1, ?_⟩
  intro i hi j hj hij
  show f (A.elem i j) = 0
  rw [h.2 i hi j hj hij, hf]

theorem asin_isUpper {α : Type} [Zero α] (f : α → α) (hf : f 0 = 0) (A : DenseMatrix α)
    (h : A.IsUpper) : (Asin.map f A).IsUpper := by
  refine ⟨h.1, ?_⟩
  intro i hi j hj hij
  show f (A.elem i j) = 0
  rw [h.2 i hi j hj hij, hf]

theorem asin_hasDiagonal {α : Type} (f : α → α) (A : DenseMatrix α) (d : α)
    (h : A.HasDiagonal d) : (Asin.map f A).HasDiagonal (f d) := by
  intro i hi hj
  show f (A.elem i i) = f d
  rw [h i hi hj]

theorem arcsin_one_ne_one : Real.arcsin 1 ≠ 1 := by
  rw [Real.arcsin_one]
  have := Real.pi_gt_three
  intro h
  linarith

/-- C35: for every real matrix `A`, the element-wise `Asin` of `A` (with `asin` the inverse
sine of the reals, for which `asin(0) = 0`) is symmetric, lower, strictly lower, upper or
strictly upper whenever `A` is; `YieldsSymmetric`, `YieldsLower`, `YieldsStrictlyLower`,
`YieldsUpper` and `YieldsStrictlyUpper` of `Asin` report exactly the corresponding property
of the matrix type, so whenever one of them is `true` for the type of a conforming `A`, the
result has the property.  `Asin` has no uni-lower and no uni-upper propagation; indeed
`asin(1) ≠ 1`, and the diagonal of the result of a unitriangular matrix holds `asin(1)`. -/
theorem C35_asin_preserves_structure (A : DenseMatrix ℝ) :
    Asin.call Real.arcsin 0 = 0 ∧
    (A.IsSymmetric → (Asin.map Real.arcsin A).IsSymmetric) ∧
    (A.IsLower → (Asin.map Real.arcsin A).IsLower) ∧
    (A.IsStrictlyLower → (Asin.map Real.arcsin A).IsStrictlyLower) ∧
    (A.IsUpper → (Asin.map Real.arcsin A).IsUpper) ∧
    (A.IsStrictlyUpper → (Asin.map Real.arcsin A).IsStrictlyUpper) ∧
    (∀ MT : MatrixTraits,
      Asin.YieldsSymmetric MT = MT.isSymmetric ∧ Asin.YieldsLower MT = MT.isLower ∧
      Asin.YieldsStrictlyLower MT = MT.isStrictlyLower ∧ Asin.YieldsUpper MT = MT.isUpper ∧
      Asin.YieldsStrictlyUpper MT = MT.isStrictlyUpper ∧
      Asin.YieldsUniLower MT = false ∧ Asin.YieldsUniUpper MT = false) ∧
    (∀ MT : MatrixTraits, Conforms MT A →
      (Asin.YieldsSymmetric MT = true → (Asin.map Real.arcsin A).IsSymmetric) ∧
      (Asin.YieldsLower MT = true → (Asin.map Real.arcsin A).IsLower) ∧
      (Asin.YieldsStrictlyLower MT = true → (Asin.map Real.arcsin A).IsStrictlyLower) ∧
      (Asin.YieldsUpper MT = true → (Asin.map Real.arcsin A).IsUpper) ∧
      (Asin.YieldsStrictlyUpper MT = true → (Asin.map Real.arcsin A).IsStrictlyUpper)) ∧
    Asin.call Real.arcsin 1 ≠ 1 ∧
    (A.HasDiagonal 1 → (Asin.map Real.arcsin A).HasDiagonal (Real.arcsin 1)) ∧
    (A.IsUniLower → 0 < A.rows → ¬ (Asin.map Real.arcsin A).IsUniLower) ∧
    (A.IsUniUpper → 0 < A.rows → ¬ (Asin.map Real.arcsin A).IsUniUpper) := by
  have h0 : Real.arcsin 0 = 0 := Real.arcsin_zero
  have hsym := asin_isSymmetric Real.arcsin A
  have hlow := asin_isLower Real.arcsin h0 A
  have hupp := asin_isUpper Real.arcsin h0 A
  have hd0 : A.HasDiagonal 0 → (Asin.map Real.arcsin A).HasDiagonal 0 := by
    intro h
    have := asin_hasDiagonal Real.arcsin A 0 h
    rw [h0] at this
    exact this
  have hsl : A.IsStrictlyLower → (Asin.map Real.arcsin A).IsStrictlyLower :=
    fun h => ⟨hlow h.1, hd0 h.2⟩
  have hsu : A.IsStrictlyUpper → (Asin.map Real.arcsin A).IsStrictlyUpper :=
    fun h => ⟨hupp h.1, hd0 h.2⟩
  have huni : ∀ (sq : A.rows = A.columns), A.HasDiagonal 1 → 0 < A.rows →
      ¬ (Asin.map Real.arcsin A).HasDiagonal 1 := by
    intro sq hd hpos hd'
    have hposc : 0 < A.columns := by rw [← sq]; exact hpos
    have e1 := asin_hasDiagonal Real.arcsin A 1 hd 0 hpos hposc
    have e2 := hd' 0 hpos hposc
    rw [e1] at e2
    exact arcsin_one_ne_one e2
  refine ⟨h0, hsym, hlow, hsl, hupp, hsu, ?_, ?_, arcsin_one_ne_one,
    asin_hasDiagonal Real.arcsin A 1, ?_, ?_⟩
  · intro MT
    exact ⟨rfl, rfl, rfl, rfl, rfl, rfl, rfl⟩
  · intro MT hc
    obtain ⟨c1, c2, _, c4, c5, _, c7⟩ := hc
    exact ⟨fun h => hsym (c1 h), fun h => hlow (c2 h), fun h => hsl (c4 h),
      fun h => hupp (c5 h), fun h => hsu (c7 h)⟩
  · intro h hpos hu
    exact huni h.1.1 h.2 hpos hu.2
  · intro h hpos hu
    exact huni h.1.1 h.2 hpos hu.2

/-- C33, for the uni-lower matrix `((1,0),(4,1))` and the strictly lower matrix
`((0,0),(7,0))` over the integers. -/
theorem C33_uni_lower_rule_is_asymmetric_witness :
    (Sub.YieldsUniLower uniLowerTraits strictlyLowerTraits = true ∧
    Sub.YieldsUniLower strictlyLowerTraits uniLowerTraits = false ∧
    (Sub.map (ofRows 2 [[0, 0], [7, 0]]) (ofRows 2 [[1, 0], [4, 1]])).HasDiagonal (-1) ∧
    (0 < (ofRows 2 [[1, 0], [4, 1]]).rows →
      ¬ (Sub.map (ofRows 2 [[0, 0], [7, 0]]) (ofRows 2 [[1, 0], [4, 1]])).IsUniLower) ∧
    (Sub.map (ofRows 2 [[1, 0], [4, 1]]) (ofRows 2 [[0, 0], [7, 0]])).IsUniLower) ∧
    (Sub.map (ofRows 2 [[0, 0], [7, 0]]) (ofRows 2 [[1, 0], [4, 1]])).elem 1 1 = -1 :=
  ⟨C33_uni_lower_rule_is_asymmetric uniLowerTraits strictlyLowerTraits
      (ofRows 2 [[1, 0], [4, 1]]) (ofRows 2 [[0, 0], [7, 0]]) rfl rfl rfl
      (by unfold DenseMatrix.IsUniLower DenseMatrix.IsLower DenseMatrix.HasDiagonal; decide)
      (by unfold DenseMatrix.IsStrictlyLower DenseMatrix.IsLower DenseMatrix.HasDiagonal; decide)
      (by unfold SameShape; decide) (by decide),
    by decide⟩

/-- C34, for the Hermitian matrices `((1, i), (-i, 1))` and `((2, 0), (0, 2))` over the
complex numbers. -/
theorem C34_sub_yields_hermitian_witness :
    (Sub.map (squareMatrix 2 fun i j => if i = 0 ∧ j = 1 then Complex.I
          else if i = 1 ∧ j = 0 then -Complex.I else (1 : ℂ))
        (squareMatrix 2 fun i j => if i = j then (2 : ℂ) else 0)).IsHermitian ∧
    (∀ i j, i < (squareMatrix 2 fun i j => if i = 0 ∧ j = 1 then Complex.I
          else if i = 1 ∧ j = 0 then -Complex.I else (1 : ℂ)).rows →
      j < (squareMatrix 2 fun i j => if i = 0 ∧ j = 1 then Complex.I
          else if i = 1 ∧ j = 0 then -Complex.I else (1 : ℂ)).columns →
      (Sub.map (squareMatrix 2 fun i j => if i = 0 ∧ j = 1 then Complex.I
          else if i = 1 ∧ j = 0 then -Complex.I else (1 : ℂ))
        (squareMatrix 2 fun i j => if i = j then (2 : ℂ) else 0)).elem i j =
      (starRingEnd ℂ) ((Sub.map (squareMatrix 2 fun i j => if i = 0 ∧ j = 1 then Complex.I
          else if i = 1 ∧ j = 0 then -Complex.I else (1 : ℂ))
        (squareMatrix 2 fun i j => if i = j then (2 : ℂ) else 0)).elem j i)) ∧
    (∀ MT1 MT2 : MatrixTraits, Sub.YieldsHermitian MT1 MT2 = true ↔
      (MT1.isHermitian = true ∧ MT2.isHermitian = true)) :=
  C34_sub_yields_hermitian
    (squareMatrix 2 fun i j => if i = 0 ∧ j = 1 then Complex.I
          else if i = 1 ∧ j = 0 then -Complex.I else (1 : ℂ))
    (squareMatrix 2 fun i j => if i = j then (2 : ℂ) else 0)
    (by
      refine ⟨rfl, ?_⟩
      intro i hi j hj
      have hi' : i < 2 := hi
      have hj' : j < 2 := hj
      interval_cases i <;> interval_cases j <;> simp [squareMatrix])
    (by
      refine ⟨rfl, ?_⟩
      intro i hi j hj
      have hi' : i < 2 := hi
      have hj' : j < 2 := hj
      interval_cases i <;> interval_cases j <;> simp [squareMatrix])
    ⟨rfl, rfl⟩

/-! ### The iterator of the row-major column view -/

theorem sizeTSub_eq (a b : Nat) (ha : a < 18446744073709551616)
    (hb : b < 18446744073709551616) :
    sizeTSub a b = if b ≤ a then a - b else a + 18446744073709551616 - b := by
  simp only [sizeTSub, sizeT]
  split_ifs <;> omega

theorem traverse_spec (last : ColumnIterator) :
    ∀ (n : Nat) (it : ColumnIterator), it.row + n = last.row →
      last.row < 18446744073709551616 →
      ColumnIterator.traverse last (n + 1) it =
        some ((List.range' it.row n).map fun i => ({ row := i, column := it.column } :
          ElementRef)) := by
  intro n
  induction n with
  | zero =>
    intro it h _
    have : it.ne last = false := by simp [ColumnIterator.ne, ColumnIterator.eq]; omega
    simp [ColumnIterator.traverse, this]
  | succ n ih =>
    intro it h hl
    have hne : it.ne last = true := by simp [ColumnIterator.ne, ColumnIterator.eq]; omega
    have hrow : it.preIncrement.row = it.row + 1 := by
      simp only [ColumnIterator.preIncrement, sizeT]; omega
    have hcol : it.preIncrement.column = it.column := rfl
    have := ih it.preIncrement (by rw [hrow]; omega) hl
    rw [ColumnIterator.traverse]
    simp only [hne, if_true, this, Option.map_some', hrow, hcol, List.range'_succ,
      List.map_cons]
    rfl

/-- C36: for the row-major column view of column `c` of a matrix with fewer than `2^63`
rows, `begin()` is at row `0` and `end()` at row `size()` of column `c`, `end() - begin()`
is `size()`, and the traversal from `begin()` to `end()` with `++` ends and dereferences
exactly the elements `(0,c), (1,c), ..., (size()-1,c)`, in this order, whose values are the
elements of the column. -/
theorem C36_begin_end_traversal {α : Type} (matrix c : Nat) (m : DenseMatrix α)
    (hsize : RowMajor.size m < 9223372036854775808) :
    (RowMajor.begin matrix c).row = 0 ∧ (RowMajor.begin matrix c).column = c ∧
    (RowMajor.endIterator matrix m c).row = RowMajor.size m ∧
    (RowMajor.endIterator matrix m c).column = c ∧
    (RowMajor.endIterator matrix m c).difference (RowMajor.begin matrix c) =
      (RowMajor.size m : ℤ) ∧
    ColumnIterator.traverse (RowMajor.endIterator matrix m c) (RowMajor.size m + 1)
        (RowMajor.begin matrix c) =
      some ((List.range (RowMajor.size m)).map fun i => RowMajor.subscript c i) ∧
    (ColumnIterator.traverse (RowMajor.endIterator matrix m c) (RowMajor.size m + 1)
        (RowMajor.begin matrix c)).map (fun l => l.map fun r => r.read m) =
      some ((List.range (RowMajor.size m)).map fun i => m.elem i c) := by
  have ht := traverse_spec (RowMajor.endIterator matrix m c) (RowMajor.size m)
    (RowMajor.begin matrix c) (by simp [RowMajor.begin, RowMajor.endIterator])
    (by simp only [RowMajor.endIterator]; omega)
  have ht' : ColumnIterator.traverse (RowMajor.endIterator matrix m c) (RowMajor.size m + 1)
        (RowMajor.begin matrix c) =
      some ((List.range (RowMajor.size m)).map fun i => RowMajor.subscript c i) := by
    rw [ht, List.range_eq_range']
    rfl
  refine ⟨rfl, rfl, rfl, rfl, ?_, ht', ?_⟩
  · simp only [ColumnIterator.difference, RowMajor.endIterator, RowMajor.begin]
    rw [sizeTSub_eq _ _ (by omega) (by omega)]
    simp only [Nat.zero_le, if_true, Nat.sub_zero, toPtrdiff, sizeT]
    rw [Nat.mod_eq_of_lt (by omega)]
    simp [hsize]
  · rw [ht']
    simp [List.map_map, Function.comp_def, RowMajor.subscript, ElementRef.read]

/-- C36, for column `1` of a `4×4` matrix with elements `10*i + j`: the traversal yields
`1, 11, 21, 31`. -/
theorem C36_begin_end_traversal_witness :
    ((RowMajor.begin 0 1).row = 0 ∧ (RowMajor.begin 0 1).column = 1 ∧
    (RowMajor.endIterator 0 sample4x4 1).row = RowMajor.size sample4x4 ∧
    (RowMajor.endIterator 0 sample4x4 1).column = 1 ∧
    (RowMajor.endIterator 0 sample4x4 1).difference (RowMajor.begin 0 1) =
      (RowMajor.size sample4x4 : ℤ) ∧
    ColumnIterator.traverse (RowMajor.endIterator 0 sample4x4 1) (RowMajor.size sample4x4 + 1)
        (RowMajor.begin 0 1) =
      some ((List.range (RowMajor.size sample4x4)).map fun i => RowMajor.subscript 1 i) ∧
    (ColumnIterator.traverse (RowMajor.endIterator 0 sample4x4 1)
        (RowMajor.size sample4x4 + 1)
        (RowMajor.begin 0 1)).map (fun l => l.map fun r => r.read sample4x4) =
      some ((List.range (RowMajor.size sample4x4)).map fun i => sample4x4.elem i 1)) ∧
    (ColumnIterator.traverse (RowMajor.endIterator 0 sample4x4 1) 5
        (RowMajor.begin 0 1)).map (fun l => l.map fun r => r.read sample4x4) =
      some [1, 11, 21, 31] :=
  ⟨C36_begin_end_traversal 0 1 sample4x4 (by decide), by decide⟩

/-- C37: for every iterator `it` and all offsets `n`, `m` (values of type `size_t`):
`(it + n) - n` is `it`, `(it + n) + m` is `it + (n+m)`, `n + it` is `it + n`, `it[n]` is the
element `*(it + n)` of the same matrix, `it += n` followed by `it -= n` restores `it`, and
`it++` returns the previous position and leaves the iterator one row further; `it + n` is
at row `row + n` when this does not overflow. -/
theorem C37_iterator_arithmetic (it : ColumnIterator) (n m : Nat)
    (hrow : it.row < 18446744073709551616) (hn : n < 18446744073709551616) :
    (it.plus n).minus n = it ∧
    (it.plus n).plus m = it.plus (n + m) ∧
    (it.plus n).plus m = it.plus (sizeT (n + m)) ∧
    ColumnIterator.plusLeft n it = it.plus n ∧
    it.subscript n = (it.plus n).deref ∧ (it.plus n).matrix = it.matrix ∧
    (it.addAssign n).subAssign n = it ∧
    it.postIncrement.1 = it ∧ it.postIncrement.2 = it.plus 1 ∧
    it.postIncrement.2.preDecrement = it ∧
    (it.row + 1 < 18446744073709551616 → it.postIncrement.2.row = it.row + 1) ∧
    (it.row + n < 18446744073709551616 → (it.plus n).row = it.row + n) := by
  obtain ⟨A, r, c⟩ := it
  have hr : r < 18446744073709551616 := hrow
  have e1 : sizeTSub (sizeT (r + n)) n = r := by
    rw [sizeTSub_eq _ _ (by simp only [sizeT]; omega) hn]
    simp only [sizeT]
    split_ifs <;> omega
  have e2 : sizeT (sizeT (r + n) + m) = sizeT (r + (n + m)) := by
    simp only [sizeT]; omega
  have e3 : sizeT (sizeT (r + n) + m) = sizeT (r + sizeT (n + m)) := by
    simp only [sizeT]; omega
  have e4 : sizeTSub (sizeT (r + 1)) 1 = r := by
    rw [sizeTSub_eq _ _ (by simp only [sizeT]; omega) (by omega)]
    simp only [sizeT]
    split_ifs <;> omega
  refine ⟨?_, ?_, ?_, rfl, rfl, rfl, ?_, rfl, rfl, ?_, ?_, ?_⟩
  · simp only [ColumnIterator.plus, ColumnIterator.minus, e1]
  · simp only [ColumnIterator.plus, e2]
  · simp only [ColumnIterator.plus, e3]
  · simp only [ColumnIterator.addAssign, ColumnIterator.subAssign, e1]
  · simp only [ColumnIterator.postIncrement, ColumnIterator.preIncrement,
      ColumnIterator.preDecrement, e4]
  · intro h
    dsimp only at h
    simp only [ColumnIterator.postIncrement, ColumnIterator.preIncrement, sizeT]
    omega
  · intro h
    dsimp only at h
    simp only [ColumnIterator.plus, sizeT]
    omega

/-- C38: for two iterators at rows `ra` and `rb` (values of type `size_t`) with
`|ra - rb| < 2^63`, the difference `a - b`, computed on the unsigned row indices and
converted to `ptrdiff_t`, is the integer `ra - rb`. -/
theorem C38_iterator_difference (a b : ColumnIterator)
    (ha : a.row < 18446744073709551616) (hb : b.row < 18446744073709551616)
    (h : |(a.row : ℤ) - (b.row : ℤ)| < 9223372036854775808) :
    a.difference b = (a.row : ℤ) - (b.row : ℤ) := by
  obtain ⟨h1, h2⟩ := abs_lt.mp h
  simp only [ColumnIterator.difference]
  rw [sizeTSub_eq _ _ ha hb]
  simp only [toPtrdiff, sizeT]
  split_ifs <;> omega

/-- C39: the comparisons of two iterators are those of their row indices, whatever matrix
and column they refer to: iterators at the same row compare equal and neither is less than
the other; exactly one of `a < b`, `a == b`, `a > b` holds; `a <= b` is `!(a > b)`,
`a >= b` is `!(a < b)`, and `a != b` is `!(a == b)`. -/
theorem C39_iterator_comparisons (a b : ColumnIterator) :
    (a.eq b = true ↔ a.row = b.row) ∧ (a.lt b = true ↔ a.row < b.row) ∧
    (a.gt b = true ↔ b.row < a.row) ∧
    (a.row = b.row → a.eq b = true ∧ a.lt b = false ∧ a.gt b = false ∧
      a.le b = true ∧ a.ge b = true ∧ a.ne b = false) ∧
    ((a.lt b = true ∧ a.eq b = false ∧ a.gt b = false) ∨
      (a.lt b = false ∧ a.eq b = true ∧ a.gt b = false) ∨
      (a.lt b = false ∧ a.eq b = false ∧ a.gt b = true)) ∧
    a.le b = !(a.gt b) ∧ a.ge b = !(a.lt b) ∧ a.ne b = !(a.eq b) ∧
    (ColumnIterator.eq { matrix := 1, row := 3, column := 0 }
      { matrix := 2, row := 3, column := 5 } = true ∧
     ColumnIterator.lt { matrix := 1, row := 3, column := 0 }
      { matrix := 2, row := 3, column := 5 } = false ∧
     ColumnIterator.gt { matrix := 1, row := 3, column := 0 }
      { matrix := 2, row := 3, column := 5 } = false) := by
  have heq : a.eq b = true ↔ a.row = b.row := by simp [ColumnIterator.eq]
  have hlt : a.lt b = true ↔ a.row < b.row := by simp [ColumnIterator.lt]
  have hgt : a.gt b = true ↔ b.row < a.row := by simp [ColumnIterator.gt]
  have hle : a.le b = true ↔ a.row ≤ b.row := by simp [ColumnIterator.le]
  have hge : a.ge b = true ↔ b.row ≤ a.row := by simp [ColumnIterator.ge]
  have hne : a.ne b = !(a.eq b) := rfl
  have key : ∀ (x : Bool) (p : Prop), (x = true ↔ p) → ((x = false) ↔ ¬ p) := by
    intro x p h
    cases x <;> simp at h ⊢ <;> exact h
  refine ⟨heq, hlt, hgt, ?_, ?_, ?_, ?_, hne, ?_⟩
  · intro h
    refine ⟨heq.mpr h, (key _ _ hlt).mpr (by omega), (key _ _ hgt).mpr (by omega),
      hle.mpr (by omega), hge.mpr (by omega), ?_⟩
    rw [hne, heq.mpr h]
    rfl
  · rcases Nat.lt_trichotomy a.row b.row with h | h | h
    · left
      exact ⟨hlt.mpr h, (key _ _ heq).mpr (by omega), (key _ _ hgt).mpr (by omega)⟩
    · right; left
      exact ⟨(key _ _ hlt).mpr (by omega), heq.mpr h, (key _ _ hgt).mpr (by omega)⟩
    · right; right
      exact ⟨(key _ _ hlt).mpr (by omega), (key _ _ heq).mpr (by omega), hgt.mpr h⟩
  · by_cases h : b.row < a.row
    · rw [hgt.mpr h, (key _ _ hle).mpr (by omega)]
      rfl
    · rw [(key _ _ hgt).mpr h, hle.mpr (by omega)]
      rfl
  · by_cases h : a.row < b.row
    · rw [hlt.mpr h, (key _ _ hge).mpr (by omega)]
      rfl
    · rw [(key _ _ hlt).mpr h, hge.mpr (by omega)]
      rfl
  · decide

/-- C37, for the iterator at row `2` of column `1` and the offsets `3` and `4`. -/
theorem C37_iterator_arithmetic_witness :
    ((({ matrix := 0, row := 2, column := 1 } : ColumnIterator).plus 3).minus 3 =
      { matrix := 0, row := 2, column := 1 } ∧
    (({ matrix := 0, row := 2, column := 1 } : ColumnIterator).plus 3).plus 4 =
      ({ matrix := 0, row := 2, column := 1 } : ColumnIterator).plus (3 + 4) ∧
    (({ matrix := 0, row := 2, column := 1 } : ColumnIterator).plus 3).plus 4 =
      ({ matrix := 0, row := 2, column := 1 } : ColumnIterator).plus (sizeT (3 + 4)) ∧
    ColumnIterator.plusLeft 3 { matrix := 0, row := 2, column := 1 } =
      ({ matrix := 0, row := 2, column := 1 } : ColumnIterator).plus 3 ∧
    ({ matrix := 0, row := 2, column := 1 } : ColumnIterator).subscript 3 =
      (({ matrix := 0, row := 2, column := 1 } : ColumnIterator).plus 3).deref ∧
    (({ matrix := 0, row := 2, column := 1 } : ColumnIterator).plus 3).matrix =
      ({ matrix := 0, row := 2, column := 1 } : ColumnIterator).matrix ∧
    (({ matrix := 0, row := 2, column := 1 } : ColumnIterator).addAssign 3).subAssign 3 =
      { matrix := 0, row := 2, column := 1 } ∧
    ({ matrix := 0, row := 2, column := 1 } : ColumnIterator).postIncrement.1 =
      { matrix := 0, row := 2, column := 1 } ∧
    ({ matrix := 0, row := 2, column := 1 } : ColumnIterator).postIncrement.2 =
      ({ matrix := 0, row := 2, column := 1 } : ColumnIterator).plus 1 ∧
    ({ matrix := 0, row := 2, column := 1 } : ColumnIterator).postIncrement.2.preDecrement =
      { matrix := 0, row := 2, column := 1 } ∧
    (({ matrix := 0, row := 2, column := 1 } : ColumnIterator).row + 1 < 18446744073709551616 →
      ({ matrix := 0, row := 2, column := 1 } : ColumnIterator).postIncrement.2.row =
        ({ matrix := 0, row := 2, column := 1 } : ColumnIterator).row + 1) ∧
    (({ matrix := 0, row := 2, column := 1 } : ColumnIterator).row + 3 < 18446744073709551616 →
      (({ matrix := 0, row := 2, column := 1 } : ColumnIterator).plus 3).row =
        ({ matrix := 0, row := 2, column := 1 } : ColumnIterator).row + 3)) ∧
    (({ matrix := 0, row := 2, column := 1 } : ColumnIterator).plus 3).row = 5 ∧
    (({ matrix := 0, row := 0, column := 1 } : ColumnIterator).minus 1).plus 1 =
      { matrix := 0, row := 0, column := 1 } :=
  ⟨C37_iterator_arithmetic { matrix := 0, row := 2, column := 1 } 3 4 (by decide) (by decide),
    by decide, by decide⟩

/-- C38, for iterators at the rows `2` and `5`: the difference is `-3`. -/
theorem C38_iterator_difference_witness :
    ColumnIterator.difference { matrix := 0, row := 2, column := 1 }
        { matrix := 0, row := 5, column := 1 } =
      ((({ matrix := 0, row := 2, column := 1 } : ColumnIterator).row : ℕ) : ℤ) -
        ((({ matrix := 0, row := 5, column := 1 } : ColumnIterator).row : ℕ) : ℤ) ∧
    ColumnIterator.difference { matrix := 0, row := 2, column := 1 }
        { matrix := 0, row := 5, column := 1 } = -3 :=
  ⟨C38_iterator_difference { matrix := 0, row := 2, column := 1 }
      { matrix := 0, row := 5, column := 1 } (by decide) (by decide) (by decide),
    by decide⟩

/-! ### The element accesses of the SIMD kernels -/

/-- A loop whose body preserves `inv` and decreases the measure `μ`, and whose iterations
make only accesses satisfying `P`, finishes within any budget exceeding the measure; every
access of its log satisfies `P`. -/
theorem loopLog_spec {σ β : Type} (cond : σ → Bool) (body : σ → σ) (acc : σ → List β)
    (inv : σ → Prop) (P : β → Prop) (μ : σ → Nat)
    (hstep : ∀ s, inv s → cond s = true →
      inv (body s) ∧ μ (body s) < μ s ∧ ∀ a ∈ acc s, P a) :
    ∀ (fuel : Nat) (s : σ), inv s → μ s < fuel →
      ∃ s' log, whileLoop cond body fuel s = some s' ∧
        loopLog cond body acc fuel s = some log ∧
        (∀ a ∈ log, P a) ∧ inv s' ∧ cond s' = false := by
  intro fuel
  induction fuel with
  | zero => intro s _ h; omega
  | succ k ih =>
    intro s hs hμ
    by_cases hc : cond s = true
    · obtain ⟨hi, hd, hP⟩ := hstep s hs hc
      obtain ⟨s', log, h1, h2, h3, h4, h5⟩ := ih (body s) hi (by omega)
      refine ⟨s', acc s ++ log, by simp [whileLoop, hc, h1], by simp [loopLog, hc, h2], ?_,
        h4, h5⟩
      intro a ha
      rcases List.mem_append.mp ha with h | h
      · exact hP a h
      · exact h3 a h
    · refine ⟨s, [], by simp [whileLoop, hc], by simp [loopLog, hc], ?_, hs,
        by simpa using hc⟩
      intro a ha
      cases ha

theorem unrolledLoop_log {α : Type} (op : α → α → α) (S column rows ipos : Nat)
    (rhs : VecExpr α) (m0 : DenseMatrix α) (hS : 0 < S)
    (hbound : rows + 4 * S ≤ 18446744073709551616) (hipos : ipos ≤ rows) :
    ∃ s' log,
      unrolledLoop op S column ipos rhs (rows + 1)
        { i := 0, left := 0, right := 0, matrix := m0 } = some s' ∧
      unrolledLog op S column ipos rhs (rows + 1)
        { i := 0, left := 0, right := 0, matrix := m0 } = some log ∧
      (∀ a ∈ log, a.batched = true ∧ a.count = S ∧ a.right = a.left ∧
        (∃ q, a.left = S * q) ∧ a.left < ipos) ∧
      s'.left = s'.i ∧ s'.right = s'.i ∧ (∃ q, s'.i = S * q) ∧ s'.i < rows + S := by
  obtain ⟨s', log, h1, h2, h3, h4, _⟩ := loopLog_spec
    (fun s : KernelState α => decide (sizeT (s.i + sizeT (S * 3)) < ipos))
    (fun s =>
      let s4 := simdBatch op S column rhs (simdBatch op S column rhs
        (simdBatch op S column rhs (simdBatch op S column rhs s)))
      { s4 with i := sizeT (s.i + sizeT (S * 4)) })
    (fun s =>
      let s1 := simdBatch op S column rhs s
      let s2 := simdBatch op S column rhs s1
      let s3 := simdBatch op S column rhs s2
      [batchAccess S s, batchAccess S s1, batchAccess S s2, batchAccess S s3])
    (fun s => s.left = s.i ∧ s.right = s.i ∧ (∃ q, s.i = S * q) ∧ s.i < rows + S)
    (fun a => a.batched = true ∧ a.count = S ∧ a.right = a.left ∧
        (∃ q, a.left = S * q) ∧ a.left < ipos)
    (fun s => ipos - s.i)
    (by
      rintro s ⟨hl, hr, ⟨q, hq⟩, hi⟩ hc
      simp only [decide_eq_true_eq, sizeT] at hc
      have hc' : s.i + S * 3 < ipos := by omega
      have hw : sizeT (s.i + sizeT (S * 4)) = s.i + 4 * S := by simp only [sizeT]; omega
      have e1 : S * (q + 1) = S * q + S := by ring
      have e2 : S * (q + 2) = S * q + 2 * S := by ring
      have e3 : S * (q + 3) = S * q + 3 * S := by ring
      have e4 : S * (q + 4) = S * q + 4 * S := by ring
      refine ⟨⟨?_, ?_, ⟨q + 4, ?_⟩, ?_⟩, ?_, ?_⟩
      · show s.left + S + S + S + S = sizeT (s.i + sizeT (S * 4))
        rw [hw]; omega
      · show s.right + S + S + S + S = sizeT (s.i + sizeT (S * 4))
        rw [hw]; omega
      · show sizeT (s.i + sizeT (S * 4)) = S * (q + 4)
        rw [hw]; omega
      · show sizeT (s.i + sizeT (S * 4)) < rows + S
        rw [hw]; omega
      · show ipos - sizeT (s.i + sizeT (S * 4)) < ipos - s.i
        rw [hw]; omega
      · intro a ha
        simp only [List.mem_cons, List.mem_singleton, List.not_mem_nil, or_false] at ha
        rcases ha with rfl | rfl | rfl | rfl
        · refine ⟨rfl, rfl, ?_, ⟨q, ?_⟩, ?_⟩
          · show s.right = s.left
            omega
          · show s.left = S * q
            omega
          · show s.left < ipos
            omega
        · refine ⟨rfl, rfl, ?_, ⟨q + 1, ?_⟩, ?_⟩
          · show s.right + S = s.left + S
            omega
          · show s.left + S = S * (q + 1)
            omega
          · show s.left + S < ipos
            omega
        · refine ⟨rfl, rfl, ?_, ⟨q + 2, ?_⟩, ?_⟩
          · show s.right + S + S = s.left + S + S
            omega
          · show s.left + S + S = S * (q + 2)
            omega
          · show s.left + S + S < ipos
            omega
        · refine ⟨rfl, rfl, ?_, ⟨q + 3, ?_⟩, ?_⟩
          · show s.right + S + S + S = s.left + S + S + S
            omega
          · show s.left + S + S + S = S * (q + 3)
            omega
          · show s.left + S + S + S < ipos
            omega)
    (rows + 1) { i := 0, left := 0, right := 0, matrix := m0 }
    ⟨rfl, rfl, ⟨0, rfl⟩, by show 0 < rows + S; omega⟩ (by show ipos - 0 < rows + 1; omega)
  exact ⟨s', log, h1, h2, h3, h4⟩

theorem batchLoop_log {α : Type} (op : α → α → α) (S column rows ipos : Nat)
    (rhs : VecExpr α) (hS : 0 < S)
    (hbound : rows + 4 * S ≤ 18446744073709551616) (hipos : ipos ≤ rows)
    (s : KernelState α) (hl : s.left = s.i) (hr : s.right = s.i) (hq : ∃ q, s.i = S * q)
    (hi : s.i < rows + S) :
    ∃ s' log, batchLoop op S column ipos rhs (rows + 1) s = some s' ∧
      batchLog op S column ipos rhs (rows + 1) s = some log ∧
      (∀ a ∈ log, a.batched = true ∧ a.count = S ∧ a.right = a.left ∧
        (∃ q, a.left = S * q) ∧ a.left < ipos) ∧
      s'.left = s'.i ∧ s'.right = s'.i ∧ ipos ≤ s'.i := by
  obtain ⟨s', log, h1, h2, h3, ⟨l, r, _, _⟩, h5⟩ := loopLog_spec
    (fun s : KernelState α => decide (s.i < ipos))
    (fun s => { simdBatch op S column rhs s with i := sizeT (s.i + S) })
    (fun s => [batchAccess S s])
    (fun s => s.left = s.i ∧ s.right = s.i ∧ (∃ q, s.i = S * q) ∧ s.i < rows + S)
    (fun a => a.batched = true ∧ a.count = S ∧ a.right = a.left ∧
        (∃ q, a.left = S * q) ∧ a.left < ipos)
    (fun s => ipos - s.i)
    (by
      rintro s ⟨hl, hr, ⟨q, hq⟩, hi⟩ hc
      simp only [decide_eq_true_eq] at hc
      have hw : sizeT (s.i + S) = s.i + S := by simp only [sizeT]; omega
      have e1 : S * (q + 1) = S * q + S := by ring
      refine ⟨⟨?_, ?_, ⟨q + 1, ?_⟩, ?_⟩, ?_, ?_⟩
      · show s.left + S = sizeT (s.i + S)
        rw [hw]; omega
      · show s.right + S = sizeT (s.i + S)
        rw [hw]; omega
      · show sizeT (s.i + S) = S * (q + 1)
        rw [hw]; omega
      · show sizeT (s.i + S) < rows + S
        rw [hw]; omega
      · show ipos - sizeT (s.i + S) < ipos - s.i
        rw [hw]; omega
      · intro a ha
        simp only [List.mem_singleton] at ha
        subst ha
        refine ⟨rfl, rfl, ?_, ⟨q, ?_⟩, ?_⟩
        · show s.right = s.left
          omega
        · show s.left = S * q
          omega
        · show s.left < ipos
          omega)
    (rows + 1) s ⟨hl, hr, hq, hi⟩ (by show ipos - s.i < rows + 1; omega)
  simp only [decide_eq_false_iff_not, not_lt] at h5
  exact ⟨s', log, h1, h2, h3, l, r, h5⟩

theorem remainderLoop_log {α : Type} (op : α → α → α) (remainder : Bool)
    (column rows ipos : Nat) (rhs : VecExpr α)
    (hbound : rows < 18446744073709551616)
    (s : KernelState α) (hl : s.left = s.i) (hr : s.right = s.i) (hi : ipos ≤ s.i) :
    ∃ s' log, remainderLoop op remainder column rows rhs (rows + 1) s = some s' ∧
      remainderLog op remainder column rows rhs (rows + 1) s = some log ∧
      (∀ a ∈ log, a.batched = false ∧ a.count = 1 ∧ a.right = a.left ∧ remainder = true ∧
        ipos ≤ a.left ∧ a.left < rows) := by
  obtain ⟨s', log, h1, h2, h3, _, _⟩ := loopLog_spec
    (fun s : KernelState α => remainder && decide (s.i < rows))
    (fun s => { scalarStep op column rhs s with i := sizeT (s.i + 1) })
    (fun s => [scalarAccess s])
    (fun s => s.left = s.i ∧ s.right = s.i ∧ ipos ≤ s.i)
    (fun a => a.batched = false ∧ a.count = 1 ∧ a.right = a.left ∧ remainder = true ∧
        ipos ≤ a.left ∧ a.left < rows)
    (fun s => rows - s.i)
    (by
      rintro s ⟨hl, hr, hi⟩ hc
      simp only [Bool.and_eq_true, decide_eq_true_eq] at hc
      obtain ⟨hrem, hc⟩ := hc
      have hw : sizeT (s.i + 1) = s.i + 1 := by simp only [sizeT]; omega
      refine ⟨⟨?_, ?_, ?_⟩, ?_, ?_⟩
      · show s.left + 1 = sizeT (s.i + 1)
        rw [hw]; omega
      · show s.right + 1 = sizeT (s.i + 1)
        rw [hw]; omega
      · show ipos ≤ sizeT (s.i + 1)
        rw [hw]; omega
      · show rows - sizeT (s.i + 1) < rows - s.i
        rw [hw]; omega
      · intro a ha
        simp only [List.mem_singleton] at ha
        subst ha
        refine ⟨rfl, rfl, ?_, hrem, ?_, ?_⟩
        · show s.right = s.left
          omega
        · show ipos ≤ s.left
          omega
        · show s.left < rows
          omega)
    (rows + 1) s ⟨hl, hr, hi⟩ (by show rows - s.i < rows + 1; omega)
  exact ⟨s', log, h1, h2, h3⟩

/-- The bounds of one access, from its position relative to the loop end `ipos`: a batch
that starts at a multiple of `S` below `ipos` ends at or before `rows` when `ipos` is the
largest multiple of `S` not above `rows`, and at or before `rows` rounded up to a multiple
of `S` when `ipos = rows`. -/
theorem access_bounds (r : Bool) (rows S p : Nat) (hpow : S = 2 ^ p)
    (hbound : rows + 4 * S ≤ 18446744073709551616) (a : Access)
    (h : (a.batched = true ∧ a.count = S ∧ a.right = a.left ∧
            (∃ q, a.left = S * q) ∧ a.left < simdEnd r rows S) ∨
         (a.batched = false ∧ a.count = 1 ∧ a.right = a.left ∧ r = true ∧
            simdEnd r rows S ≤ a.left ∧ a.left < rows)) :
    a.right = a.left ∧ a.left < rows ∧
    (a.batched = true → a.count = S ∧ (∃ q, a.left = S * q) ∧
      a.left < simdEnd r rows S) ∧
    (a.batched = false → a.count = 1 ∧ r = true ∧ rows - rows % S ≤ a.left) ∧
    (r = true → a.left + a.count ≤ rows) ∧
    (r = false → a.left + a.count ≤ roundUp rows S) := by
  obtain ⟨hS, hle, hT, hTq, _, hF⟩ := simdEnd_facts r rows S p hpow hbound
  rcases h with ⟨hb, hc, hr, ⟨q, hq⟩, hlt⟩ | ⟨hb, hc, hr, hrem, hge, hlt⟩
  · refine ⟨hr, by omega, fun _ => ⟨hc, ⟨q, hq⟩, hlt⟩, ?_, ?_, ?_⟩
    · intro h; rw [hb] at h; cases h
    · intro h
      obtain ⟨q', hq'⟩ := hTq h
      have h1 : S * q < S * q' := by rw [← hq, ← hq']; exact hlt
      have h2 : q < q' := Nat.lt_of_mul_lt_mul_left h1
      have h3 : S * (q + 1) ≤ S * q' := Nat.mul_le_mul_left S h2
      have e1 : S * (q + 1) = S * q + S := by ring
      omega
    · intro h
      have hi := hF h
      have h1 : (q + 1) * S ≤ rows + S - 1 := by
        have e1 : (q + 1) * S = S * q + S := by ring
        omega
      have h2 : q + 1 ≤ (rows + S - 1) / S := (Nat.le_div_iff_mul_le hS).mpr h1
      have h3 : (q + 1) * S ≤ (rows + S - 1) / S * S := Nat.mul_le_mul_right S h2
      have e1 : (q + 1) * S = S * q + S := by ring
      show a.left + a.count ≤ (rows + S - 1) / S * S
      omega
  · refine ⟨hr, hlt, ?_, fun _ => ⟨hc, hrem, ?_⟩, ?_, ?_⟩
    · intro h; rw [hb] at h; cases h
    · rw [← hT hrem]; exact hge
    · intro _; omega
    · intro h; rw [hrem] at h; cases h

/-- The accesses of the unrolled-by-four loop shape: the kernel completes, and every access
it makes lies within the bounds of `access_bounds`. -/
theorem simdLoopsLog_bounds {α : Type} (op : α → α → α) (r : Bool)
    (S column rows p : Nat) (rhs : VecExpr α) (m0 : DenseMatrix α) (hpow : S = 2 ^ p)
    (hbound : rows + 4 * S ≤ 18446744073709551616) :
    ∃ log result,
      simdLoopsLog op r S column rows (simdEnd r rows S) rhs m0 = some log ∧
      simdLoops op r S column rows (simdEnd r rows S) rhs m0 = some result ∧
      ∀ a ∈ log,
        a.right = a.left ∧ a.left < rows ∧
        (a.batched = true → a.count = S ∧ (∃ q, a.left = S * q) ∧
          a.left < simdEnd r rows S) ∧
        (a.batched = false → a.count = 1 ∧ r = true ∧ rows - rows % S ≤ a.left) ∧
        (r = true → a.left + a.count ≤ rows) ∧
        (r = false → a.left + a.count ≤ roundUp rows S) := by
  obtain ⟨hS, hle, _⟩ := simdEnd_facts r rows S p hpow hbound
  obtain ⟨s1, l1, e1, g1, p1, a1, b1, q1, i1⟩ := unrolledLoop_log op S column rows
    (simdEnd r rows S) rhs m0 hS hbound hle
  obtain ⟨s2, l2, e2, g2, p2, a2, b2, i2⟩ := batchLoop_log op S column rows
    (simdEnd r rows S) rhs hS hbound hle s1 a1 b1 q1 i1
  obtain ⟨s3, l3, e3, g3, p3⟩ := remainderLoop_log op r column rows
    (simdEnd r rows S) rhs (by omega) s2 a2 b2 i2
  refine ⟨l1 ++ l2 ++ l3, s3.matrix, by simp [simdLoopsLog, e1, g1, e2, g2, g3],
    by simp [simdLoops, e1, e2, e3], ?_⟩
  intro a ha
  apply access_bounds r rows S p hpow hbound a
  rcases List.mem_append.mp ha with h | h
  · rcases List.mem_append.mp h with h | h
    · exact Or.inl (p1 a h)
    · exact Or.inl (p2 a h)
  · exact Or.inr (p3 a h)

/-- The accesses of the streaming loop shape: the kernel completes, and every access it
makes lies within the bounds of `access_bounds`. -/
theorem streamLoopsLog_bounds {α : Type} (r : Bool)
    (S column rows p : Nat) (rhs : VecExpr α) (m0 : DenseMatrix α) (hpow : S = 2 ^ p)
    (hbound : rows + 4 * S ≤ 18446744073709551616) :
    ∃ log result,
      streamLoopsLog r S column rows (simdEnd r rows S) rhs m0 = some log ∧
      streamLoops r S column rows (simdEnd r rows S) rhs m0 = some result ∧
      ∀ a ∈ log,
        a.right = a.left ∧ a.left < rows ∧
        (a.batched = true → a.count = S ∧ (∃ q, a.left = S * q) ∧
          a.left < simdEnd r rows S) ∧
        (a.batched = false → a.count = 1 ∧ r = true ∧ rows - rows % S ≤ a.left) ∧
        (r = true → a.left + a.count ≤ rows) ∧
        (r = false → a.left + a.count ≤ roundUp rows S) := by
  obtain ⟨hS, hle, _⟩ := simdEnd_facts r rows S p hpow hbound
  obtain ⟨s2, l2, e2, g2, p2, a2, b2, i2⟩ := batchLoop_log (fun _ x => x) S column rows
    (simdEnd r rows S) rhs hS hbound hle { i := 0, left := 0, right := 0, matrix := m0 }
    rfl rfl ⟨0, rfl⟩ (by show 0 < rows + S; omega)
  obtain ⟨s3, l3, e3, g3, p3⟩ := remainderLoop_log (fun _ x => x) r column rows
    (simdEnd r rows S) rhs (by omega) s2 a2 b2 i2
  refine ⟨l2 ++ l3, s3.matrix, by simp [streamLoopsLog, e2, g2, g3],
    by simp [streamLoops, e2, e3], ?_⟩
  intro a ha
  apply access_bounds r rows S p hpow hbound a
  rcases List.mem_append.mp ha with h | h
  · exact Or.inl (p2 a h)
  · exact Or.inr (p3 a h)

/-- C32: every SIMD kernel of the column view completes, and each access it makes through
its iterators stays within the column.  With `remainder` the flag the kernel uses (true when
an operand is not padded or the kernel is `divAssign`) and `ipos` its loop end, every batched
load/store covers `SIMDSIZE` elements starting at a multiple of `SIMDSIZE` below `ipos`, the
scalar accesses occur only with a remainder loop and start at or after
`rows - rows % SIMDSIZE`, both iterators are at the same position, and every access starts
below `size()`; with a remainder loop every access ends at or before `size()`, with both
operands padded it ends at or before `size()` rounded up to the next multiple of
`SIMDSIZE`. -/
theorem C32_simd_accesses_in_bounds {α : Type} [Add α] [Sub α] [Mul α] [Div α]
    (kn : BatchedKernel) (cfg : KernelConfig) (t : MatrixTraits) (column p : Nat)
    (rhs : VecExpr α) (m : DenseMatrix α)
    (hpow : cfg.SIMDSIZE = 2 ^ p)
    (hbound : m.rows + 4 * cfg.SIMDSIZE ≤ 18446744073709551616) :
    ∃ (r : Bool) (log : List Access) (result : DenseMatrix α),
      (r = false ↔ kn ≠ BatchedKernel.divAssign ∧ t.isPadded = true ∧
        rhs.traits.isPadded = true) ∧
      ColumnMajor.batchedAccesses kn cfg t column rhs m = some log ∧
      ColumnMajor.batchedKernel kn cfg t column rhs m = some result ∧
      ∀ a ∈ log,
        a.right = a.left ∧ a.left < m.rows ∧
        (a.batched = true → a.count = cfg.SIMDSIZE ∧ (∃ q, a.left = cfg.SIMDSIZE * q) ∧
          a.left < simdEnd r m.rows cfg.SIMDSIZE) ∧
        (a.batched = false → a.count = 1 ∧ r = true ∧
          m.rows - m.rows % cfg.SIMDSIZE ≤ a.left) ∧
        (r = true → a.left + a.count ≤ m.rows) ∧
        (r = false → a.left + a.count ≤ roundUp m.rows cfg.SIMDSIZE) := by
  have hr : ∀ k : BatchedKernel, k ≠ BatchedKernel.divAssign →
      (((!t.isPadded || !rhs.traits.isPadded) = false) ↔
        k ≠ BatchedKernel.divAssign ∧ t.isPadded = true ∧ rhs.traits.isPadded = true) := by
    intro k hk
    cases t.isPadded <;> cases rhs.traits.isPadded <;> simp [hk]
  cases kn with
  | assign =>
    by_cases hs : ColumnMajor.streamingSelected cfg (ColumnMajor.size m) rhs = true
    · obtain ⟨log, result, h1, h2, h3⟩ := streamLoopsLog_bounds
        (!t.isPadded || !rhs.traits.isPadded) cfg.SIMDSIZE column m.rows p rhs m hpow hbound
      refine ⟨_, log, result, hr _ (by decide), ?_, ?_, h3⟩
      · simp only [ColumnMajor.batchedAccesses, hs, if_true]
        exact h1
      · simp only [ColumnMajor.batchedKernel, ColumnMajor.assignSIMD, hs, if_true]
        exact h2
    · obtain ⟨log, result, h1, h2, h3⟩ := simdLoopsLog_bounds (fun _ x : α => x)
        (!t.isPadded || !rhs.traits.isPadded) cfg.SIMDSIZE column m.rows p rhs m hpow hbound
      refine ⟨_, log, result, hr _ (by decide), ?_, ?_, h3⟩
      · simp only [ColumnMajor.batchedAccesses, hs, if_false]
        exact h1
      · simp only [ColumnMajor.batchedKernel, ColumnMajor.assignSIMD, hs, if_false]
        exact h2
  | addAssign =>
    obtain ⟨log, result, h1, h2, h3⟩ := simdLoopsLog_bounds (fun l x : α => l + x)
      (!t.isPadded || !rhs.traits.isPadded) cfg.SIMDSIZE column m.rows p rhs m hpow hbound
    exact ⟨_, log, result, hr _ (by decide), h1, h2, h3⟩
  | subAssign =>
    obtain ⟨log, result, h1, h2, h3⟩ := simdLoopsLog_bounds (fun l x : α => l - x)
      (!t.isPadded || !rhs.traits.isPadded) cfg.SIMDSIZE column m.rows p rhs m hpow hbound
    exact ⟨_, log, result, hr _ (by decide), h1, h2, h3⟩
  | multAssign =>
    obtain ⟨log, result, h1, h2, h3⟩ := simdLoopsLog_bounds (fun l x : α => l * x)
      (!t.isPadded || !rhs.traits.isPadded) cfg.SIMDSIZE column m.rows p rhs m hpow hbound
    exact ⟨_, log, result, hr _ (by decide), h1, h2, h3⟩
  | divAssign =>
    obtain ⟨log, result, h1, h2, h3⟩ := simdLoopsLog_bounds (fun l x : α => l / x)
      true cfg.SIMDSIZE column m.rows p rhs m hpow hbound
    exact ⟨true, log, result, by simp, h1, h2, h3⟩

/-- C32, for the kernel `multAssign` on column `1` of a padded `15×2` matrix with a padded
right-hand side and packs of 4 elements: the accesses are the four batches at the rows
`0, 4, 8, 12`, the last of which ends at `16`, the size rounded up. -/
theorem C32_simd_accesses_in_bounds_witness :
    smallConfig.SIMDSIZE = 2 ^ 2 ∧
    sample15x2.rows + 4 * smallConfig.SIMDSIZE ≤ 18446744073709551616 ∧
    (∃ (r : Bool) (log : List Access) (result : DenseMatrix Int),
      (r = false ↔ BatchedKernel.multAssign ≠ BatchedKernel.divAssign ∧
        paddedTraits.isPadded = true ∧
        (paddedVector 15 (fun i => (i : Int))).traits.isPadded = true) ∧
      ColumnMajor.batchedAccesses BatchedKernel.multAssign smallConfig paddedTraits 1
        (paddedVector 15 (fun i => (i : Int))) sample15x2 = some log ∧
      ColumnMajor.batchedKernel BatchedKernel.multAssign smallConfig paddedTraits 1
        (paddedVector 15 (fun i => (i : Int))) sample15x2 = some result ∧
      ∀ a ∈ log,
        a.right = a.left ∧ a.left < sample15x2.rows ∧
        (a.batched = true → a.count = smallConfig.SIMDSIZE ∧
          (∃ q, a.left = smallConfig.SIMDSIZE * q) ∧
          a.left < simdEnd r sample15x2.rows smallConfig.SIMDSIZE) ∧
        (a.batched = false → a.count = 1 ∧ r = true ∧
          sample15x2.rows - sample15x2.rows % smallConfig.SIMDSIZE ≤ a.left) ∧
        (r = true → a.left + a.count ≤ sample15x2.rows) ∧
        (r = false → a.left + a.count ≤ roundUp sample15x2.rows smallConfig.SIMDSIZE)) ∧
    ColumnMajor.batchedAccesses BatchedKernel.multAssign smallConfig paddedTraits 1
        (paddedVector 15 (fun i => (i : Int))) sample15x2 =
      some [{ batched := true, left := 0, right := 0, count := 4 },
            { batched := true, left := 4, right := 4, count := 4 },
            { batched := true, left := 8, right := 8, count := 4 },
            { batched := true, left := 12, right := 12, count := 4 }] ∧
    ColumnMajor.batchedAccesses BatchedKernel.divAssign smallConfig paddedTraits 1
        (paddedVector 15 (fun i => (i : Int))) sample15x2 =
      some [{ batched := true, left := 0, right := 0, count := 4 },
            { batched := true, left := 4, right := 4, count := 4 },
            { batched := true, left := 8, right := 8, count := 4 },
            { batched := false, left := 12, right := 12, count := 1 },
            { batched := false, left := 13, right := 13, count := 1 },
            { batched := false, left := 14, right := 14, count := 1 }] ∧
    roundUp sample15x2.rows smallConfig.SIMDSIZE = 16 :=
  ⟨by decide, by decide,
    C32_simd_accesses_in_bounds BatchedKernel.multAssign smallConfig paddedTraits 1 2
      (paddedVector 15 (fun i => (i : Int))) sample15x2 (by decide) (by decide),
    by decide, by decide, by decide⟩


/-- C33 (counterexample): over the integers, where `-1 ≠ 1`, the matrix without rows is both
strictly lower and uni-lower, and for this strictly lower `B` and uni-lower `A` the
difference `B - A` is uni-lower: it has no diagonal element. -/
theorem C33_difference_without_rows_is_uni_lower :
    (-1 : Int) ≠ 1 ∧ (ofRows 0 []).IsUniLower ∧ (ofRows 0 []).IsStrictlyLower ∧
    SameShape (ofRows 0 []) (ofRows 0 []) ∧
    (Sub.map (ofRows 0 []) (ofRows 0 [])).IsUniLower ∧
    (Sub.map (ofRows 0 []) (ofRows 0 [])).rows = 0 :=
  ⟨by decide,
    ⟨⟨rfl, fun i hi => absurd hi (Nat.not_lt_zero i)⟩,
      fun i hi => absurd hi (Nat.not_lt_zero i)⟩,
    ⟨⟨rfl, fun i hi => absurd hi (Nat.not_lt_zero i)⟩,
      fun i hi => absurd hi (Nat.not_lt_zero i)⟩,
    ⟨rfl, rfl⟩,
    ⟨⟨rfl, fun i hi => absurd hi (Nat.not_lt_zero i)⟩,
      fun i hi => absurd hi (Nat.not_lt_zero i)⟩,
    rfl⟩

end Blaze
